import Mathlib

/-!
# MultinomialLogisticLossMaskLayer (caffe)

Shallow embedding of `src/caffe/layers/multinomial_logistic_loss_mask_layer.cpp`.

Modelling conventions.

* `Dtype` is an arbitrary linearly ordered field `α` with a floor function
  (instantiated at `ℚ` for evaluation and at `ℝ` with `Real.log` for the
  statements about logarithms).
* A buffer (`cpu_data`, `cpu_diff`) is a total map from the flat C++ `int`
  index to `α`; a blob owns the cells `0 ≤ k < count()`.  An access outside
  that range is an out-of-bounds access of the C++ program.
* `log` (from `<cmath>`) and the constant `kLOG_THRESHOLD` (declared in a
  header outside the layer's two source files) are parameters.
* `DCHECK_*` is a glog assertion that is active only in a debug build; the
  flag `debug` says whether it is.  `CHECK_*` and `LOG(FATAL)` are always
  active.
* The source names `outer_num` and `label` in the loops; they are read as the
  member `outer_num_` and the local `bottom_label`, the only declarations they
  can refer to; `bottom_mask` in `Backward_cpu` is read as
  `bottom[2]->cpu_data()`, as `Forward_cpu` declares it.  The variable `prob`
  declared in both branches of the `if`/`else` is read as one variable
  assigned in either branch.
* Shapes, loop counters and flat indices are `Nat`/`Int`.  The `int` division
  `count() / outer_num_` of lines 47 and 95 is undefined for `outer_num_ = 0`
  (an empty batch): the process traps there, before any loop runs and before
  any buffer is written.  Forward then ends in `Except.error`, backward in
  `Outcome.trap`.
* `static_cast<int>` yields a 32-bit `int`: the truncation toward zero when
  that is representable, and `INT_MIN` otherwise (where C++ leaves the
  conversion undefined and the x86 conversion instruction delivers `INT_MIN`).
* A quotient `1 / d` with `d = 0` is not a number of `α` (IEEE arithmetic
  gives an infinity, and a NaN once it is scaled by `0`).  The mask-gradient
  pass records the cells at which it divides by zero in `mask_nonfinite`; the
  number kept in `mask_diff` for such a cell (the `1 / 0` of `α`) carries no
  meaning.
-/

namespace caffe

/-- Blob of logical shape `(num, channels, height, width)` with its flat data
and gradient buffers. -/
structure Blob (α : Type) where
  num : Nat
  channels : Nat
  height : Nat
  width : Nat
  cpu_data : Int → α
  cpu_diff : Int → α

/-- Number of cells of a blob, `Blob::count()`. -/
def Blob.count {α : Type} (b : Blob α) : Nat :=
  b.num * b.channels * b.height * b.width

/-- Member fields of the layer (header, lines 31-33). -/
structure MultinomialLogisticLossMaskLayer where
  has_ignore_label_ : Bool
  ignore_label_ : Int
  outer_num_ : Nat
  inner_num_ : Nat

/-- Lines 10-21: `LayerSetUp`, with the `ignore_label` of the loss parameter
given as an optional value.  The call of the base class `LossLayer` is left
out; without an ignore label the field `ignore_label_` keeps its old value. -/
def LayerSetUp (debug : Bool) (self : MultinomialLogisticLossMaskLayer)
    (loss_param_ignore_label : Option Int) : Except String MultinomialLogisticLossMaskLayer :=
  match loss_param_ignore_label with
  | none => Except.ok { self with has_ignore_label_ := false }
  | some v =>
    if debug && !decide (v > 0) then
      Except.error "Check failed: ignore_label_ > 0 Ignore label index should be larger than 0"
    else
      Except.ok { self with has_ignore_label_ := true, ignore_label_ := v }

/-- Lines 23-39: `Reshape`.  The call of the base class `LossLayer` is left
out; the six `CHECK_EQ` are always active; `count(0, 1)` is `num` and
`count(2)` is `height * width`. -/
def Reshape {α : Type} (self : MultinomialLogisticLossMaskLayer)
    (bottom0 bottom1 bottom2 : Blob α) : Except String MultinomialLogisticLossMaskLayer :=
  if bottom1.channels ≠ 1 then
    Except.error "Check failed: bottom[1]->channels() == 1"
  else if bottom1.height ≠ bottom0.height then
    Except.error "Check failed: bottom[1]->height() == bottom[0]->height()"
  else if bottom1.width ≠ bottom0.width then
    Except.error "Check failed: bottom[1]->width() == bottom[0]->width()"
  else if bottom2.channels ≠ 1 then
    Except.error "Check failed: bottom[2]->channels() == 1"
  else if bottom2.height ≠ bottom0.height then
    Except.error "Check failed: bottom[2]->height() == bottom[0]->height()"
  else if bottom2.width ≠ bottom0.width then
    Except.error "Check failed: bottom[2]->width() == bottom[0]->width()"
  else
    Except.ok { self with outer_num_ := bottom0.num,
                          inner_num_ := bottom0.height * bottom0.width }

/-- The two gradient buffers written by the backward pass:
`bottom[0]->mutable_cpu_diff()` and `bottom[2]->mutable_cpu_diff()`.
`mask_nonfinite` marks the cells of `mask_diff` whose stored value is the
quotient of a division by zero (an infinity or a NaN) and not the number
recorded in `mask_diff`. -/
structure Diffs (α : Type) where
  bottom_diff : Int → α
  mask_diff : Int → α
  mask_nonfinite : Int → Bool

/-- Accumulator of the mask-gradient pass (lines 122-143): the buffer
`mask_diff`, the cells of it that hold the quotient of a division by zero, and
the local `count`. -/
structure MaskPass (α : Type) where
  mask_diff : Int → α
  mask_nonfinite : Int → Bool
  count : Nat

/-- How a call ends: `LOG(FATAL)` aborts the process in the state reached so
far, an undefined integer operation (division by zero) traps in the state
reached so far, otherwise the call returns with its final state. -/
inductive Outcome (σ : Type) where
  | fatal (msg : String) (state : σ) : Outcome σ
  | trap (msg : String) (state : σ) : Outcome σ
  | done (state : σ) : Outcome σ

/-- Whether the call ended in `LOG(FATAL)`. -/
def Outcome.isFatal {σ : Type} : Outcome σ → Bool
  | Outcome.fatal _ _ => true
  | Outcome.trap _ _ => false
  | Outcome.done _ => false

/-- Whether the call returned to its caller. -/
def Outcome.isDone {σ : Type} : Outcome σ → Bool
  | Outcome.fatal _ _ => false
  | Outcome.trap _ _ => false
  | Outcome.done _ => true

/-- State in which the call ended. -/
def Outcome.state {σ : Type} : Outcome σ → σ
  | Outcome.fatal _ s => s
  | Outcome.trap _ s => s
  | Outcome.done s => s

/-- Smallest value of the 32-bit C++ `int`. -/
def INT_MIN : Int := -2147483648

/-- Largest value of the 32-bit C++ `int`. -/
def INT_MAX : Int := 2147483647

section Embedding

variable {α : Type} [LinearOrderedField α] [FloorRing α]

/-- C++ `static_cast<int>(x)` on a floating value: the fractional part is
discarded (truncation toward zero) and the result is a 32-bit `int`.  When the
truncated value is not representable in `int` the conversion is undefined in
C++; the value delivered by the x86 conversion instruction, `INT_MIN`, is
taken. -/
def static_cast_int (x : α) : Int :=
  let t : Int := if 0 ≤ x then Int.floor x else Int.ceil x
  if INT_MIN ≤ t ∧ t ≤ INT_MAX then t else INT_MIN

/-- Lines 52, 103, 125: `static_cast<int>(label[i * inner_num_ + j])`. -/
def label_value (bottom_label : Int → α) (inner_num_ i j : Nat) : Int :=
  static_cast_int (bottom_label ((i : Int) * (inner_num_ : Int) + (j : Int)))

/-- Modelled from the spec: `caffe_set(n, a, y)`, declared in
`caffe/util/math_functions.hpp` and defined outside the layer's two source
files, fills the first `n` cells of `y` with `a` (the zero-fill of the
gradient buffers). -/
def caffe_set (n : Nat) (a : α) (y : Int → α) : Int → α :=
  fun k => if 0 ≤ k ∧ k < (n : Int) then a else y k

/-- Modelled from the spec: `caffe_scal(n, a, x)`, declared in
`caffe/util/math_functions.hpp` and defined outside the layer's two source
files, multiplies the first `n` cells of `x` by `a` (the scaling of the whole
gradient tensor). -/
def caffe_scal (n : Nat) (a : α) (x : Int → α) : Int → α :=
  fun k => if 0 ≤ k ∧ k < (n : Int) then a * x k else x k

/-- Lines 61-72: the clamped effective probability `prob`. -/
def forward_prob (kLOG_THRESHOLD : α) (bottom_data bottom_mask : Int → α)
    (dim inner_num_ i j : Nat) (label_value : Int) : α :=
  if label_value ≠ 0 then
    max (bottom_data ((i : Int) * (dim : Int) + label_value * (inner_num_ : Int) + (j : Int))
          * bottom_mask ((i : Int) * (inner_num_ : Int) + (j : Int)))
        kLOG_THRESHOLD
  else
    max (bottom_data ((i : Int) * (dim : Int) + label_value * (inner_num_ : Int) + (j : Int))
          * (1 - bottom_mask ((i : Int) * (inner_num_ : Int) + (j : Int))))
        kLOG_THRESHOLD

/-- Lines 52-75: one iteration of the inner loop of `Forward_cpu` on the
accumulator `(loss, count)`. -/
def forward_body (debug : Bool) (kLOG_THRESHOLD : α) (log : α → α)
    (self : MultinomialLogisticLossMaskLayer) (bottom0 bottom1 bottom2 : Blob α)
    (dim i j : Nat) (st : α × Nat) : Except String (α × Nat) :=
  let label_value := label_value bottom1.cpu_data self.inner_num_ i j
  if debug && !decide (label_value ≥ 0) then
    Except.error "Check failed: label_value >= 0"
  else if debug && !decide (label_value < (bottom0.channels : Int)) then
    Except.error "Check failed: label_value < bottom[0].shape(1)"
  else if self.has_ignore_label_ && label_value == self.ignore_label_ then
    Except.ok st
  else
    let prob := forward_prob kLOG_THRESHOLD bottom0.cpu_data bottom2.cpu_data
      dim self.inner_num_ i j label_value
    Except.ok (st.1 - log prob, st.2 + 1)

/-- Lines 47-77: the double loop of `Forward_cpu`, returning `(loss, count)`.
The division of line 47 comes first and traps when `outer_num_` is `0`. -/
def forward_loop (debug : Bool) (kLOG_THRESHOLD : α) (log : α → α)
    (self : MultinomialLogisticLossMaskLayer) (bottom0 bottom1 bottom2 : Blob α) :
    Except String (α × Nat) :=
  if self.outer_num_ = 0 then
    Except.error "Integer division by zero: bottom[0]->count() / outer_num_"
  else
    let dim := bottom0.count / self.outer_num_
    (List.range self.outer_num_).foldlM
      (fun st i => (List.range self.inner_num_).foldlM
        (fun st j =>
          forward_body debug kLOG_THRESHOLD log self bottom0 bottom1 bottom2 dim i j st)
        st)
      ((0 : α), 0)

/-- Lines 41-79: `Forward_cpu`; the result is the value stored in
`top[0]->mutable_cpu_data()[0]`, or the reason why the call did not return
(the division by zero of line 47, or a failed debug assertion). -/
def Forward_cpu (debug : Bool) (kLOG_THRESHOLD : α) (log : α → α)
    (self : MultinomialLogisticLossMaskLayer) (bottom0 bottom1 bottom2 : Blob α) :
    Except String α :=
  match forward_loop debug kLOG_THRESHOLD log self bottom0 bottom1 bottom2 with
  | Except.error e => Except.error e
  | Except.ok (loss, count) => Except.ok (loss / max (1 : α) (count : α))

/-- Lines 109-111: the clamped raw probability `p`. -/
def backward_p (kLOG_THRESHOLD : α) (bottom_data : Int → α)
    (dim inner_num_ i j : Nat) (label_value : Int) : α :=
  max (bottom_data ((i : Int) * (dim : Int) + label_value * (inner_num_ : Int) + (j : Int)))
    kLOG_THRESHOLD

/-- Lines 103-114: one iteration of the inner loop of the probability-gradient
pass on `(bottom_diff, count)`.  The divisor `p` is at least `kLOG_THRESHOLD`,
hence positive for a positive floor. -/
def backward_data_body (kLOG_THRESHOLD : α)
    (self : MultinomialLogisticLossMaskLayer) (bottom0 bottom1 : Blob α)
    (dim i j : Nat) (st : (Int → α) × Nat) : (Int → α) × Nat :=
  let label_value := label_value bottom1.cpu_data self.inner_num_ i j
  if self.has_ignore_label_ && label_value == self.ignore_label_ then
    st
  else
    let p := backward_p kLOG_THRESHOLD bottom0.cpu_data dim self.inner_num_ i j label_value
    (Function.update st.1
        ((i : Int) * (dim : Int) + label_value * (self.inner_num_ : Int) + (j : Int))
        ((1 : α) / p),
      st.2 + 1)

/-- Lines 100-116: the double loop of the probability-gradient pass. -/
def backward_data_loop (kLOG_THRESHOLD : α)
    (self : MultinomialLogisticLossMaskLayer) (bottom0 bottom1 : Blob α)
    (dim : Nat) (bottom_diff : Int → α) : (Int → α) × Nat :=
  (List.range self.outer_num_).foldl
    (fun st i => (List.range self.inner_num_).foldl
      (fun st j => backward_data_body kLOG_THRESHOLD self bottom0 bottom1 dim i j st)
      st)
    (bottom_diff, 0)

/-- Lines 131-133: the clamped mask value `m`. -/
def backward_m (kLOG_THRESHOLD : α) (bottom_mask : Int → α) (inner_num_ i j : Nat) : α :=
  max (bottom_mask ((i : Int) * (inner_num_ : Int) + (j : Int))) kLOG_THRESHOLD

/-- Lines 135-140: the denominator of the reciprocal stored in `mask_diff`:
`m` for a non-zero label, `m - 1` for label `0`. -/
def backward_mask_denominator (kLOG_THRESHOLD : α) (bottom_mask : Int → α)
    (inner_num_ i j : Nat) (label_value : Int) : α :=
  if label_value ≠ 0 then backward_m kLOG_THRESHOLD bottom_mask inner_num_ i j
  else backward_m kLOG_THRESHOLD bottom_mask inner_num_ i j - 1

/-- Lines 125-141: one iteration of the inner loop of the mask-gradient pass.
The store of lines 136/139 divides by `m`, or by `m - 1` for label `0`; when
that divisor is `0` (label `0` and `m = 1`) the stored value is an infinity:
the cell is marked in `mask_nonfinite` (and the number that `mask_diff` gets,
the `1 / 0` of `α`, carries no meaning), otherwise it is unmarked and holds
the quotient. -/
def backward_mask_body (kLOG_THRESHOLD : α)
    (self : MultinomialLogisticLossMaskLayer) (bottom1 bottom2 : Blob α)
    (i j : Nat) (st : MaskPass α) : MaskPass α :=
  let label_value := label_value bottom1.cpu_data self.inner_num_ i j
  if self.has_ignore_label_ && label_value == self.ignore_label_ then
    st
  else
    let d := backward_mask_denominator kLOG_THRESHOLD bottom2.cpu_data
      self.inner_num_ i j label_value
    { mask_diff := Function.update st.mask_diff
        ((i : Int) * (self.inner_num_ : Int) + (j : Int)) ((1 : α) / d),
      mask_nonfinite := Function.update st.mask_nonfinite
        ((i : Int) * (self.inner_num_ : Int) + (j : Int)) (decide (d = 0)),
      count := st.count + 1 }

/-- Lines 122-143: the double loop of the mask-gradient pass, started on the
zero-filled buffer (no cell of which is an infinity). -/
def backward_mask_loop (kLOG_THRESHOLD : α)
    (self : MultinomialLogisticLossMaskLayer) (bottom1 bottom2 : Blob α)
    (mask_diff : Int → α) : MaskPass α :=
  (List.range self.outer_num_).foldl
    (fun st i => (List.range self.inner_num_).foldl
      (fun st j => backward_mask_body kLOG_THRESHOLD self bottom1 bottom2 i j st)
      st)
    ⟨mask_diff, fun _ => false, 0⟩

/-- Lines 81-148: `Backward_cpu`.  `top_diff` is `top[0]->cpu_diff()[0]`; the
state is the pair of gradient buffers of `bottom[0]` and `bottom[2]`, with the
cells of the second that hold the quotient of a division by zero.  The
division of line 95 follows the `LOG(FATAL)` of lines 85-88 and precedes the
zero-fill of lines 96-97; it traps when `outer_num_` is `0`.  Scaling
(`caffe_scal`) leaves an infinity an infinity or turns it into a NaN, so the
marked cells stay marked. -/
def Backward_cpu (kLOG_THRESHOLD : α) (self : MultinomialLogisticLossMaskLayer)
    (top_diff : α) (propagate_down : Fin 3 → Bool) (bottom0 bottom1 bottom2 : Blob α) :
    Outcome (Diffs α) :=
  if propagate_down 1 then
    Outcome.fatal "MultinomialLogisticLossMask Layer cannot backpropagate to label inputs."
      ⟨bottom0.cpu_diff, bottom2.cpu_diff, fun _ => false⟩
  else if self.outer_num_ = 0 then
    Outcome.trap "Integer division by zero: bottom[0]->count() / outer_num_"
      ⟨bottom0.cpu_diff, bottom2.cpu_diff, fun _ => false⟩
  else
    let dim := bottom0.count / self.outer_num_
    let bottom_diff := caffe_set bottom0.count (0 : α) bottom0.cpu_diff
    let mask_diff := caffe_set bottom2.count (0 : α) bottom2.cpu_diff
    let bottom_diff :=
      if propagate_down 0 then
        let r := backward_data_loop kLOG_THRESHOLD self bottom0 bottom1 dim bottom_diff
        let scale := - top_diff / max (1 : α) (r.2 : α)
        caffe_scal bottom0.count scale r.1
      else bottom_diff
    let mask :=
      if propagate_down 2 then
        let r := backward_mask_loop kLOG_THRESHOLD self bottom1 bottom2 mask_diff
        let scale := - top_diff / max (1 : α) (r.count : α)
        (caffe_scal bottom2.count scale r.mask_diff, r.mask_nonfinite)
      else (mask_diff, fun _ => false)
    Outcome.done ⟨bottom_diff, mask.1, mask.2⟩

end Embedding

/-! ## Spec-side definitions -/

section SpecSide

variable {α : Type} [LinearOrderedField α] [FloorRing α]

/-- Whether position `(i, j)` is ignored: ignoring is enabled and the label
there equals `ignore_label`. -/
def spec_ignored (has_ignore_label : Bool) (ignore_label : Int) (L : Int → α)
    (HW i j : Nat) : Bool :=
  has_ignore_label && label_value L HW i j == ignore_label

/-- Flat offset of entry `[i, l, j]` of a tensor of shape `(N, C, H, W)` stored
row-major, with `j` running over the `HW = H * W` spatial positions. -/
def spec_offset (C HW i : Nat) (l : Int) (j : Nat) : Int :=
  ((i : Int) * (C : Int) + l) * (HW : Int) + (j : Int)

/-- Entry `T[i, l, j]` of a tensor of shape `(N, C, H, W)`. -/
def spec_at (T : Int → α) (C HW i : Nat) (l : Int) (j : Nat) : α :=
  T (spec_offset C HW i l j)

/-- Effective probability at `(i, j)` for label `l`: `P[i,l,j] * M[i,j]` when
`l ≠ 0` and `P[i,0,j] * (1 - M[i,j])` when `l = 0`. -/
def spec_p_eff (P M : Int → α) (C HW i j : Nat) (l : Int) : α :=
  if l ≠ 0 then spec_at P C HW i l j * spec_at M 1 HW i 0 j
  else spec_at P C HW i 0 j * (1 - spec_at M 1 HW i 0 j)

/-- Number of non-ignored positions. -/
def spec_count (has_ignore_label : Bool) (ignore_label : Int) (L : Int → α)
    (N HW : Nat) : Nat :=
  ∑ i in Finset.range N, ∑ j in Finset.range HW,
    if spec_ignored has_ignore_label ignore_label L HW i j then 0 else 1

/-- Sum over the non-ignored positions of `-log (max p_eff LOG_FLOOR)`. -/
def spec_nll_sum (LOG_FLOOR : α) (log : α → α) (has_ignore_label : Bool)
    (ignore_label : Int) (P L M : Int → α) (N C HW : Nat) : α :=
  ∑ i in Finset.range N, ∑ j in Finset.range HW,
    if spec_ignored has_ignore_label ignore_label L HW i j then 0
    else - log (max (spec_p_eff P M C HW i j (label_value L HW i j)) LOG_FLOOR)

/-- Mean clamped negative log-likelihood over the non-ignored positions. -/
def spec_loss (LOG_FLOOR : α) (log : α → α) (has_ignore_label : Bool)
    (ignore_label : Int) (P L M : Int → α) (N C HW : Nat) : α :=
  spec_nll_sum LOG_FLOOR log has_ignore_label ignore_label P L M N C HW
    / max (1 : α) (spec_count has_ignore_label ignore_label L N HW : α)

end SpecSide

/-! ## Value and trace views of the two passes -/

section Views

variable {α : Type} [LinearOrderedField α] [FloorRing α]

/-- Value that `Forward_cpu` stores in `top[0]`; `0` stands for "no value"
when the call does not return. -/
def Forward_loss (debug : Bool) (kLOG_THRESHOLD : α) (log : α → α)
    (self : MultinomialLogisticLossMaskLayer) (bottom0 bottom1 bottom2 : Blob α) : α :=
  match Forward_cpu debug kLOG_THRESHOLD log self bottom0 bottom1 bottom2 with
  | Except.error _ => 0
  | Except.ok loss => loss

/-- Lines 52-72 instrumented: one iteration of the forward loop on the list of
flat indices at which `bottom_data` has been read so far.  The assertions and
the skip are those of `forward_body`; the index is formed after the skip. -/
def forward_reads_body (debug : Bool) (self : MultinomialLogisticLossMaskLayer)
    (bottom0 bottom1 : Blob α) (dim i j : Nat) (tr : List Int) : Except String (List Int) :=
  let label_value := label_value bottom1.cpu_data self.inner_num_ i j
  if debug && !decide (label_value ≥ 0) then
    Except.error "Check failed: label_value >= 0"
  else if debug && !decide (label_value < (bottom0.channels : Int)) then
    Except.error "Check failed: label_value < bottom[0].shape(1)"
  else if self.has_ignore_label_ && label_value == self.ignore_label_ then
    Except.ok tr
  else
    Except.ok (tr ++
      [(i : Int) * (dim : Int) + label_value * (self.inner_num_ : Int) + (j : Int)])

/-- Lines 47-77 instrumented: the flat indices at which `Forward_cpu` reads
`bottom_data`, in the order of the double loop.  The division of line 47
traps when `outer_num_` is `0`. -/
def forward_reads (debug : Bool) (self : MultinomialLogisticLossMaskLayer)
    (bottom0 bottom1 : Blob α) : Except String (List Int) :=
  if self.outer_num_ = 0 then
    Except.error "Integer division by zero: bottom[0]->count() / outer_num_"
  else
    let dim := bottom0.count / self.outer_num_
    (List.range self.outer_num_).foldlM
      (fun tr i => (List.range self.inner_num_).foldlM
        (fun tr j => forward_reads_body debug self bottom0 bottom1 dim i j tr)
        tr)
      []

/-- Lines 103-114 instrumented: one iteration of the probability-gradient loop
on the list of flat indices at which `bottom_data` has been read and
`bottom_diff` written so far. -/
def backward_accesses_body (self : MultinomialLogisticLossMaskLayer) (bottom1 : Blob α)
    (dim i j : Nat) (tr : List Int) : List Int :=
  let label_value := label_value bottom1.cpu_data self.inner_num_ i j
  if self.has_ignore_label_ && label_value == self.ignore_label_ then
    tr
  else
    tr ++ [(i : Int) * (dim : Int) + label_value * (self.inner_num_ : Int) + (j : Int)]

/-- Lines 95-116 instrumented: the flat indices at which the
probability-gradient pass reads `bottom_data` and writes `bottom_diff`.  The
division of line 95 traps when `outer_num_` is `0`. -/
def backward_accesses (self : MultinomialLogisticLossMaskLayer) (bottom0 bottom1 : Blob α) :
    Except String (List Int) :=
  if self.outer_num_ = 0 then
    Except.error "Integer division by zero: bottom[0]->count() / outer_num_"
  else
    let dim := bottom0.count / self.outer_num_
    Except.ok ((List.range self.outer_num_).foldl
      (fun tr i => (List.range self.inner_num_).foldl
        (fun tr j => backward_accesses_body self bottom1 dim i j tr)
        tr)
      [])

/-- The set of positions `(i, j)`, `i < N`, `j < HW`, whose label is not
ignored. -/
def spec_nonignored (has_ignore_label : Bool) (ignore_label : Int) (L : Int → α)
    (N HW : Nat) : Finset (Nat × Nat) :=
  (Finset.range N ×ˢ Finset.range HW).filter
    (fun p => spec_ignored has_ignore_label ignore_label L HW p.1 p.2 = false)

end Views

/-! ## Auxiliary definitions for the loop invariants -/

section Aux

variable {α : Type}

/-- One accumulation step of a reduction: skip, or subtract a term and count. -/
def accStep [LinearOrderedField α] (skip : Nat → Nat → Bool) (t : Nat → Nat → α) (i j : Nat) (st : α × Nat) :
    α × Nat :=
  if skip i j then st else (st.1 - t i j, st.2 + 1)

/-- One write step of a gradient pass: skip, or store `V` at cell `ix i j` and
count. -/
def writeStep (skip : Nat → Nat → Bool) (ix : Nat → Nat → Int) (V : Int → α)
    (i j : Nat) (st : (Int → α) × Nat) : (Int → α) × Nat :=
  if skip i j then st else (Function.update st.1 (ix i j) (V (ix i j)), st.2 + 1)

/-- The debug assertions of lines 54-55 hold at `(i, j)`, or are compiled out. -/
def dchecks_pass [LinearOrderedField α] [FloorRing α] (debug : Bool) (C : Nat) (L : Int → α) (HW i j : Nat) : Prop :=
  debug = false ∨ (0 ≤ label_value L HW i j ∧ label_value L HW i j < (C : Int))

end Aux

/-! ## Loop lemmas -/

section LoopLemmas

variable {α : Type}

theorem foldlM_range_ok {σ : Type} (f : σ → Nat → Except String σ) (g : σ → Nat → σ)
    (n : Nat) (h : ∀ s i, i < n → f s i = Except.ok (g s i)) (s : σ) :
    (List.range n).foldlM f s = Except.ok ((List.range n).foldl g s) := by
  induction n with
  | zero => rfl
  | succ n ih =>
    rw [List.range_succ, List.foldlM_append, List.foldl_append,
      ih (fun s i hi => h s i (Nat.lt_succ_of_lt hi))]
    have h1 := h ((List.range n).foldl g s) n (Nat.lt_succ_self n)
    simp only [List.foldlM_cons, List.foldlM_nil, List.foldl_cons, List.foldl_nil, bind,
      Except.bind, h1, pure, Except.pure]

theorem accStep_inner [LinearOrderedField α] (skip : Nat → Nat → Bool) (t : Nat → Nat → α) (i m : Nat)
    (st : α × Nat) :
    (List.range m).foldl (fun st j => accStep skip t i j st) st
      = (st.1 + ∑ j in Finset.range m, (if skip i j then 0 else - t i j),
         st.2 + ∑ j in Finset.range m, (if skip i j then 0 else 1)) := by
  induction m with
  | zero => simp
  | succ m ih =>
    rw [List.range_succ, List.foldl_append, ih]
    simp only [List.foldl_cons, List.foldl_nil, Finset.sum_range_succ, accStep]
    by_cases h : skip i m = true
    · simp [h]
    · simp only [h, Bool.false_eq_true, if_false]
      refine Prod.ext ?_ ?_
      · simp only; ring
      · simp only; ring

theorem accStep_nested [LinearOrderedField α] (skip : Nat → Nat → Bool) (t : Nat → Nat → α) (n m : Nat)
    (st : α × Nat) :
    (List.range n).foldl
        (fun st i => (List.range m).foldl (fun st j => accStep skip t i j st) st) st
      = (st.1 + ∑ i in Finset.range n, ∑ j in Finset.range m,
            (if skip i j then 0 else - t i j),
         st.2 + ∑ i in Finset.range n, ∑ j in Finset.range m,
            (if skip i j then 0 else 1)) := by
  induction n with
  | zero => simp
  | succ n ih =>
    rw [List.range_succ, List.foldl_append, ih]
    simp only [List.foldl_cons, List.foldl_nil, Finset.sum_range_succ, accStep_inner]
    refine Prod.ext ?_ ?_
    · simp only; ring
    · simp only; ring

theorem writeStep_inner (skip : Nat → Nat → Bool) (ix : Nat → Nat → Int) (V : Int → α)
    (i m : Nat) (st : (Int → α) × Nat) :
    ((List.range m).foldl (fun st j => writeStep skip ix V i j st) st).2
        = st.2 + ∑ j in Finset.range m, (if skip i j then 0 else 1)
    ∧ ∀ k, ((∃ j, j < m ∧ skip i j = false ∧ ix i j = k) →
              ((List.range m).foldl (fun st j => writeStep skip ix V i j st) st).1 k = V k)
        ∧ ((¬ ∃ j, j < m ∧ skip i j = false ∧ ix i j = k) →
              ((List.range m).foldl (fun st j => writeStep skip ix V i j st) st).1 k
                = st.1 k) := by
  induction m with
  | zero => simp
  | succ m ih =>
    obtain ⟨ihc, ihb⟩ := ih
    rw [List.range_succ, List.foldl_append]
    simp only [List.foldl_cons, List.foldl_nil, Finset.sum_range_succ]
    set r := (List.range m).foldl (fun st j => writeStep skip ix V i j st) st with hr
    by_cases hs : skip i m = true
    · have hstep : writeStep skip ix V i m r = r := by simp [writeStep, hs]
      rw [hstep]
      refine ⟨by simp [hs, ihc], fun k => ⟨?_, ?_⟩⟩
      · rintro ⟨j, hj, hsj, hk⟩
        have hjm : j < m := by
          rcases Nat.lt_succ_iff_lt_or_eq.mp hj with h | h
          · exact h
          · subst h; rw [hs] at hsj; exact absurd hsj (by simp)
        exact (ihb k).1 ⟨j, hjm, hsj, hk⟩
      · intro hne
        exact (ihb k).2 (fun ⟨j, hj, hsj, hk⟩ => hne ⟨j, Nat.lt_succ_of_lt hj, hsj, hk⟩)
    · have hs' : skip i m = false := by simpa using hs
      have hstep : writeStep skip ix V i m r
          = (Function.update r.1 (ix i m) (V (ix i m)), r.2 + 1) := by
        simp [writeStep, hs']
      rw [hstep]
      refine ⟨by simp [hs', ihc, Nat.add_assoc], fun k => ⟨?_, ?_⟩⟩
      · rintro ⟨j, hj, hsj, hk⟩
        by_cases hkm : k = ix i m
        · subst hkm; simp
        · simp only [Function.update_noteq hkm]
          have hjm : j < m := by
            rcases Nat.lt_succ_iff_lt_or_eq.mp hj with h | h
            · exact h
            · subst h; exact absurd hk.symm hkm
          exact (ihb k).1 ⟨j, hjm, hsj, hk⟩
      · intro hne
        have hkm : k ≠ ix i m := fun h => hne ⟨m, Nat.lt_succ_self m, hs', h.symm⟩
        simp only [Function.update_noteq hkm]
        exact (ihb k).2 (fun ⟨j, hj, hsj, hk⟩ => hne ⟨j, Nat.lt_succ_of_lt hj, hsj, hk⟩)

theorem writeStep_nested (skip : Nat → Nat → Bool) (ix : Nat → Nat → Int) (V : Int → α)
    (n m : Nat) (st : (Int → α) × Nat) :
    ((List.range n).foldl
        (fun st i => (List.range m).foldl (fun st j => writeStep skip ix V i j st) st) st).2
        = st.2 + ∑ i in Finset.range n, ∑ j in Finset.range m, (if skip i j then 0 else 1)
    ∧ ∀ k, ((∃ i, i < n ∧ ∃ j, j < m ∧ skip i j = false ∧ ix i j = k) →
              ((List.range n).foldl
                (fun st i => (List.range m).foldl (fun st j => writeStep skip ix V i j st) st)
                st).1 k = V k)
        ∧ ((¬ ∃ i, i < n ∧ ∃ j, j < m ∧ skip i j = false ∧ ix i j = k) →
              ((List.range n).foldl
                (fun st i => (List.range m).foldl (fun st j => writeStep skip ix V i j st) st)
                st).1 k = st.1 k) := by
  induction n with
  | zero => simp
  | succ n ih =>
    obtain ⟨ihc, ihb⟩ := ih
    rw [List.range_succ, List.foldl_append]
    simp only [List.foldl_cons, List.foldl_nil, Finset.sum_range_succ]
    set r := (List.range n).foldl
      (fun st i => (List.range m).foldl (fun st j => writeStep skip ix V i j st) st) st with hr
    obtain ⟨hc, hb⟩ := writeStep_inner skip ix V n m r
    refine ⟨by rw [hc, ihc, Nat.add_assoc], fun k => ⟨?_, ?_⟩⟩
    · rintro ⟨i, hi, j, hj, hsj, hk⟩
      by_cases hex : ∃ j, j < m ∧ skip n j = false ∧ ix n j = k
      · exact (hb k).1 hex
      · rw [(hb k).2 hex]
        have hin : i < n := by
          rcases Nat.lt_succ_iff_lt_or_eq.mp hi with h | h
          · exact h
          · subst h; exact absurd ⟨j, hj, hsj, hk⟩ hex
        exact (ihb k).1 ⟨i, hin, j, hj, hsj, hk⟩
    · intro hne
      have hex : ¬ ∃ j, j < m ∧ skip n j = false ∧ ix n j = k :=
        fun ⟨j, hj, hsj, hk⟩ => hne ⟨n, Nat.lt_succ_self n, j, hj, hsj, hk⟩
      rw [(hb k).2 hex]
      exact (ihb k).2
        (fun ⟨i, hi, j, hj, hsj, hk⟩ => hne ⟨i, Nat.lt_succ_of_lt hi, j, hj, hsj, hk⟩)

/-- On blobs of matching shapes `Reshape` succeeds and sets the loop extents to
`N` and `H * W`. -/
theorem Reshape_matching (has_ignore_label : Bool) (ignore_label : Int) (o n N C H W : Nat)
    (P L M dP dL dM : Int → α) :
    Reshape ⟨has_ignore_label, ignore_label, o, n⟩
        ⟨N, C, H, W, P, dP⟩ ⟨N, 1, H, W, L, dL⟩ ⟨N, 1, H, W, M, dM⟩
      = Except.ok ⟨has_ignore_label, ignore_label, N, H * W⟩ := by
  simp [Reshape]

end LoopLemmas

/-! ## The forward pass as a reduction -/

section ForwardLemmas

variable {α : Type} [LinearOrderedField α] [FloorRing α]

/-- The result of `static_cast<int>` is a 32-bit `int`. -/
theorem static_cast_int_bounds (x : α) :
    INT_MIN ≤ static_cast_int x ∧ static_cast_int x ≤ INT_MAX := by
  have key : ∀ t : Int,
      INT_MIN ≤ (if INT_MIN ≤ t ∧ t ≤ INT_MAX then t else INT_MIN)
        ∧ (if INT_MIN ≤ t ∧ t ≤ INT_MAX then t else INT_MIN) ≤ INT_MAX := by
    intro t
    by_cases h : INT_MIN ≤ t ∧ t ≤ INT_MAX
    · rw [if_pos h]; exact h
    · rw [if_neg h]; constructor <;> simp [INT_MIN, INT_MAX]
  exact key _

/-- On a non-negative value below `2^31` the conversion is the floor. -/
theorem static_cast_int_of_nonneg (x : α) (h0 : 0 ≤ x) (h1 : x < 2147483648) :
    static_cast_int x = Int.floor x := by
  have hf0 : 0 ≤ Int.floor x := Int.floor_nonneg.mpr h0
  have hf1 : Int.floor x < 2147483648 := by
    rw [Int.floor_lt]; exact_mod_cast h1
  unfold static_cast_int
  simp only [h0, if_true]
  rw [if_pos]
  constructor
  · simp only [INT_MIN]; omega
  · simp only [INT_MAX]; omega

/-- On a negative value above `-2^31 - 1` the conversion is the ceiling. -/
theorem static_cast_int_of_neg (x : α) (h0 : x < 0) (h1 : -2147483649 < x) :
    static_cast_int x = Int.ceil x := by
  have hc0 : Int.ceil x ≤ 0 := Int.ceil_le.mpr (by simpa using le_of_lt h0)
  have hc1 : -2147483649 < Int.ceil x := by
    rw [Int.lt_ceil]; exact_mod_cast h1
  unfold static_cast_int
  simp only [not_le.mpr h0, if_false]
  rw [if_pos]
  constructor
  · simp only [INT_MIN]; omega
  · simp only [INT_MAX]; omega

/-- An integer value in the range of `int` is converted to itself. -/
theorem static_cast_int_intCast (n : Int) (h0 : INT_MIN ≤ n) (h1 : n ≤ INT_MAX) :
    static_cast_int ((n : Int) : α) = n := by
  unfold static_cast_int
  simp only [Int.floor_intCast, Int.ceil_intCast, ite_self]
  rw [if_pos ⟨h0, h1⟩]

theorem dim_eq (N C H W : Nat) (hN : 0 < N) : N * C * H * W / N = C * (H * W) := by
  have h : N * C * H * W = N * (C * (H * W)) := by ring
  rw [h, Nat.mul_div_cancel_left _ hN]

omit [FloorRing α] in
theorem forward_prob_eq_spec (kLOG_THRESHOLD : α) (P M : Int → α) (C HW i j : Nat) (l : Int) :
    forward_prob kLOG_THRESHOLD P M (C * HW) HW i j l
      = max (spec_p_eff P M C HW i j l) kLOG_THRESHOLD := by
  have h1 : (i : Int) * ((C * HW : Nat) : Int) + l * (HW : Int) + (j : Int)
      = ((i : Int) * (C : Int) + l) * (HW : Int) + (j : Int) := by
    push_cast; ring
  have h2 : (i : Int) * (HW : Int) + (j : Int)
      = ((i : Int) * ((1 : Nat) : Int) + 0) * (HW : Int) + (j : Int) := by
    push_cast; ring
  unfold forward_prob spec_p_eff spec_at spec_offset
  rw [h1, ← h2]
  by_cases hl : l = 0
  · subst hl; simp
  · simp [hl]

theorem forward_body_ok (debug : Bool) (kLOG_THRESHOLD : α) (log : α → α)
    (self : MultinomialLogisticLossMaskLayer) (bottom0 bottom1 bottom2 : Blob α)
    (dim i j : Nat) (st : α × Nat)
    (h : dchecks_pass debug bottom0.channels bottom1.cpu_data self.inner_num_ i j) :
    forward_body debug kLOG_THRESHOLD log self bottom0 bottom1 bottom2 dim i j st
      = Except.ok (accStep
          (fun i j => spec_ignored self.has_ignore_label_ self.ignore_label_
            bottom1.cpu_data self.inner_num_ i j)
          (fun i j => log (forward_prob kLOG_THRESHOLD bottom0.cpu_data bottom2.cpu_data dim
            self.inner_num_ i j (label_value bottom1.cpu_data self.inner_num_ i j)))
          i j st) := by
  unfold forward_body accStep spec_ignored
  rcases h with h | ⟨h0, h1⟩
  · subst h
    simp only [Bool.false_and, Bool.false_eq_true, if_false]
    split <;> rfl
  · have e0 : (debug && !decide (label_value bottom1.cpu_data self.inner_num_ i j ≥ 0))
        = false := by simp [h0]
    have e1 : (debug && !decide (label_value bottom1.cpu_data self.inner_num_ i j
        < (bottom0.channels : Int))) = false := by simp [h1]
    simp only [e0, e1, Bool.false_eq_true, if_false]
    split <;> rfl

/-- The forward loop does not complete on an empty batch: line 47 divides by
`outer_num_ = 0`. -/
theorem forward_loop_ok_pos (debug : Bool) (kLOG_THRESHOLD : α) (log : α → α)
    (self : MultinomialLogisticLossMaskLayer) (bottom0 bottom1 bottom2 : Blob α) (r : α × Nat)
    (hr : forward_loop debug kLOG_THRESHOLD log self bottom0 bottom1 bottom2 = Except.ok r) :
    0 < self.outer_num_ := by
  rcases Nat.eq_zero_or_pos self.outer_num_ with h | h
  · unfold forward_loop at hr
    rw [if_pos h] at hr
    exact absurd hr (by simp)
  · exact h

/-- `Forward_cpu` does not return on an empty batch. -/
theorem Forward_cpu_ok_pos (debug : Bool) (kLOG_THRESHOLD : α) (log : α → α)
    (self : MultinomialLogisticLossMaskLayer) (bottom0 bottom1 bottom2 : Blob α) (loss : α)
    (hr : Forward_cpu debug kLOG_THRESHOLD log self bottom0 bottom1 bottom2 = Except.ok loss) :
    0 < self.outer_num_ := by
  unfold Forward_cpu at hr
  cases hl : forward_loop debug kLOG_THRESHOLD log self bottom0 bottom1 bottom2 with
  | error e => rw [hl] at hr; exact absurd hr (by simp)
  | ok r => exact forward_loop_ok_pos debug kLOG_THRESHOLD log self bottom0 bottom1 bottom2 r hl

/-- On an empty batch `Forward_cpu` stops at the division of line 47. -/
theorem Forward_cpu_empty (debug : Bool) (kLOG_THRESHOLD : α) (log : α → α)
    (self : MultinomialLogisticLossMaskLayer) (bottom0 bottom1 bottom2 : Blob α)
    (h : self.outer_num_ = 0) :
    Forward_cpu debug kLOG_THRESHOLD log self bottom0 bottom1 bottom2
      = Except.error "Integer division by zero: bottom[0]->count() / outer_num_" := by
  unfold Forward_cpu forward_loop
  rw [if_pos h]

theorem forward_loop_eq (debug : Bool) (kLOG_THRESHOLD : α) (log : α → α)
    (has_ignore_label : Bool) (ignore_label : Int) (N C H W : Nat)
    (P L M dP dL dM : Int → α) (hN : 0 < N)
    (hchk : ∀ i, i < N → ∀ j, j < H * W → dchecks_pass debug C L (H * W) i j) :
    forward_loop debug kLOG_THRESHOLD log ⟨has_ignore_label, ignore_label, N, H * W⟩
        ⟨N, C, H, W, P, dP⟩ ⟨N, 1, H, W, L, dL⟩ ⟨N, 1, H, W, M, dM⟩
      = Except.ok
          (spec_nll_sum kLOG_THRESHOLD log has_ignore_label ignore_label P L M N C (H * W),
           spec_count has_ignore_label ignore_label L N (H * W)) := by
  unfold forward_loop
  rw [if_neg (Nat.pos_iff_ne_zero.mp hN)]
  · simp only [Blob.count, dim_eq N C H W hN]
    rw [foldlM_range_ok _
      (fun st i => (List.range (H * W)).foldl
        (fun st j => accStep
          (fun i j => spec_ignored has_ignore_label ignore_label L (H * W) i j)
          (fun i j => log (forward_prob kLOG_THRESHOLD P M (C * (H * W)) (H * W) i j
            (label_value L (H * W) i j))) i j st) st)]
    · rw [accStep_nested]
      simp only [zero_add, forward_prob_eq_spec, spec_nll_sum, spec_count]
    · intro s i hi
      exact foldlM_range_ok _ _ _
        (fun s j hj => forward_body_ok debug kLOG_THRESHOLD log _ _ _ _ _ i j s (hchk i hi j hj))
        s

theorem Forward_cpu_eq (debug : Bool) (kLOG_THRESHOLD : α) (log : α → α)
    (has_ignore_label : Bool) (ignore_label : Int) (N C H W : Nat)
    (P L M dP dL dM : Int → α) (hN : 0 < N)
    (hchk : ∀ i, i < N → ∀ j, j < H * W → dchecks_pass debug C L (H * W) i j) :
    Forward_cpu debug kLOG_THRESHOLD log ⟨has_ignore_label, ignore_label, N, H * W⟩
        ⟨N, C, H, W, P, dP⟩ ⟨N, 1, H, W, L, dL⟩ ⟨N, 1, H, W, M, dM⟩
      = Except.ok
          (spec_loss kLOG_THRESHOLD log has_ignore_label ignore_label P L M N C (H * W)) := by
  unfold Forward_cpu
  rw [forward_loop_eq debug kLOG_THRESHOLD log has_ignore_label ignore_label N C H W
    P L M dP dL dM hN hchk]
  rfl

theorem foldlM_range_error {σ : Type} (f : σ → Nat → Except String σ) (n : Nat)
    (h : ∃ i, i < n ∧ ∀ s, ∃ e, f s i = Except.error e) (s : σ) :
    ∃ e, (List.range n).foldlM f s = Except.error e := by
  induction n with
  | zero => obtain ⟨i, hi, _⟩ := h; exact absurd hi (Nat.not_lt_zero i)
  | succ n ih =>
    obtain ⟨i, hi, hf⟩ := h
    rw [List.range_succ, List.foldlM_append]
    rcases Nat.lt_succ_iff_lt_or_eq.mp hi with hlt | heq
    · obtain ⟨e, he⟩ := ih ⟨i, hlt, hf⟩
      exact ⟨e, by rw [he]; rfl⟩
    · subst heq
      cases hr : (List.range i).foldlM f s with
      | error e => exact ⟨e, rfl⟩
      | ok s' =>
        obtain ⟨e, he⟩ := hf s'
        refine ⟨e, ?_⟩
        simp only [List.foldlM_cons, List.foldlM_nil, bind, Except.bind, he]

theorem forward_body_fail (debug : Bool) (kLOG_THRESHOLD : α) (log : α → α)
    (self : MultinomialLogisticLossMaskLayer) (bottom0 bottom1 bottom2 : Blob α)
    (dim i j : Nat) (st : α × Nat)
    (h : ¬ dchecks_pass debug bottom0.channels bottom1.cpu_data self.inner_num_ i j) :
    ∃ e, forward_body debug kLOG_THRESHOLD log self bottom0 bottom1 bottom2 dim i j st
      = Except.error e := by
  unfold dchecks_pass at h
  rw [not_or] at h
  obtain ⟨hd, hr⟩ := h
  have hd' : debug = true := by simpa using hd
  subst hd'
  unfold forward_body
  by_cases h0 : 0 ≤ label_value bottom1.cpu_data self.inner_num_ i j
  · have h1 : ¬ label_value bottom1.cpu_data self.inner_num_ i j < (bottom0.channels : Int) :=
      fun h1 => hr ⟨h0, h1⟩
    refine ⟨"Check failed: label_value < bottom[0].shape(1)", ?_⟩
    simp [h0, h1]
  · refine ⟨"Check failed: label_value >= 0", ?_⟩
    simp [h0]

/-- A completed forward loop passed every debug assertion. -/
theorem forward_loop_ok_dchecks (debug : Bool) (kLOG_THRESHOLD : α) (log : α → α)
    (has_ignore_label : Bool) (ignore_label : Int) (N C H W : Nat)
    (P L M dP dL dM : Int → α) (r : α × Nat)
    (hr : forward_loop debug kLOG_THRESHOLD log ⟨has_ignore_label, ignore_label, N, H * W⟩
        ⟨N, C, H, W, P, dP⟩ ⟨N, 1, H, W, L, dL⟩ ⟨N, 1, H, W, M, dM⟩ = Except.ok r) :
    ∀ i, i < N → ∀ j, j < H * W → dchecks_pass debug C L (H * W) i j := by
  intro i hi j hj
  by_contra hfail
  have hN : N ≠ 0 := Nat.pos_iff_ne_zero.mp (Nat.lt_of_le_of_lt (Nat.zero_le i) hi)
  have herr : ∃ e, forward_loop debug kLOG_THRESHOLD log
      ⟨has_ignore_label, ignore_label, N, H * W⟩
      ⟨N, C, H, W, P, dP⟩ ⟨N, 1, H, W, L, dL⟩ ⟨N, 1, H, W, M, dM⟩ = Except.error e := by
    unfold forward_loop
    rw [if_neg hN]
    refine foldlM_range_error _ N ⟨i, hi, fun s => ?_⟩ _
    exact foldlM_range_error _ (H * W)
      ⟨j, hj, fun s' => forward_body_fail debug kLOG_THRESHOLD log _ _ _ _ _ i j s' hfail⟩ s
  obtain ⟨e, he⟩ := herr
  rw [he] at hr
  exact absurd hr (by simp)

/-- A completed `Forward_cpu` passed every debug assertion. -/
theorem Forward_cpu_ok_dchecks (debug : Bool) (kLOG_THRESHOLD : α) (log : α → α)
    (has_ignore_label : Bool) (ignore_label : Int) (N C H W : Nat)
    (P L M dP dL dM : Int → α) (loss : α)
    (hr : Forward_cpu debug kLOG_THRESHOLD log ⟨has_ignore_label, ignore_label, N, H * W⟩
        ⟨N, C, H, W, P, dP⟩ ⟨N, 1, H, W, L, dL⟩ ⟨N, 1, H, W, M, dM⟩ = Except.ok loss) :
    ∀ i, i < N → ∀ j, j < H * W → dchecks_pass debug C L (H * W) i j := by
  unfold Forward_cpu at hr
  cases hl : forward_loop debug kLOG_THRESHOLD log ⟨has_ignore_label, ignore_label, N, H * W⟩
      ⟨N, C, H, W, P, dP⟩ ⟨N, 1, H, W, L, dL⟩ ⟨N, 1, H, W, M, dM⟩ with
  | error e => rw [hl] at hr; exact absurd hr (by simp)
  | ok r =>
    exact forward_loop_ok_dchecks debug kLOG_THRESHOLD log has_ignore_label ignore_label
      N C H W P L M dP dL dM r hl

end ForwardLemmas

/-! ## The backward pass as two write loops -/

section BackwardLemmas

variable {α : Type} [LinearOrderedField α] [FloorRing α]

theorem backward_data_body_eq (kLOG_THRESHOLD : α)
    (self : MultinomialLogisticLossMaskLayer) (bottom0 bottom1 : Blob α)
    (dim i j : Nat) (st : (Int → α) × Nat) :
    backward_data_body kLOG_THRESHOLD self bottom0 bottom1 dim i j st
      = writeStep
          (fun i j => spec_ignored self.has_ignore_label_ self.ignore_label_
            bottom1.cpu_data self.inner_num_ i j)
          (fun i j => (i : Int) * (dim : Int)
            + label_value bottom1.cpu_data self.inner_num_ i j * (self.inner_num_ : Int)
            + (j : Int))
          (fun c => (1 : α) / max (bottom0.cpu_data c) kLOG_THRESHOLD)
          i j st := by
  rfl

omit [LinearOrderedField α] [FloorRing α] in
theorem foldl_proj {σ τ ι : Type} (π : σ → τ) (f : σ → ι → σ) (g : τ → ι → τ)
    (h : ∀ s i, π (f s i) = g (π s) i) (l : List ι) (s : σ) :
    π (l.foldl f s) = l.foldl g (π s) := by
  induction l generalizing s with
  | nil => rfl
  | cons a l ih => simp only [List.foldl_cons]; rw [ih, h]

/-- The buffer and the count of the mask pass evolve as a write step that
stores the reciprocal of the divisor. -/
theorem backward_mask_body_value (kLOG_THRESHOLD : α)
    (self : MultinomialLogisticLossMaskLayer) (bottom1 bottom2 : Blob α)
    (i j : Nat) (st : MaskPass α) :
    ((backward_mask_body kLOG_THRESHOLD self bottom1 bottom2 i j st).mask_diff,
      (backward_mask_body kLOG_THRESHOLD self bottom1 bottom2 i j st).count)
      = writeStep
          (fun i j => spec_ignored self.has_ignore_label_ self.ignore_label_
            bottom1.cpu_data self.inner_num_ i j)
          (fun i j => (i : Int) * (self.inner_num_ : Int) + (j : Int))
          (fun c => (1 : α) /
            (if static_cast_int (bottom1.cpu_data c) ≠ 0
              then max (bottom2.cpu_data c) kLOG_THRESHOLD
              else max (bottom2.cpu_data c) kLOG_THRESHOLD - 1))
          i j (st.mask_diff, st.count) := by
  unfold backward_mask_body writeStep spec_ignored
  by_cases h : (self.has_ignore_label_
      && label_value bottom1.cpu_data self.inner_num_ i j == self.ignore_label_) = true
  · simp only [h, if_true]
  · simp only [h, if_false, Bool.false_eq_true]
    rfl

/-- The marks and the count of the mask pass evolve as a write step that
stores whether the divisor is zero. -/
theorem backward_mask_body_mark (kLOG_THRESHOLD : α)
    (self : MultinomialLogisticLossMaskLayer) (bottom1 bottom2 : Blob α)
    (i j : Nat) (st : MaskPass α) :
    ((backward_mask_body kLOG_THRESHOLD self bottom1 bottom2 i j st).mask_nonfinite,
      (backward_mask_body kLOG_THRESHOLD self bottom1 bottom2 i j st).count)
      = writeStep
          (fun i j => spec_ignored self.has_ignore_label_ self.ignore_label_
            bottom1.cpu_data self.inner_num_ i j)
          (fun i j => (i : Int) * (self.inner_num_ : Int) + (j : Int))
          (fun c => decide
            ((if static_cast_int (bottom1.cpu_data c) ≠ 0
              then max (bottom2.cpu_data c) kLOG_THRESHOLD
              else max (bottom2.cpu_data c) kLOG_THRESHOLD - 1) = 0))
          i j (st.mask_nonfinite, st.count) := by
  unfold backward_mask_body writeStep spec_ignored
  by_cases h : (self.has_ignore_label_
      && label_value bottom1.cpu_data self.inner_num_ i j == self.ignore_label_) = true
  · simp only [h, if_true]
  · simp only [h, if_false, Bool.false_eq_true]
    rfl

/-- Result of the probability-gradient loop: the count is the number of
non-ignored positions, a cell written by some non-ignored position holds the
reciprocal of its clamped probability, every other cell is unchanged. -/
theorem backward_data_loop_spec (kLOG_THRESHOLD : α)
    (self : MultinomialLogisticLossMaskLayer) (bottom0 bottom1 : Blob α)
    (dim : Nat) (buf : Int → α) :
    (backward_data_loop kLOG_THRESHOLD self bottom0 bottom1 dim buf).2
        = spec_count self.has_ignore_label_ self.ignore_label_ bottom1.cpu_data
            self.outer_num_ self.inner_num_
    ∧ ∀ c,
        ((∃ i, i < self.outer_num_ ∧ ∃ j, j < self.inner_num_ ∧
            spec_ignored self.has_ignore_label_ self.ignore_label_ bottom1.cpu_data
              self.inner_num_ i j = false ∧
            (i : Int) * (dim : Int)
              + label_value bottom1.cpu_data self.inner_num_ i j * (self.inner_num_ : Int)
              + (j : Int) = c) →
          (backward_data_loop kLOG_THRESHOLD self bottom0 bottom1 dim buf).1 c
            = (1 : α) / max (bottom0.cpu_data c) kLOG_THRESHOLD)
        ∧ ((¬ ∃ i, i < self.outer_num_ ∧ ∃ j, j < self.inner_num_ ∧
            spec_ignored self.has_ignore_label_ self.ignore_label_ bottom1.cpu_data
              self.inner_num_ i j = false ∧
            (i : Int) * (dim : Int)
              + label_value bottom1.cpu_data self.inner_num_ i j * (self.inner_num_ : Int)
              + (j : Int) = c) →
          (backward_data_loop kLOG_THRESHOLD self bottom0 bottom1 dim buf).1 c = buf c) := by
  unfold backward_data_loop
  simp only [backward_data_body_eq]
  have h := writeStep_nested
    (fun i j => spec_ignored self.has_ignore_label_ self.ignore_label_
      bottom1.cpu_data self.inner_num_ i j)
    (fun i j => (i : Int) * (dim : Int)
      + label_value bottom1.cpu_data self.inner_num_ i j * (self.inner_num_ : Int)
      + (j : Int))
    (fun c => (1 : α) / max (bottom0.cpu_data c) kLOG_THRESHOLD)
    self.outer_num_ self.inner_num_ (buf, 0)
  refine ⟨?_, h.2⟩
  rw [h.1]
  simp [spec_count]

/-- Result of the mask-gradient loop: the count is the number of non-ignored
positions, the cell of a non-ignored position holds the reciprocal of its
divisor and is marked exactly when that divisor is zero, every other cell is
unchanged and unmarked. -/
theorem backward_mask_loop_spec (kLOG_THRESHOLD : α)
    (self : MultinomialLogisticLossMaskLayer) (bottom1 bottom2 : Blob α)
    (buf : Int → α) :
    (backward_mask_loop kLOG_THRESHOLD self bottom1 bottom2 buf).count
        = spec_count self.has_ignore_label_ self.ignore_label_ bottom1.cpu_data
            self.outer_num_ self.inner_num_
    ∧ ∀ c,
        ((∃ i, i < self.outer_num_ ∧ ∃ j, j < self.inner_num_ ∧
            spec_ignored self.has_ignore_label_ self.ignore_label_ bottom1.cpu_data
              self.inner_num_ i j = false ∧
            (i : Int) * (self.inner_num_ : Int) + (j : Int) = c) →
          (backward_mask_loop kLOG_THRESHOLD self bottom1 bottom2 buf).mask_diff c
            = (1 : α) /
              (if static_cast_int (bottom1.cpu_data c) ≠ 0
                then max (bottom2.cpu_data c) kLOG_THRESHOLD
                else max (bottom2.cpu_data c) kLOG_THRESHOLD - 1)
          ∧ (backward_mask_loop kLOG_THRESHOLD self bottom1 bottom2 buf).mask_nonfinite c
            = decide ((if static_cast_int (bottom1.cpu_data c) ≠ 0
                then max (bottom2.cpu_data c) kLOG_THRESHOLD
                else max (bottom2.cpu_data c) kLOG_THRESHOLD - 1) = 0))
        ∧ ((¬ ∃ i, i < self.outer_num_ ∧ ∃ j, j < self.inner_num_ ∧
            spec_ignored self.has_ignore_label_ self.ignore_label_ bottom1.cpu_data
              self.inner_num_ i j = false ∧
            (i : Int) * (self.inner_num_ : Int) + (j : Int) = c) →
          (backward_mask_loop kLOG_THRESHOLD self bottom1 bottom2 buf).mask_diff c = buf c
          ∧ (backward_mask_loop kLOG_THRESHOLD self bottom1 bottom2 buf).mask_nonfinite c
            = false) := by
  have hv := foldl_proj (fun st : MaskPass α => (st.mask_diff, st.count))
    (fun st i => (List.range self.inner_num_).foldl
      (fun st j => backward_mask_body kLOG_THRESHOLD self bottom1 bottom2 i j st) st)
    (fun st i => (List.range self.inner_num_).foldl
      (fun st j => writeStep
        (fun i j => spec_ignored self.has_ignore_label_ self.ignore_label_
          bottom1.cpu_data self.inner_num_ i j)
        (fun i j => (i : Int) * (self.inner_num_ : Int) + (j : Int))
        (fun c => (1 : α) /
          (if static_cast_int (bottom1.cpu_data c) ≠ 0
            then max (bottom2.cpu_data c) kLOG_THRESHOLD
            else max (bottom2.cpu_data c) kLOG_THRESHOLD - 1))
        i j st) st)
    (fun s i => foldl_proj (fun st : MaskPass α => (st.mask_diff, st.count)) _ _
      (fun s j => backward_mask_body_value kLOG_THRESHOLD self bottom1 bottom2 i j s) _ s)
    (List.range self.outer_num_) ⟨buf, fun _ => false, 0⟩
  have hm := foldl_proj (fun st : MaskPass α => (st.mask_nonfinite, st.count))
    (fun st i => (List.range self.inner_num_).foldl
      (fun st j => backward_mask_body kLOG_THRESHOLD self bottom1 bottom2 i j st) st)
    (fun st i => (List.range self.inner_num_).foldl
      (fun st j => writeStep
        (fun i j => spec_ignored self.has_ignore_label_ self.ignore_label_
          bottom1.cpu_data self.inner_num_ i j)
        (fun i j => (i : Int) * (self.inner_num_ : Int) + (j : Int))
        (fun c => decide
          ((if static_cast_int (bottom1.cpu_data c) ≠ 0
            then max (bottom2.cpu_data c) kLOG_THRESHOLD
            else max (bottom2.cpu_data c) kLOG_THRESHOLD - 1) = 0))
        i j st) st)
    (fun s i => foldl_proj (fun st : MaskPass α => (st.mask_nonfinite, st.count)) _ _
      (fun s j => backward_mask_body_mark kLOG_THRESHOLD self bottom1 bottom2 i j s) _ s)
    (List.range self.outer_num_) ⟨buf, fun _ => false, 0⟩
  have h := writeStep_nested
    (fun i j => spec_ignored self.has_ignore_label_ self.ignore_label_
      bottom1.cpu_data self.inner_num_ i j)
    (fun i j => (i : Int) * (self.inner_num_ : Int) + (j : Int))
    (fun c => (1 : α) /
      (if static_cast_int (bottom1.cpu_data c) ≠ 0
        then max (bottom2.cpu_data c) kLOG_THRESHOLD
        else max (bottom2.cpu_data c) kLOG_THRESHOLD - 1))
    self.outer_num_ self.inner_num_ (buf, 0)
  have h' := writeStep_nested
    (fun i j => spec_ignored self.has_ignore_label_ self.ignore_label_
      bottom1.cpu_data self.inner_num_ i j)
    (fun i j => (i : Int) * (self.inner_num_ : Int) + (j : Int))
    (fun c => decide
      ((if static_cast_int (bottom1.cpu_data c) ≠ 0
        then max (bottom2.cpu_data c) kLOG_THRESHOLD
        else max (bottom2.cpu_data c) kLOG_THRESHOLD - 1) = 0))
    self.outer_num_ self.inner_num_ (fun _ => false, 0)
  simp only at hv hm
  rw [← hv] at h
  rw [← hm] at h'
  unfold backward_mask_loop
  refine ⟨h.1.trans ?_, fun c => ⟨fun hw => ⟨(h.2 c).1 hw, (h'.2 c).1 hw⟩,
    fun hw => ⟨(h.2 c).2 hw, (h'.2 c).2 hw⟩⟩⟩
  simp [spec_count]

/-- The offset `(i, l, j)` of an in-range entry lies inside the tensor. -/
theorem spec_offset_bounds (N C HW i j : Nat) (l : Int) (hi : i < N) (hj : j < HW)
    (hl0 : 0 ≤ l) (hl : l < (C : Int)) :
    0 ≤ spec_offset C HW i l j ∧ spec_offset C HW i l j < ((N * C * HW : Nat) : Int) := by
  unfold spec_offset
  have hi' : (i : Int) + 1 ≤ (N : Int) := by exact_mod_cast hi
  have hj' : (j : Int) + 1 ≤ (HW : Int) := by exact_mod_cast hj
  have hi0 : (0 : Int) ≤ (i : Int) := Int.natCast_nonneg i
  have hj0 : (0 : Int) ≤ (j : Int) := Int.natCast_nonneg j
  have hC0 : (0 : Int) ≤ (C : Int) := Int.natCast_nonneg C
  have hHW0 : (0 : Int) ≤ (HW : Int) := Int.natCast_nonneg HW
  have hrow0 : (0 : Int) ≤ (i : Int) * (C : Int) + l := by positivity
  have hrow : (i : Int) * (C : Int) + l + 1 ≤ (N : Int) * (C : Int) := by nlinarith
  constructor
  · positivity
  · push_cast
    nlinarith [mul_le_mul_of_nonneg_right hrow hHW0]

/-- The offset of a mask or label cell `(i, j)` lies inside the tensor. -/
theorem cell_bounds (N HW i j : Nat) (hi : i < N) (hj : j < HW) :
    0 ≤ (i : Int) * (HW : Int) + (j : Int)
      ∧ (i : Int) * (HW : Int) + (j : Int) < ((N * HW : Nat) : Int) := by
  have h := spec_offset_bounds N 1 HW i j 0 hi hj (le_refl 0) (by norm_num)
  unfold spec_offset at h
  simpa using h

/-- Two positions with the same mask cell are the same position. -/
theorem cell_injective (HW i j i' j' : Nat) (hj : j < HW) (hj' : j' < HW)
    (h : (i : Int) * (HW : Int) + (j : Int) = (i' : Int) * (HW : Int) + (j' : Int)) :
    i = i' ∧ j = j' := by
  have h' : i * HW + j = i' * HW + j' := by exact_mod_cast h
  have hq : (i * HW + j) / HW = (i' * HW + j') / HW := by rw [h']
  have hpos : 0 < HW := Nat.lt_of_le_of_lt (Nat.zero_le j) hj
  rw [Nat.add_comm (i * HW), Nat.add_comm (i' * HW), Nat.add_mul_div_right _ _ hpos,
    Nat.add_mul_div_right _ _ hpos, Nat.div_eq_of_lt hj, Nat.div_eq_of_lt hj'] at hq
  simp only [Nat.zero_add] at hq
  subst hq
  exact ⟨rfl, by omega⟩

end BackwardLemmas

section BackwardResult

variable {α : Type} [LinearOrderedField α] [FloorRing α]

/-- When no label gradient is requested and the batch is not empty,
`Backward_cpu` returns: both buffers zero-filled, then each requested one
filled by its loop and scaled. -/
theorem Backward_cpu_done (kLOG_THRESHOLD : α) (self : MultinomialLogisticLossMaskLayer)
    (top_diff : α) (propagate_down : Fin 3 → Bool) (bottom0 bottom1 bottom2 : Blob α)
    (h1 : propagate_down 1 = false) (hN : 0 < self.outer_num_) :
    Backward_cpu kLOG_THRESHOLD self top_diff propagate_down bottom0 bottom1 bottom2
      = Outcome.done
          ⟨if propagate_down 0 = true then
              caffe_scal bottom0.count
                (- top_diff / max (1 : α)
                  ((backward_data_loop kLOG_THRESHOLD self bottom0 bottom1
                    (bottom0.count / self.outer_num_)
                    (caffe_set bottom0.count (0 : α) bottom0.cpu_diff)).2 : α))
                (backward_data_loop kLOG_THRESHOLD self bottom0 bottom1
                  (bottom0.count / self.outer_num_)
                  (caffe_set bottom0.count (0 : α) bottom0.cpu_diff)).1
            else caffe_set bottom0.count (0 : α) bottom0.cpu_diff,
           if propagate_down 2 = true then
              caffe_scal bottom2.count
                (- top_diff / max (1 : α)
                  ((backward_mask_loop kLOG_THRESHOLD self bottom1 bottom2
                    (caffe_set bottom2.count (0 : α) bottom2.cpu_diff)).count : α))
                (backward_mask_loop kLOG_THRESHOLD self bottom1 bottom2
                  (caffe_set bottom2.count (0 : α) bottom2.cpu_diff)).mask_diff
            else caffe_set bottom2.count (0 : α) bottom2.cpu_diff,
           if propagate_down 2 = true then
              (backward_mask_loop kLOG_THRESHOLD self bottom1 bottom2
                (caffe_set bottom2.count (0 : α) bottom2.cpu_diff)).mask_nonfinite
            else fun _ => false⟩ := by
  unfold Backward_cpu
  rw [if_neg (by simp [h1]), if_neg (Nat.pos_iff_ne_zero.mp hN)]
  cases propagate_down 2 <;> rfl

/-- On an empty batch, with no label gradient requested, `Backward_cpu` stops
at the division of line 95 with both buffers untouched. -/
theorem Backward_cpu_empty (kLOG_THRESHOLD : α) (self : MultinomialLogisticLossMaskLayer)
    (top_diff : α) (propagate_down : Fin 3 → Bool) (bottom0 bottom1 bottom2 : Blob α)
    (h1 : propagate_down 1 = false) (hN : self.outer_num_ = 0) :
    Backward_cpu kLOG_THRESHOLD self top_diff propagate_down bottom0 bottom1 bottom2
      = Outcome.trap "Integer division by zero: bottom[0]->count() / outer_num_"
          ⟨bottom0.cpu_diff, bottom2.cpu_diff, fun _ => false⟩ := by
  unfold Backward_cpu
  rw [if_neg (by simp [h1]), if_pos hN]

/-- A call of `Backward_cpu` that returns was made on a non-empty batch without
a request for the label gradient. -/
theorem Backward_cpu_done_pos (kLOG_THRESHOLD : α) (self : MultinomialLogisticLossMaskLayer)
    (top_diff : α) (propagate_down : Fin 3 → Bool) (bottom0 bottom1 bottom2 : Blob α)
    (st : Diffs α)
    (h : Backward_cpu kLOG_THRESHOLD self top_diff propagate_down bottom0 bottom1 bottom2
      = Outcome.done st) :
    propagate_down 1 = false ∧ 0 < self.outer_num_ := by
  unfold Backward_cpu at h
  by_cases h1 : propagate_down 1 = true
  · rw [if_pos h1] at h
    exact absurd h (by simp)
  · rw [if_neg h1] at h
    by_cases hN : self.outer_num_ = 0
    · rw [if_pos hN] at h
      exact absurd h (by simp)
    · exact ⟨by simpa using h1, Nat.pos_of_ne_zero hN⟩

omit [LinearOrderedField α] [FloorRing α] in
theorem caffe_set_in (n : Nat) (a : α) (y : Int → α) (c : Int) (h0 : 0 ≤ c)
    (h1 : c < (n : Int)) : caffe_set n a y c = a := by
  unfold caffe_set
  rw [if_pos ⟨h0, h1⟩]

omit [FloorRing α] in
theorem caffe_scal_in (n : Nat) (a : α) (x : Int → α) (c : Int) (h0 : 0 ≤ c)
    (h1 : c < (n : Int)) : caffe_scal n a x c = a * x c := by
  unfold caffe_scal
  rw [if_pos ⟨h0, h1⟩]

theorem loop_index_eq (N C H W i j : Nat) (l : Int) (hi : i < N) :
    (i : Int) * ((N * C * H * W / N : Nat) : Int) + l * ((H * W : Nat) : Int) + (j : Int)
      = spec_offset C (H * W) i l j := by
  rw [dim_eq N C H W (Nat.lt_of_le_of_lt (Nat.zero_le i) hi)]
  unfold spec_offset
  push_cast
  ring

end BackwardResult

section Clamps

variable {α : Type} [LinearOrderedField α]

theorem forward_prob_ge (kLOG_THRESHOLD : α) (P M : Int → α) (dim inner_num_ i j : Nat)
    (l : Int) : kLOG_THRESHOLD ≤ forward_prob kLOG_THRESHOLD P M dim inner_num_ i j l := by
  unfold forward_prob
  split <;> exact le_max_right _ _

theorem backward_p_ge (kLOG_THRESHOLD : α) (P : Int → α) (dim inner_num_ i j : Nat)
    (l : Int) : kLOG_THRESHOLD ≤ backward_p kLOG_THRESHOLD P dim inner_num_ i j l :=
  le_max_right _ _

theorem backward_m_ge (kLOG_THRESHOLD : α) (M : Int → α) (inner_num_ i j : Nat) :
    kLOG_THRESHOLD ≤ backward_m kLOG_THRESHOLD M inner_num_ i j :=
  le_max_right _ _

end Clamps

section BackwardCells

variable {α : Type} [LinearOrderedField α] [FloorRing α]

/-- Cells of `dP` after `Backward_cpu` when the probability gradient is requested. -/
theorem backward_bottom_diff_spec (kLOG_THRESHOLD : α)
    (has_ignore_label : Bool) (ignore_label : Int) (N C H W : Nat)
    (P L M dP dL dM : Int → α) (g : α) (propagate_down : Fin 3 → Bool)
    (h0 : propagate_down 0 = true) (h1 : propagate_down 1 = false) (hN : 0 < N)
    (hlab : ∀ i, i < N → ∀ j, j < H * W →
      spec_ignored has_ignore_label ignore_label L (H * W) i j = false →
      0 ≤ label_value L (H * W) i j ∧ label_value L (H * W) i j < (C : Int)) :
    ∃ st : Diffs α,
      Backward_cpu kLOG_THRESHOLD ⟨has_ignore_label, ignore_label, N, H * W⟩ g propagate_down
          ⟨N, C, H, W, P, dP⟩ ⟨N, 1, H, W, L, dL⟩ ⟨N, 1, H, W, M, dM⟩ = Outcome.done st
      ∧ (∀ i, i < N → ∀ j, j < H * W →
          spec_ignored has_ignore_label ignore_label L (H * W) i j = false →
          st.bottom_diff (spec_offset C (H * W) i (label_value L (H * W) i j) j)
            = - g / (max (1 : α) (spec_count has_ignore_label ignore_label L N (H * W) : α)
                * max (spec_at P C (H * W) i (label_value L (H * W) i j) j) kLOG_THRESHOLD))
      ∧ (∀ c : Int, 0 ≤ c → c < ((N * C * H * W : Nat) : Int) →
          (∀ i, i < N → ∀ j, j < H * W →
            spec_ignored has_ignore_label ignore_label L (H * W) i j = false →
            c ≠ spec_offset C (H * W) i (label_value L (H * W) i j) j) →
          st.bottom_diff c = 0) := by
  refine ⟨_, Backward_cpu_done kLOG_THRESHOLD _ g propagate_down _ _ _ h1 hN, ?_, ?_⟩
  · intro i hi j hj hign
    obtain ⟨hl0, hl1⟩ := hlab i hi j hj hign
    obtain ⟨hb0, hb1⟩ := spec_offset_bounds N C (H * W) i j _ hi hj hl0 hl1
    have hb1' : spec_offset C (H * W) i (label_value L (H * W) i j) j
        < ((N * C * H * W : Nat) : Int) := by
      rw [Nat.mul_assoc (N * C) H W]; exact hb1
    obtain ⟨hcnt, hbuf⟩ := backward_data_loop_spec kLOG_THRESHOLD
      ⟨has_ignore_label, ignore_label, N, H * W⟩ ⟨N, C, H, W, P, dP⟩ ⟨N, 1, H, W, L, dL⟩
      (N * C * H * W / N) (caffe_set (N * C * H * W) (0 : α) dP)
    simp only [h0, if_true, Blob.count]
    rw [caffe_scal_in _ _ _ _ hb0 hb1', hcnt,
      (hbuf _).1 ⟨i, hi, j, hj, hign, loop_index_eq N C H W i j _ hi⟩]
    unfold spec_at
    rw [div_mul_div_comm, mul_one]
  · intro c hc0 hc1 hne
    obtain ⟨_, hbuf⟩ := backward_data_loop_spec kLOG_THRESHOLD
      ⟨has_ignore_label, ignore_label, N, H * W⟩ ⟨N, C, H, W, P, dP⟩ ⟨N, 1, H, W, L, dL⟩
      (N * C * H * W / N) (caffe_set (N * C * H * W) (0 : α) dP)
    simp only [h0, if_true, Blob.count]
    rw [caffe_scal_in _ _ _ _ hc0 hc1, (hbuf c).2, caffe_set_in _ _ _ _ hc0 hc1, mul_zero]
    rintro ⟨i, hi, j, hj, hign, hidx⟩
    exact hne i hi j hj hign (by rw [← hidx]; exact loop_index_eq N C H W i j _ hi)


/-- Cells of `dM` after `Backward_cpu` when the mask gradient is requested. -/
theorem backward_mask_diff_spec (kLOG_THRESHOLD : α)
    (has_ignore_label : Bool) (ignore_label : Int) (N C H W : Nat)
    (P L M dP dL dM : Int → α) (g : α) (propagate_down : Fin 3 → Bool)
    (h2 : propagate_down 2 = true) (h1 : propagate_down 1 = false) (hN : 0 < N) :
    ∃ st : Diffs α,
      Backward_cpu kLOG_THRESHOLD ⟨has_ignore_label, ignore_label, N, H * W⟩ g propagate_down
          ⟨N, C, H, W, P, dP⟩ ⟨N, 1, H, W, L, dL⟩ ⟨N, 1, H, W, M, dM⟩ = Outcome.done st
      ∧ ∀ i, i < N → ∀ j, j < H * W →
          (spec_ignored has_ignore_label ignore_label L (H * W) i j = true →
            st.mask_diff (spec_offset 1 (H * W) i 0 j) = 0)
          ∧ (spec_ignored has_ignore_label ignore_label L (H * W) i j = false →
              label_value L (H * W) i j ≠ 0 →
              st.mask_diff (spec_offset 1 (H * W) i 0 j)
                = - g / (max (1 : α) (spec_count has_ignore_label ignore_label L N (H * W) : α)
                    * max (spec_at M 1 (H * W) i 0 j) kLOG_THRESHOLD))
          ∧ (spec_ignored has_ignore_label ignore_label L (H * W) i j = false →
              label_value L (H * W) i j = 0 →
              st.mask_diff (spec_offset 1 (H * W) i 0 j)
                = - g / (max (1 : α) (spec_count has_ignore_label ignore_label L N (H * W) : α)
                    * (max (spec_at M 1 (H * W) i 0 j) kLOG_THRESHOLD - 1))) := by
  refine ⟨_, Backward_cpu_done kLOG_THRESHOLD _ g propagate_down _ _ _ h1 hN, ?_⟩
  intro i hi j hj
  have hoff : spec_offset 1 (H * W) i 0 j = (i : Int) * ((H * W : Nat) : Int) + (j : Int) := by
    unfold spec_offset; push_cast; ring
  obtain ⟨hb0, hb1⟩ := cell_bounds N (H * W) i j hi hj
  have hb1' : (i : Int) * ((H * W : Nat) : Int) + (j : Int) < ((N * 1 * H * W : Nat) : Int) := by
    rw [Nat.mul_one, Nat.mul_assoc N H W]; exact hb1
  obtain ⟨hcnt, hbuf⟩ := backward_mask_loop_spec kLOG_THRESHOLD
    ⟨has_ignore_label, ignore_label, N, H * W⟩ ⟨N, 1, H, W, L, dL⟩ ⟨N, 1, H, W, M, dM⟩
    (caffe_set (N * 1 * H * W) (0 : α) dM)
  simp only [h2, if_true, Blob.count]
  rw [hoff, caffe_scal_in _ _ _ _ hb0 hb1', hcnt]
  refine ⟨?_, ?_, ?_⟩
  · intro hign
    have hnw : ¬ ∃ i', i' < N ∧ ∃ j', j' < H * W ∧
        spec_ignored has_ignore_label ignore_label L (H * W) i' j' = false ∧
        (i' : Int) * ((H * W : Nat) : Int) + (j' : Int)
          = (i : Int) * ((H * W : Nat) : Int) + (j : Int) := by
      rintro ⟨i', _, j', hj', hign', hidx⟩
      obtain ⟨rfl, rfl⟩ := cell_injective (H * W) i' j' i j hj' hj hidx
      rw [hign] at hign'
      exact absurd hign' (by simp)
    rw [((hbuf _).2 hnw).1, caffe_set_in _ _ _ _ hb0 hb1', mul_zero]
  · intro hign hl
    rw [((hbuf _).1 ⟨i, hi, j, hj, hign, rfl⟩).1]
    have hl' : static_cast_int (L ((i : Int) * ((H * W : Nat) : Int) + (j : Int))) ≠ 0 := hl
    simp only [spec_at, hoff]
    rw [if_pos hl', div_mul_div_comm, mul_one]
  · intro hign hl
    rw [((hbuf _).1 ⟨i, hi, j, hj, hign, rfl⟩).1]
    have hl' : static_cast_int (L ((i : Int) * ((H * W : Nat) : Int) + (j : Int))) = 0 := hl
    simp only [spec_at, hoff]
    rw [if_neg (fun h => h hl'), div_mul_div_comm, mul_one]

/-- Marks of `dM` after `Backward_cpu` when the mask gradient is requested: the
cell of a position is marked exactly when the position is not ignored and the
divisor of its reciprocal is zero. -/
theorem backward_mask_nonfinite_spec (kLOG_THRESHOLD : α)
    (has_ignore_label : Bool) (ignore_label : Int) (N C H W : Nat)
    (P L M dP dL dM : Int → α) (g : α) (propagate_down : Fin 3 → Bool)
    (h2 : propagate_down 2 = true) (h1 : propagate_down 1 = false) (hN : 0 < N) :
    ∃ st : Diffs α,
      Backward_cpu kLOG_THRESHOLD ⟨has_ignore_label, ignore_label, N, H * W⟩ g propagate_down
          ⟨N, C, H, W, P, dP⟩ ⟨N, 1, H, W, L, dL⟩ ⟨N, 1, H, W, M, dM⟩ = Outcome.done st
      ∧ ∀ i, i < N → ∀ j, j < H * W →
          (spec_ignored has_ignore_label ignore_label L (H * W) i j = true →
            st.mask_nonfinite (spec_offset 1 (H * W) i 0 j) = false)
          ∧ (spec_ignored has_ignore_label ignore_label L (H * W) i j = false →
              st.mask_nonfinite (spec_offset 1 (H * W) i 0 j)
                = decide (backward_mask_denominator kLOG_THRESHOLD M (H * W) i j
                    (label_value L (H * W) i j) = 0)) := by
  refine ⟨_, Backward_cpu_done kLOG_THRESHOLD _ g propagate_down _ _ _ h1 hN, ?_⟩
  intro i hi j hj
  have hoff : spec_offset 1 (H * W) i 0 j = (i : Int) * ((H * W : Nat) : Int) + (j : Int) := by
    unfold spec_offset; push_cast; ring
  obtain ⟨_, hbuf⟩ := backward_mask_loop_spec kLOG_THRESHOLD
    ⟨has_ignore_label, ignore_label, N, H * W⟩ ⟨N, 1, H, W, L, dL⟩ ⟨N, 1, H, W, M, dM⟩
    (caffe_set (N * 1 * H * W) (0 : α) dM)
  simp only [h2, if_true, Blob.count]
  rw [hoff]
  refine ⟨?_, ?_⟩
  · intro hign
    refine ((hbuf _).2 ?_).2
    rintro ⟨i', _, j', hj', hign', hidx⟩
    obtain ⟨rfl, rfl⟩ := cell_injective (H * W) i' j' i j hj' hj hidx
    rw [hign] at hign'
    exact absurd hign' (by simp)
  · intro hign
    rw [((hbuf _).1 ⟨i, hi, j, hj, hign, rfl⟩).2]
    rfl

end BackwardCells

/-! ## Facts about the spec-side sums -/

section SpecLemmas

variable {α : Type} [LinearOrderedField α] [FloorRing α]

theorem spec_count_all_ignored (has_ignore_label : Bool) (ignore_label : Int) (L : Int → α)
    (N HW : Nat)
    (h : ∀ i, i < N → ∀ j, j < HW →
      spec_ignored has_ignore_label ignore_label L HW i j = true) :
    spec_count has_ignore_label ignore_label L N HW = 0 := by
  unfold spec_count
  refine Finset.sum_eq_zero (fun i hi => Finset.sum_eq_zero (fun j hj => ?_))
  rw [if_pos (h i (Finset.mem_range.mp hi) j (Finset.mem_range.mp hj))]

theorem spec_nll_sum_all_ignored (kLOG_THRESHOLD : α) (log : α → α)
    (has_ignore_label : Bool) (ignore_label : Int) (P L M : Int → α) (N C HW : Nat)
    (h : ∀ i, i < N → ∀ j, j < HW →
      spec_ignored has_ignore_label ignore_label L HW i j = true) :
    spec_nll_sum kLOG_THRESHOLD log has_ignore_label ignore_label P L M N C HW = 0 := by
  unfold spec_nll_sum
  refine Finset.sum_eq_zero (fun i hi => Finset.sum_eq_zero (fun j hj => ?_))
  rw [if_pos (h i (Finset.mem_range.mp hi) j (Finset.mem_range.mp hj))]

theorem spec_count_none_ignored (has_ignore_label : Bool) (ignore_label : Int) (L : Int → α)
    (N HW : Nat)
    (h : ∀ i, i < N → ∀ j, j < HW →
      spec_ignored has_ignore_label ignore_label L HW i j = false) :
    spec_count has_ignore_label ignore_label L N HW = N * HW := by
  unfold spec_count
  have hinner : ∀ i ∈ Finset.range N,
      (∑ j in Finset.range HW,
        if spec_ignored has_ignore_label ignore_label L HW i j = true then 0 else 1) = HW := by
    intro i hi
    have : ∀ j ∈ Finset.range HW,
        (if spec_ignored has_ignore_label ignore_label L HW i j = true then 0 else 1) = 1 := by
      intro j hj
      rw [if_neg (by rw [h i (Finset.mem_range.mp hi) j (Finset.mem_range.mp hj)]; simp)]
    rw [Finset.sum_congr rfl this]
    simp
  rw [Finset.sum_congr rfl hinner]
  simp

theorem spec_nll_sum_none_ignored (kLOG_THRESHOLD : α) (log : α → α)
    (has_ignore_label : Bool) (ignore_label : Int) (P L M : Int → α) (N C HW : Nat)
    (h : ∀ i, i < N → ∀ j, j < HW →
      spec_ignored has_ignore_label ignore_label L HW i j = false) :
    spec_nll_sum kLOG_THRESHOLD log has_ignore_label ignore_label P L M N C HW
      = ∑ i in Finset.range N, ∑ j in Finset.range HW,
          - log (max (spec_p_eff P M C HW i j (label_value L HW i j)) kLOG_THRESHOLD) := by
  unfold spec_nll_sum
  refine Finset.sum_congr rfl (fun i hi => Finset.sum_congr rfl (fun j hj => ?_))
  rw [if_neg (by rw [h i (Finset.mem_range.mp hi) j (Finset.mem_range.mp hj)]; simp)]

/-- With every effective probability at most `1` at the non-ignored positions
and `0 < LOG_FLOOR ≤ 1`, the mean clamped negative log-likelihood is
non-negative. -/
theorem spec_loss_nonneg (kLOG_THRESHOLD : ℝ) (has_ignore_label : Bool) (ignore_label : Int)
    (P L M : Int → ℝ) (N C HW : Nat) (hk0 : 0 < kLOG_THRESHOLD) (hk1 : kLOG_THRESHOLD ≤ 1)
    (hp : ∀ i, i < N → ∀ j, j < HW →
      spec_ignored has_ignore_label ignore_label L HW i j = false →
      spec_p_eff P M C HW i j (label_value L HW i j) ≤ 1) :
    0 ≤ spec_loss kLOG_THRESHOLD Real.log has_ignore_label ignore_label P L M N C HW := by
  unfold spec_loss
  refine div_nonneg ?_ (le_trans zero_le_one (le_max_left _ _))
  unfold spec_nll_sum
  refine Finset.sum_nonneg (fun i hi => Finset.sum_nonneg (fun j hj => ?_))
  by_cases hign : spec_ignored has_ignore_label ignore_label L HW i j = true
  · rw [if_pos hign]
  · rw [if_neg hign]
    have hign' : spec_ignored has_ignore_label ignore_label L HW i j = false := by
      simpa using hign
    have hle := hp i (Finset.mem_range.mp hi) j (Finset.mem_range.mp hj) hign'
    have hpos : 0 < max (spec_p_eff P M C HW i j (label_value L HW i j)) kLOG_THRESHOLD :=
      lt_of_lt_of_le hk0 (le_max_right _ _)
    have hle1 : max (spec_p_eff P M C HW i j (label_value L HW i j)) kLOG_THRESHOLD ≤ 1 :=
      max_le hle hk1
    have := Real.log_nonpos (le_of_lt hpos) hle1
    linarith

end SpecLemmas

/-! ## Index arithmetic, counts and general loop facts -/

section MoreLemmas

variable {α : Type} [LinearOrderedField α] [FloorRing α]

/-- The offset map `(i, l, j) ↦ (i * C + l) * HW + j` is injective on
`l ∈ [0, C)`, `j < HW`. -/
theorem spec_offset_injective (C HW i j i' j' : Nat) (l l' : Int) (hj : j < HW)
    (hj' : j' < HW) (hl0 : 0 ≤ l) (hl : l < (C : Int)) (hl0' : 0 ≤ l') (hl' : l' < (C : Int))
    (h : spec_offset C HW i l j = spec_offset C HW i' l' j') :
    i = i' ∧ l = l' ∧ j = j' := by
  obtain ⟨n, rfl⟩ := Int.eq_ofNat_of_zero_le hl0
  obtain ⟨n', rfl⟩ := Int.eq_ofNat_of_zero_le hl0'
  have hn : n < C := by exact_mod_cast hl
  have hn' : n' < C := by exact_mod_cast hl'
  unfold spec_offset at h
  have h1 : ((i * C + n : Nat) : Int) * (HW : Int) + (j : Int)
      = ((i' * C + n' : Nat) : Int) * (HW : Int) + (j' : Int) := by
    push_cast; exact h
  obtain ⟨hrow, hjj⟩ := cell_injective HW (i * C + n) j (i' * C + n') j' hj hj' h1
  have h2 : (i : Int) * (C : Int) + (n : Int) = (i' : Int) * (C : Int) + (n' : Int) := by
    exact_mod_cast hrow
  obtain ⟨hii, hnn⟩ := cell_injective C i n i' n' hn hn' h2
  exact ⟨hii, by rw [hnn], hjj⟩

/-- The count is the number of elements of the set of non-ignored positions. -/
theorem spec_count_eq_card (has_ignore_label : Bool) (ignore_label : Int) (L : Int → α)
    (N HW : Nat) :
    spec_count has_ignore_label ignore_label L N HW
      = (spec_nonignored has_ignore_label ignore_label L N HW).card := by
  unfold spec_count spec_nonignored
  rw [Finset.card_filter, Finset.sum_product]
  refine Finset.sum_congr rfl (fun i _ => Finset.sum_congr rfl (fun j _ => ?_))
  cases spec_ignored has_ignore_label ignore_label L HW i j <;> simp

/-- The forward loop completes on a non-empty batch whenever no debug assertion
fails, whatever the shapes of the blobs. -/
theorem forward_loop_returns (debug : Bool) (kLOG_THRESHOLD : α) (log : α → α)
    (self : MultinomialLogisticLossMaskLayer) (bottom0 bottom1 bottom2 : Blob α)
    (hN : 0 < self.outer_num_)
    (hchk : ∀ i, i < self.outer_num_ → ∀ j, j < self.inner_num_ →
      dchecks_pass debug bottom0.channels bottom1.cpu_data self.inner_num_ i j) :
    ∃ r, forward_loop debug kLOG_THRESHOLD log self bottom0 bottom1 bottom2 = Except.ok r := by
  unfold forward_loop
  rw [if_neg (Nat.pos_iff_ne_zero.mp hN)]
  refine ⟨_, foldlM_range_ok _
    (fun st i => (List.range self.inner_num_).foldl
      (fun st j => accStep
        (fun i j => spec_ignored self.has_ignore_label_ self.ignore_label_
          bottom1.cpu_data self.inner_num_ i j)
        (fun i j => log (forward_prob kLOG_THRESHOLD bottom0.cpu_data bottom2.cpu_data
          (bottom0.count / self.outer_num_) self.inner_num_ i j
          (label_value bottom1.cpu_data self.inner_num_ i j))) i j st) st) _ ?_ _⟩
  intro s i hi
  exact foldlM_range_ok _ _ _
    (fun s j hj => forward_body_ok debug kLOG_THRESHOLD log _ _ _ _ _ i j s (hchk i hi j hj)) s

/-- Count accumulated by a completed forward loop. -/
theorem forward_loop_count (debug : Bool) (kLOG_THRESHOLD : α) (log : α → α)
    (has_ignore_label : Bool) (ignore_label : Int) (N C H W : Nat)
    (P L M dP dL dM : Int → α) (r : α × Nat)
    (hr : forward_loop debug kLOG_THRESHOLD log ⟨has_ignore_label, ignore_label, N, H * W⟩
        ⟨N, C, H, W, P, dP⟩ ⟨N, 1, H, W, L, dL⟩ ⟨N, 1, H, W, M, dM⟩ = Except.ok r) :
    r = (spec_nll_sum kLOG_THRESHOLD log has_ignore_label ignore_label P L M N C (H * W),
         spec_count has_ignore_label ignore_label L N (H * W)) := by
  have hchk := forward_loop_ok_dchecks debug kLOG_THRESHOLD log has_ignore_label
    ignore_label N C H W P L M dP dL dM r hr
  have hN : 0 < N := forward_loop_ok_pos debug kLOG_THRESHOLD log _ _ _ _ r hr
  rw [forward_loop_eq debug kLOG_THRESHOLD log has_ignore_label ignore_label N C H W
    P L M dP dL dM hN hchk] at hr
  injection hr with hr
  exact hr.symm

theorem foldl_range_inv {σ : Type} (f : σ → Nat → σ) (n : Nat) (Inv : σ → Prop)
    (h : ∀ s i, i < n → Inv s → Inv (f s i)) (s : σ) (hs : Inv s) :
    Inv ((List.range n).foldl f s) := by
  induction n with
  | zero => exact hs
  | succ n ih =>
    rw [List.range_succ, List.foldl_append]
    simp only [List.foldl_cons, List.foldl_nil]
    exact h _ n (Nat.lt_succ_self n) (ih (fun s i hi => h s i (Nat.lt_succ_of_lt hi)))

theorem foldlM_range_inv {σ : Type} (f : σ → Nat → Except String σ) (n : Nat)
    (Inv : σ → Prop) (h : ∀ s i s', i < n → Inv s → f s i = Except.ok s' → Inv s')
    (s : σ) (hs : Inv s) (r : σ) (hr : (List.range n).foldlM f s = Except.ok r) : Inv r := by
  induction n generalizing r with
  | zero =>
    simp only [List.range_zero, List.foldlM_nil, pure, Except.pure] at hr
    injection hr with hr
    rw [← hr]; exact hs
  | succ n ih =>
    rw [List.range_succ, List.foldlM_append] at hr
    cases h1 : (List.range n).foldlM f s with
    | error e =>
      rw [h1] at hr
      exact absurd hr (by simp [bind, Except.bind])
    | ok s1 =>
      rw [h1] at hr
      have hs1 : Inv s1 := ih (fun s i s' hi => h s i s' (Nat.lt_succ_of_lt hi)) s1 h1
      simp only [List.foldlM_cons, List.foldlM_nil, bind, Except.bind] at hr
      cases h2 : f s1 n with
      | error e =>
        rw [h2] at hr
        exact absurd hr (by simp)
      | ok s2 =>
        rw [h2] at hr
        simp only [pure, Except.pure] at hr
        injection hr with hr
        rw [← hr]
        exact h s1 n s2 (Nat.lt_succ_self n) hs1 h2

/-- Every index at which a completed forward pass has read `bottom_data` is
the offset of a non-ignored position with its label. -/
theorem forward_reads_mem (debug : Bool) (has_ignore_label : Bool) (ignore_label : Int)
    (N C H W : Nat) (P L dP dL : Int → α) (tr : List Int)
    (htr : forward_reads debug ⟨has_ignore_label, ignore_label, N, H * W⟩
        ⟨N, C, H, W, P, dP⟩ ⟨N, 1, H, W, L, dL⟩ = Except.ok tr) :
    ∀ c, c ∈ tr → ∃ i, i < N ∧ ∃ j, j < H * W ∧
      spec_ignored has_ignore_label ignore_label L (H * W) i j = false ∧
      c = spec_offset C (H * W) i (label_value L (H * W) i j) j := by
  unfold forward_reads at htr
  by_cases hN : N = 0
  · rw [if_pos hN] at htr
    exact absurd htr (by simp)
  rw [if_neg hN] at htr
  refine foldlM_range_inv _ N
    (fun tr => ∀ c, c ∈ tr → ∃ i, i < N ∧ ∃ j, j < H * W ∧
      spec_ignored has_ignore_label ignore_label L (H * W) i j = false ∧
      c = spec_offset C (H * W) i (label_value L (H * W) i j) j)
    ?_ [] (by intro c hc; exact absurd hc (List.not_mem_nil c)) tr htr
  intro s i s' hi hs hstep
  refine foldlM_range_inv _ (H * W)
    (fun tr => ∀ c, c ∈ tr → ∃ i, i < N ∧ ∃ j, j < H * W ∧
      spec_ignored has_ignore_label ignore_label L (H * W) i j = false ∧
      c = spec_offset C (H * W) i (label_value L (H * W) i j) j)
    ?_ s hs s' hstep
  intro t j t' hj ht hbody
  unfold forward_reads_body at hbody
  simp only [Blob.count] at hbody
  split at hbody
  · exact absurd hbody (by simp)
  · split at hbody
    · exact absurd hbody (by simp)
    · split at hbody
      · injection hbody with hbody
        rw [← hbody]; exact ht
      · rename_i hign
        injection hbody with hbody
        rw [← hbody]
        intro c hc
        rcases List.mem_append.mp hc with hc | hc
        · exact ht c hc
        · rw [List.mem_singleton] at hc
          refine ⟨i, hi, j, hj, ?_, ?_⟩
          · simpa [spec_ignored] using hign
          · rw [hc]; exact loop_index_eq N C H W i j _ hi

/-- Every index accessed by the probability-gradient pass is the offset of a
non-ignored position with its label. -/
theorem backward_accesses_mem (has_ignore_label : Bool) (ignore_label : Int)
    (N C H W : Nat) (P L dP dL : Int → α) (tr : List Int)
    (htr : backward_accesses ⟨has_ignore_label, ignore_label, N, H * W⟩
        ⟨N, C, H, W, P, dP⟩ ⟨N, 1, H, W, L, dL⟩ = Except.ok tr) :
    ∀ c, c ∈ tr →
      ∃ i, i < N ∧ ∃ j, j < H * W ∧
        spec_ignored has_ignore_label ignore_label L (H * W) i j = false ∧
        c = spec_offset C (H * W) i (label_value L (H * W) i j) j := by
  unfold backward_accesses at htr
  by_cases hN : N = 0
  · rw [if_pos hN] at htr
    exact absurd htr (by simp)
  rw [if_neg hN] at htr
  injection htr with htr
  rw [← htr]
  refine foldl_range_inv _ N
    (fun tr => ∀ c, c ∈ tr → ∃ i, i < N ∧ ∃ j, j < H * W ∧
      spec_ignored has_ignore_label ignore_label L (H * W) i j = false ∧
      c = spec_offset C (H * W) i (label_value L (H * W) i j) j)
    ?_ [] (by intro c hc; exact absurd hc (List.not_mem_nil c))
  intro s i hi hs
  refine foldl_range_inv _ (H * W)
    (fun tr => ∀ c, c ∈ tr → ∃ i, i < N ∧ ∃ j, j < H * W ∧
      spec_ignored has_ignore_label ignore_label L (H * W) i j = false ∧
      c = spec_offset C (H * W) i (label_value L (H * W) i j) j)
    ?_ s hs
  intro t j hj ht
  unfold backward_accesses_body
  simp only [Blob.count]
  split
  · exact ht
  · rename_i hign
    intro c hc
    rcases List.mem_append.mp hc with hc | hc
    · exact ht c hc
    · rw [List.mem_singleton] at hc
      refine ⟨i, hi, j, hj, ?_, ?_⟩
      · simpa [spec_ignored] using hign
      · rw [hc]; exact loop_index_eq N C H W i j _ hi

/-- The probability-gradient pass completes on a non-empty batch. -/
theorem backward_accesses_returns (has_ignore_label : Bool) (ignore_label : Int)
    (N C H W : Nat) (P L dP dL : Int → α) (hN : 0 < N) :
    ∃ tr, backward_accesses ⟨has_ignore_label, ignore_label, N, H * W⟩
        ⟨N, C, H, W, P, dP⟩ ⟨N, 1, H, W, L, dL⟩ = Except.ok tr := by
  unfold backward_accesses
  rw [if_neg (Nat.pos_iff_ne_zero.mp hN)]
  exact ⟨_, rfl⟩

/-- The instrumented forward pass completes on a non-empty batch whenever no
debug assertion fails. -/
theorem forward_reads_returns (debug : Bool) (has_ignore_label : Bool) (ignore_label : Int)
    (N C H W : Nat) (P L dP dL : Int → α) (hN : 0 < N)
    (hchk : ∀ i, i < N → ∀ j, j < H * W → dchecks_pass debug C L (H * W) i j) :
    ∃ tr, forward_reads debug ⟨has_ignore_label, ignore_label, N, H * W⟩
        ⟨N, C, H, W, P, dP⟩ ⟨N, 1, H, W, L, dL⟩ = Except.ok tr := by
  unfold forward_reads
  rw [if_neg (Nat.pos_iff_ne_zero.mp hN)]
  refine ⟨_, foldlM_range_ok _
    (fun tr i => (List.range (H * W)).foldl
      (fun tr j => backward_accesses_body ⟨has_ignore_label, ignore_label, N, H * W⟩
        ⟨N, 1, H, W, L, dL⟩ (N * C * H * W / N) i j tr) tr) _ ?_ _⟩
  intro s i hi
  refine foldlM_range_ok _ _ _ ?_ s
  intro t j hj
  unfold forward_reads_body backward_accesses_body
  simp only [Blob.count]
  rcases hchk i hi j hj with h | ⟨h0, h1⟩
  · subst h
    simp only [Bool.false_and, Bool.false_eq_true, if_false]
    split <;> rfl
  · have e0 : (debug && !decide (label_value L (H * W) i j ≥ 0)) = false := by simp [h0]
    have e1 : (debug && !decide (label_value L (H * W) i j < (C : Int))) = false := by
      simp [h1]
    simp only [e0, e1, Bool.false_eq_true, if_false]
    split <;> rfl

/-- With `0 < LOG_FLOOR < 1` the mean clamped negative log-likelihood is at
most `-log LOG_FLOOR`. -/
theorem spec_loss_le (kLOG_THRESHOLD : ℝ) (has_ignore_label : Bool) (ignore_label : Int)
    (P L M : Int → ℝ) (N C HW : Nat) (hk0 : 0 < kLOG_THRESHOLD) (hk1 : kLOG_THRESHOLD < 1) :
    spec_loss kLOG_THRESHOLD Real.log has_ignore_label ignore_label P L M N C HW
      ≤ - Real.log kLOG_THRESHOLD := by
  have hc : 0 ≤ - Real.log kLOG_THRESHOLD := by
    have := Real.log_nonpos (le_of_lt hk0) (le_of_lt hk1)
    linarith
  have hsum : spec_nll_sum kLOG_THRESHOLD Real.log has_ignore_label ignore_label P L M N C HW
      ≤ (spec_count has_ignore_label ignore_label L N HW : ℝ) * (- Real.log kLOG_THRESHOLD) := by
    unfold spec_nll_sum spec_count
    rw [Nat.cast_sum, Finset.sum_mul]
    refine Finset.sum_le_sum (fun i _ => ?_)
    rw [Nat.cast_sum, Finset.sum_mul]
    refine Finset.sum_le_sum (fun j _ => ?_)
    by_cases hign : spec_ignored has_ignore_label ignore_label L HW i j = true
    · simp [hign]
    · simp only [hign, if_false, Bool.false_eq_true, Nat.cast_one, one_mul]
      have := Real.log_le_log hk0
        (le_max_right (spec_p_eff P M C HW i j (label_value L HW i j)) kLOG_THRESHOLD)
      linarith
  have hmx : (0 : ℝ) < max (1 : ℝ) (spec_count has_ignore_label ignore_label L N HW : ℝ) :=
    lt_of_lt_of_le zero_lt_one (le_max_left _ _)
  unfold spec_loss
  rw [div_le_iff₀ hmx]
  refine le_trans hsum ?_
  rw [mul_comm]
  exact mul_le_mul_of_nonneg_left (le_max_right _ _) hc

end MoreLemmas

/-! ## Derivatives of the forward loss -/

section Calculus

/-- Derivative of a clamped negative logarithm of an affine function at a
point where the clamp is not active. -/
theorem hasDerivAt_neg_log_clamp (a b k x0 : ℝ) (hk : 0 < k) (h : k < a * x0 + b) :
    HasDerivAt (fun x => - Real.log (max (a * x + b) k)) (-(a / (a * x0 + b))) x0 := by
  have h1 : HasDerivAt (fun x => a * x + b) a x0 := by
    simpa using ((hasDerivAt_id x0).const_mul a).add_const b
  have h2 : HasDerivAt (fun x => Real.log (a * x + b)) (a / (a * x0 + b)) x0 :=
    h1.log (ne_of_gt (lt_trans hk h))
  have h3 : ∀ᶠ x in nhds x0, k < a * x + b :=
    h1.continuousAt.eventually (lt_mem_nhds h)
  have h4 : (fun x => - Real.log (max (a * x + b) k))
      =ᶠ[nhds x0] (fun x => - Real.log (a * x + b)) := by
    filter_upwards [h3] with x hx
    rw [max_eq_left (le_of_lt hx)]
  exact h2.neg.congr_of_eventuallyEq h4

theorem affine_log_slope (w x : ℝ) (hw : w ≠ 0) (hx : x ≠ 0) :
    -(w / (w * x + 0)) = -(1 / x) := by
  rw [add_zero]
  field_simp

theorem affine_log_slope_compl (p x : ℝ) (hp : p ≠ 0) (hx : 1 - x ≠ 0) :
    -(-p / (-p * x + p)) = 1 / (1 - x) := by
  have h : -p * x + p = p * (1 - x) := by ring
  rw [h]
  field_simp

/-- A double sum in which only the term of position `(i0, j0)` varies has the
derivative of that term. -/
theorem hasDerivAt_single_term (N HW : Nat) (F : ℝ → Nat → Nat → ℝ) (i0 j0 : Nat)
    (hi0 : i0 < N) (hj0 : j0 < HW) (x0 d : ℝ)
    (hother : ∀ i, i < N → ∀ j, j < HW → ¬ (i = i0 ∧ j = j0) → ∀ x, F x i j = F x0 i j)
    (hd : HasDerivAt (fun x => F x i0 j0) d x0) :
    HasDerivAt (fun x => ∑ i in Finset.range N, ∑ j in Finset.range HW, F x i j) d x0 := by
  have hterm : ∀ i ∈ Finset.range N, ∀ j ∈ Finset.range HW,
      HasDerivAt (fun x => F x i j) (if i = i0 ∧ j = j0 then d else 0) x0 := by
    intro i hi j hj
    by_cases h : i = i0 ∧ j = j0
    · obtain ⟨rfl, rfl⟩ := h
      simpa using hd
    · rw [if_neg h]
      have hc : (fun x => F x i j) = fun _ => F x0 i j :=
        funext (hother i (Finset.mem_range.mp hi) j (Finset.mem_range.mp hj) h)
      rw [hc]
      exact hasDerivAt_const x0 _
  have hsum := HasDerivAt.sum (fun i hi => HasDerivAt.sum (hterm i hi))
  have hval : (∑ i in Finset.range N, ∑ j in Finset.range HW,
      (if i = i0 ∧ j = j0 then d else 0)) = d := by
    rw [Finset.sum_eq_single i0]
    · rw [Finset.sum_eq_single j0]
      · simp
      · intro j _ hj
        rw [if_neg (fun h => hj h.2)]
      · intro h
        exact absurd (Finset.mem_range.mpr hj0) h
    · intro i _ hi
      refine Finset.sum_eq_zero (fun j _ => ?_)
      rw [if_neg (fun h => hi h.1)]
    · intro h
      exact absurd (Finset.mem_range.mpr hi0) h
  rw [hval] at hsum
  exact hsum

/-- On a non-empty batch on which no debug assertion fails the value of
`Forward_loss` is the mean clamped negative log-likelihood. -/
theorem Forward_loss_eq {α : Type} [LinearOrderedField α] [FloorRing α]
    (debug : Bool) (kLOG_THRESHOLD : α) (log : α → α)
    (has_ignore_label : Bool) (ignore_label : Int) (N C H W : Nat)
    (P L M dP dL dM : Int → α) (hN : 0 < N)
    (hchk : ∀ i, i < N → ∀ j, j < H * W → dchecks_pass debug C L (H * W) i j) :
    Forward_loss debug kLOG_THRESHOLD log ⟨has_ignore_label, ignore_label, N, H * W⟩
        ⟨N, C, H, W, P, dP⟩ ⟨N, 1, H, W, L, dL⟩ ⟨N, 1, H, W, M, dM⟩
      = spec_loss kLOG_THRESHOLD log has_ignore_label ignore_label P L M N C (H * W) := by
  unfold Forward_loss
  rw [Forward_cpu_eq debug kLOG_THRESHOLD log has_ignore_label ignore_label N C H W
    P L M dP dL dM hN hchk]

/-- The effective probability is the selected probability times a mask
weight. -/
theorem spec_p_eff_factor (P M : Int → ℝ) (C HW i j : Nat) (l : Int) :
    spec_p_eff P M C HW i j l
      = (if l ≠ 0 then spec_at M 1 HW i 0 j else 1 - spec_at M 1 HW i 0 j)
          * spec_at P C HW i l j := by
  unfold spec_p_eff
  by_cases h : l = 0
  · subst h; simp [mul_comm]
  · simp [h, mul_comm]

/-- Derivative of the forward loss with respect to the probability selected at
a non-ignored position where the forward clamp is not active: the mask weight
cancels. -/
theorem forward_loss_hasDerivAt_data (debug : Bool) (kLOG_THRESHOLD : ℝ)
    (has_ignore_label : Bool) (ignore_label : Int) (N C H W : Nat)
    (P L M dP dL dM : Int → ℝ) (hk : 0 < kLOG_THRESHOLD)
    (hchk : ∀ i, i < N → ∀ j, j < H * W → dchecks_pass debug C L (H * W) i j)
    (hlab : ∀ i, i < N → ∀ j, j < H * W →
      spec_ignored has_ignore_label ignore_label L (H * W) i j = false →
      0 ≤ label_value L (H * W) i j ∧ label_value L (H * W) i j < (C : Int))
    (i0 j0 : Nat) (hi0 : i0 < N) (hj0 : j0 < H * W)
    (hign : spec_ignored has_ignore_label ignore_label L (H * W) i0 j0 = false)
    (hpe : kLOG_THRESHOLD
      < spec_p_eff P M C (H * W) i0 j0 (label_value L (H * W) i0 j0)) :
    HasDerivAt
      (fun x => Forward_loss debug kLOG_THRESHOLD Real.log
        ⟨has_ignore_label, ignore_label, N, H * W⟩
        ⟨N, C, H, W,
          Function.update P (spec_offset C (H * W) i0 (label_value L (H * W) i0 j0) j0) x, dP⟩
        ⟨N, 1, H, W, L, dL⟩ ⟨N, 1, H, W, M, dM⟩)
      (-(1 / spec_at P C (H * W) i0 (label_value L (H * W) i0 j0) j0)
        / max (1 : ℝ) (spec_count has_ignore_label ignore_label L N (H * W) : ℝ))
      (spec_at P C (H * W) i0 (label_value L (H * W) i0 j0) j0) := by
  have hfun : (fun x => Forward_loss debug kLOG_THRESHOLD Real.log
        ⟨has_ignore_label, ignore_label, N, H * W⟩
        ⟨N, C, H, W,
          Function.update P (spec_offset C (H * W) i0 (label_value L (H * W) i0 j0) j0) x, dP⟩
        ⟨N, 1, H, W, L, dL⟩ ⟨N, 1, H, W, M, dM⟩)
      = fun x => (∑ i in Finset.range N, ∑ j in Finset.range (H * W),
          (if spec_ignored has_ignore_label ignore_label L (H * W) i j then 0
           else - Real.log (max (spec_p_eff
             (Function.update P (spec_offset C (H * W) i0 (label_value L (H * W) i0 j0) j0) x)
             M C (H * W) i j (label_value L (H * W) i j)) kLOG_THRESHOLD)))
          / max (1 : ℝ) (spec_count has_ignore_label ignore_label L N (H * W) : ℝ) := by
    funext x
    rw [Forward_loss_eq debug kLOG_THRESHOLD Real.log has_ignore_label ignore_label N C H W
      _ L M dP dL dM (Nat.lt_of_le_of_lt (Nat.zero_le i0) hi0) hchk]
    rfl
  rw [hfun]
  refine HasDerivAt.div_const ?_ _
  obtain ⟨hl0, hl1⟩ := hlab i0 hi0 j0 hj0 hign
  refine hasDerivAt_single_term N (H * W) _ i0 j0 hi0 hj0 _ _ ?_ ?_
  · intro i hi j hj hne x
    by_cases hig : spec_ignored has_ignore_label ignore_label L (H * W) i j = true
    · simp only [hig, if_true]
    · simp only [hig, if_false, Bool.false_eq_true]
      obtain ⟨hli0, hli1⟩ := hlab i hi j hj (by simpa using hig)
      have hoff : spec_offset C (H * W) i (label_value L (H * W) i j) j
          ≠ spec_offset C (H * W) i0 (label_value L (H * W) i0 j0) j0 := by
        intro h
        obtain ⟨h1, _, h3⟩ := spec_offset_injective C (H * W) i j i0 j0 _ _ hj hj0
          hli0 hli1 hl0 hl1 h
        exact hne ⟨h1, h3⟩
      rw [spec_p_eff_factor, spec_p_eff_factor]
      simp only [spec_at, Function.update_noteq hoff]
  · have hterm : (fun x =>
          if spec_ignored has_ignore_label ignore_label L (H * W) i0 j0 = true then 0
          else - Real.log (max (spec_p_eff
            (Function.update P (spec_offset C (H * W) i0 (label_value L (H * W) i0 j0) j0) x)
            M C (H * W) i0 j0 (label_value L (H * W) i0 j0)) kLOG_THRESHOLD))
        = fun x => - Real.log (max
            ((if label_value L (H * W) i0 j0 ≠ 0 then spec_at M 1 (H * W) i0 0 j0
              else 1 - spec_at M 1 (H * W) i0 0 j0) * x + 0) kLOG_THRESHOLD) := by
      funext x
      rw [if_neg (by rw [hign]; simp), spec_p_eff_factor]
      simp only [spec_at, Function.update_same, add_zero]
    rw [hterm]
    rw [spec_p_eff_factor] at hpe
    have hd := hasDerivAt_neg_log_clamp
      (if label_value L (H * W) i0 j0 ≠ 0 then spec_at M 1 (H * W) i0 0 j0
        else 1 - spec_at M 1 (H * W) i0 0 j0) 0 kLOG_THRESHOLD
      (spec_at P C (H * W) i0 (label_value L (H * W) i0 j0) j0) hk (by rw [add_zero]; exact hpe)
    have hprod := lt_trans hk hpe
    have hw : (if label_value L (H * W) i0 j0 ≠ 0 then spec_at M 1 (H * W) i0 0 j0
        else 1 - spec_at M 1 (H * W) i0 0 j0) ≠ 0 := by
      intro h; rw [h, zero_mul] at hprod; exact lt_irrefl _ hprod
    have hx : spec_at P C (H * W) i0 (label_value L (H * W) i0 j0) j0 ≠ 0 := by
      intro h; rw [h, mul_zero] at hprod; exact lt_irrefl _ hprod
    rw [affine_log_slope _ _ hw hx] at hd
    exact hd

/-- Derivative of the forward loss with respect to the mask value of a
non-ignored position where the forward clamp is not active: `-1/M` for a
non-zero label, `1/(1 - M)` for label `0`, over the normalizer. -/
theorem forward_loss_hasDerivAt_mask (debug : Bool) (kLOG_THRESHOLD : ℝ)
    (has_ignore_label : Bool) (ignore_label : Int) (N C H W : Nat)
    (P L M dP dL dM : Int → ℝ) (hk : 0 < kLOG_THRESHOLD)
    (hchk : ∀ i, i < N → ∀ j, j < H * W → dchecks_pass debug C L (H * W) i j)
    (i0 j0 : Nat) (hi0 : i0 < N) (hj0 : j0 < H * W)
    (hign : spec_ignored has_ignore_label ignore_label L (H * W) i0 j0 = false)
    (hpe : kLOG_THRESHOLD
      < spec_p_eff P M C (H * W) i0 j0 (label_value L (H * W) i0 j0)) :
    HasDerivAt
      (fun x => Forward_loss debug kLOG_THRESHOLD Real.log
        ⟨has_ignore_label, ignore_label, N, H * W⟩
        ⟨N, C, H, W, P, dP⟩ ⟨N, 1, H, W, L, dL⟩
        ⟨N, 1, H, W, Function.update M (spec_offset 1 (H * W) i0 0 j0) x, dM⟩)
      ((if label_value L (H * W) i0 j0 ≠ 0 then -(1 / spec_at M 1 (H * W) i0 0 j0)
          else 1 / (1 - spec_at M 1 (H * W) i0 0 j0))
        / max (1 : ℝ) (spec_count has_ignore_label ignore_label L N (H * W) : ℝ))
      (spec_at M 1 (H * W) i0 0 j0) := by
  have hfun : (fun x => Forward_loss debug kLOG_THRESHOLD Real.log
        ⟨has_ignore_label, ignore_label, N, H * W⟩
        ⟨N, C, H, W, P, dP⟩ ⟨N, 1, H, W, L, dL⟩
        ⟨N, 1, H, W, Function.update M (spec_offset 1 (H * W) i0 0 j0) x, dM⟩)
      = fun x => (∑ i in Finset.range N, ∑ j in Finset.range (H * W),
          (if spec_ignored has_ignore_label ignore_label L (H * W) i j then 0
           else - Real.log (max (spec_p_eff P
             (Function.update M (spec_offset 1 (H * W) i0 0 j0) x)
             C (H * W) i j (label_value L (H * W) i j)) kLOG_THRESHOLD)))
          / max (1 : ℝ) (spec_count has_ignore_label ignore_label L N (H * W) : ℝ) := by
    funext x
    rw [Forward_loss_eq debug kLOG_THRESHOLD Real.log has_ignore_label ignore_label N C H W
      P L _ dP dL dM (Nat.lt_of_le_of_lt (Nat.zero_le i0) hi0) hchk]
    rfl
  rw [hfun]
  refine HasDerivAt.div_const ?_ _
  refine hasDerivAt_single_term N (H * W) _ i0 j0 hi0 hj0 _ _ ?_ ?_
  · intro i hi j hj hne x
    have hoff : spec_offset 1 (H * W) i 0 j ≠ spec_offset 1 (H * W) i0 0 j0 := by
      intro h
      obtain ⟨h1, _, h3⟩ := spec_offset_injective 1 (H * W) i j i0 j0 0 0 hj hj0
        (le_refl 0) (by norm_num) (le_refl 0) (by norm_num) h
      exact hne ⟨h1, h3⟩
    simp only [spec_p_eff, spec_at, Function.update_noteq hoff]
  · have hprod := lt_trans hk hpe
    by_cases hl : label_value L (H * W) i0 j0 = 0
    · have hterm : (fun x =>
            if spec_ignored has_ignore_label ignore_label L (H * W) i0 j0 = true then 0
            else - Real.log (max (spec_p_eff P
              (Function.update M (spec_offset 1 (H * W) i0 0 j0) x)
              C (H * W) i0 j0 (label_value L (H * W) i0 j0)) kLOG_THRESHOLD))
          = fun x => - Real.log (max
              (-(spec_at P C (H * W) i0 0 j0) * x + spec_at P C (H * W) i0 0 j0)
              kLOG_THRESHOLD) := by
        funext x
        rw [if_neg (by rw [hign]; simp)]
        simp only [spec_p_eff, hl, ne_eq, not_true_eq_false, if_false, spec_at,
          Function.update_same]
        rw [mul_sub, mul_one, neg_mul, sub_eq_neg_add]
      rw [hterm, if_neg (by simp [hl])]
      simp only [spec_p_eff, hl, ne_eq, not_true_eq_false, if_false] at hpe hprod
      have hp : spec_at P C (H * W) i0 0 j0 ≠ 0 := by
        intro h; rw [h, zero_mul] at hprod; exact lt_irrefl _ hprod
      have hx : 1 - spec_at M 1 (H * W) i0 0 j0 ≠ 0 := by
        intro h; rw [h, mul_zero] at hprod; exact lt_irrefl _ hprod
      have hd := hasDerivAt_neg_log_clamp (-(spec_at P C (H * W) i0 0 j0))
        (spec_at P C (H * W) i0 0 j0) kLOG_THRESHOLD (spec_at M 1 (H * W) i0 0 j0) hk
        (by
          have e : -(spec_at P C (H * W) i0 0 j0) * spec_at M 1 (H * W) i0 0 j0
              + spec_at P C (H * W) i0 0 j0
              = spec_at P C (H * W) i0 0 j0 * (1 - spec_at M 1 (H * W) i0 0 j0) := by ring
          rw [e]; exact hpe)
      rw [affine_log_slope_compl _ _ hp hx] at hd
      exact hd
    · have hterm : (fun x =>
            if spec_ignored has_ignore_label ignore_label L (H * W) i0 j0 = true then 0
            else - Real.log (max (spec_p_eff P
              (Function.update M (spec_offset 1 (H * W) i0 0 j0) x)
              C (H * W) i0 j0 (label_value L (H * W) i0 j0)) kLOG_THRESHOLD))
          = fun x => - Real.log (max
              (spec_at P C (H * W) i0 (label_value L (H * W) i0 j0) j0 * x + 0)
              kLOG_THRESHOLD) := by
        funext x
        rw [if_neg (by rw [hign]; simp)]
        simp only [spec_p_eff, hl, ne_eq, not_false_eq_true, if_true, spec_at,
          Function.update_same, add_zero]
      rw [hterm, if_pos hl]
      simp only [spec_p_eff, hl, ne_eq, not_false_eq_true, if_true] at hpe hprod
      have hp : spec_at P C (H * W) i0 (label_value L (H * W) i0 j0) j0 ≠ 0 := by
        intro h; rw [h, zero_mul] at hprod; exact lt_irrefl _ hprod
      have hx : spec_at M 1 (H * W) i0 0 j0 ≠ 0 := by
        intro h; rw [h, mul_zero] at hprod; exact lt_irrefl _ hprod
      have hd := hasDerivAt_neg_log_clamp
        (spec_at P C (H * W) i0 (label_value L (H * W) i0 j0) j0) 0 kLOG_THRESHOLD
        (spec_at M 1 (H * W) i0 0 j0) hk (by rw [add_zero]; exact hpe)
      rw [affine_log_slope _ _ hp hx] at hd
      exact hd

/-- A batch with a non-ignored position has a count of at least one. -/
theorem spec_count_pos {α : Type} [LinearOrderedField α] [FloorRing α]
    (has_ignore_label : Bool) (ignore_label : Int) (L : Int → α) (N HW i j : Nat)
    (hi : i < N) (hj : j < HW)
    (hign : spec_ignored has_ignore_label ignore_label L HW i j = false) :
    1 ≤ spec_count has_ignore_label ignore_label L N HW := by
  rw [spec_count_eq_card]
  refine Finset.card_pos.mpr ⟨(i, j), ?_⟩
  unfold spec_nonignored
  rw [Finset.mem_filter, Finset.mem_product]
  exact ⟨⟨Finset.mem_range.mpr hi, Finset.mem_range.mpr hj⟩, hign⟩

/-- Where no clamp is active the value written to `dP` is the upstream
gradient times the derivative of the forward loss. -/
theorem probability_gradient_analytic (debug : Bool) (kLOG_THRESHOLD : ℝ)
    (has_ignore_label : Bool) (ignore_label : Int) (N C H W : Nat)
    (P L M dP dL dM : Int → ℝ) (g : ℝ) (propagate_down : Fin 3 → Bool)
    (h0 : propagate_down 0 = true) (h1 : propagate_down 1 = false)
    (hk : 0 < kLOG_THRESHOLD)
    (hchk : ∀ i, i < N → ∀ j, j < H * W → dchecks_pass debug C L (H * W) i j)
    (hlab : ∀ i, i < N → ∀ j, j < H * W →
      spec_ignored has_ignore_label ignore_label L (H * W) i j = false →
      0 ≤ label_value L (H * W) i j ∧ label_value L (H * W) i j < (C : Int))
    (i j : Nat) (hi : i < N) (hj : j < H * W)
    (hign : spec_ignored has_ignore_label ignore_label L (H * W) i j = false)
    (hP : kLOG_THRESHOLD < spec_at P C (H * W) i (label_value L (H * W) i j) j)
    (hpe : kLOG_THRESHOLD < spec_p_eff P M C (H * W) i j (label_value L (H * W) i j)) :
    ∃ (d : ℝ) (st : Diffs ℝ),
      HasDerivAt
        (fun x => Forward_loss debug kLOG_THRESHOLD Real.log
          ⟨has_ignore_label, ignore_label, N, H * W⟩
          ⟨N, C, H, W,
            Function.update P (spec_offset C (H * W) i (label_value L (H * W) i j) j) x, dP⟩
          ⟨N, 1, H, W, L, dL⟩ ⟨N, 1, H, W, M, dM⟩)
        d (spec_at P C (H * W) i (label_value L (H * W) i j) j)
      ∧ Backward_cpu kLOG_THRESHOLD ⟨has_ignore_label, ignore_label, N, H * W⟩ g propagate_down
          ⟨N, C, H, W, P, dP⟩ ⟨N, 1, H, W, L, dL⟩ ⟨N, 1, H, W, M, dM⟩ = Outcome.done st
      ∧ st.bottom_diff (spec_offset C (H * W) i (label_value L (H * W) i j) j) = g * d
      ∧ st.bottom_diff (spec_offset C (H * W) i (label_value L (H * W) i j) j)
          = - g / ((spec_count has_ignore_label ignore_label L N (H * W) : ℝ)
              * spec_at P C (H * W) i (label_value L (H * W) i j) j) := by
  obtain ⟨st, hst, hv, _⟩ := backward_bottom_diff_spec kLOG_THRESHOLD has_ignore_label
    ignore_label N C H W P L M dP dL dM g propagate_down h0 h1
    (Nat.lt_of_le_of_lt (Nat.zero_le i) hi) hlab
  have hval := hv i hi j hj hign
  have hcnt : (1 : ℝ) ≤ (spec_count has_ignore_label ignore_label L N (H * W) : ℝ) := by
    exact_mod_cast spec_count_pos has_ignore_label ignore_label L N (H * W) i j hi hj hign
  rw [max_eq_right hcnt, max_eq_left (le_of_lt hP)] at hval
  refine ⟨_, st, forward_loss_hasDerivAt_data debug kLOG_THRESHOLD has_ignore_label
    ignore_label N C H W P L M dP dL dM hk hchk hlab i j hi hj hign hpe, hst, ?_, hval⟩
  rw [hval, max_eq_right hcnt]
  ring

/-- Where neither the forward clamp nor the clamp of the mask is active the
value written to `dM` is the upstream gradient times the derivative of the
forward loss. -/
theorem mask_gradient_analytic (debug : Bool) (kLOG_THRESHOLD : ℝ)
    (has_ignore_label : Bool) (ignore_label : Int) (N C H W : Nat)
    (P L M dP dL dM : Int → ℝ) (g : ℝ) (propagate_down : Fin 3 → Bool)
    (h2 : propagate_down 2 = true) (h1 : propagate_down 1 = false)
    (hk : 0 < kLOG_THRESHOLD)
    (hchk : ∀ i, i < N → ∀ j, j < H * W → dchecks_pass debug C L (H * W) i j)
    (i j : Nat) (hi : i < N) (hj : j < H * W)
    (hign : spec_ignored has_ignore_label ignore_label L (H * W) i j = false)
    (hpe : kLOG_THRESHOLD < spec_p_eff P M C (H * W) i j (label_value L (H * W) i j))
    (hM : kLOG_THRESHOLD ≤ spec_at M 1 (H * W) i 0 j) :
    ∃ (d : ℝ) (st : Diffs ℝ),
      HasDerivAt
        (fun x => Forward_loss debug kLOG_THRESHOLD Real.log
          ⟨has_ignore_label, ignore_label, N, H * W⟩
          ⟨N, C, H, W, P, dP⟩ ⟨N, 1, H, W, L, dL⟩
          ⟨N, 1, H, W, Function.update M (spec_offset 1 (H * W) i 0 j) x, dM⟩)
        d (spec_at M 1 (H * W) i 0 j)
      ∧ Backward_cpu kLOG_THRESHOLD ⟨has_ignore_label, ignore_label, N, H * W⟩ g propagate_down
          ⟨N, C, H, W, P, dP⟩ ⟨N, 1, H, W, L, dL⟩ ⟨N, 1, H, W, M, dM⟩ = Outcome.done st
      ∧ st.mask_diff (spec_offset 1 (H * W) i 0 j) = g * d
      ∧ (label_value L (H * W) i j ≠ 0 →
          st.mask_diff (spec_offset 1 (H * W) i 0 j)
            = - g / ((spec_count has_ignore_label ignore_label L N (H * W) : ℝ)
                * spec_at M 1 (H * W) i 0 j))
      ∧ (label_value L (H * W) i j = 0 →
          st.mask_diff (spec_offset 1 (H * W) i 0 j)
            = g / ((spec_count has_ignore_label ignore_label L N (H * W) : ℝ)
                * (1 - spec_at M 1 (H * W) i 0 j))) := by
  obtain ⟨st, hst, hv⟩ := backward_mask_diff_spec kLOG_THRESHOLD has_ignore_label
    ignore_label N C H W P L M dP dL dM g propagate_down h2 h1
    (Nat.lt_of_le_of_lt (Nat.zero_le i) hi)
  obtain ⟨_, hnz, hz⟩ := hv i hi j hj
  have hcnt : (1 : ℝ) ≤ (spec_count has_ignore_label ignore_label L N (H * W) : ℝ) := by
    exact_mod_cast spec_count_pos has_ignore_label ignore_label L N (H * W) i j hi hj hign
  have hflip : ∀ a c m : ℝ, - a / (c * (m - 1)) = a / (c * (1 - m)) := by
    intro a c m
    have e : m - 1 = -(1 - m) := by ring
    rw [e, mul_neg, div_neg, neg_div, neg_neg]
  have hnz' : label_value L (H * W) i j ≠ 0 →
      st.mask_diff (spec_offset 1 (H * W) i 0 j)
        = - g / ((spec_count has_ignore_label ignore_label L N (H * W) : ℝ)
            * spec_at M 1 (H * W) i 0 j) := by
    intro hl
    rw [hnz hign hl, max_eq_right hcnt, max_eq_left hM]
  have hz' : label_value L (H * W) i j = 0 →
      st.mask_diff (spec_offset 1 (H * W) i 0 j)
        = g / ((spec_count has_ignore_label ignore_label L N (H * W) : ℝ)
            * (1 - spec_at M 1 (H * W) i 0 j)) := by
    intro hl
    rw [hz hign hl, max_eq_right hcnt, max_eq_left hM, hflip]
  refine ⟨_, st, forward_loss_hasDerivAt_mask debug kLOG_THRESHOLD has_ignore_label
    ignore_label N C H W P L M dP dL dM hk hchk i j hi hj hign hpe, hst, ?_, hnz', hz'⟩
  rw [max_eq_right hcnt]
  by_cases hl : label_value L (H * W) i j = 0
  · rw [hz' hl, if_neg (by simp [hl]), div_div, mul_one_div, mul_comm (1 - _)]
  · rw [hnz' hl, if_pos hl]
    ring

end Calculus

/-! ## Claims -/

section Claims

variable {α : Type} [LinearOrderedField α] [FloorRing α]

/-- C1: when every label (the integer read at each position) lies in `[0, C)`,
then in a debug and in a release build, for every configuration and every
`N`, `C`, `H`, `W`, every loss that `Forward_cpu` returns is the mean clamped
negative log-likelihood: the sum over the non-ignored positions of
`-log (max p_eff LOG_FLOOR)` divided by `max 1 count`, where `count` is the
number of non-ignored positions; and on a non-empty batch (`0 < N`)
`Forward_cpu` does return it.  (On an empty batch the call stops at the
division `count() / outer_num_` of line 47 and returns no loss.) -/
theorem C1_forward_mean_clamped_nll (debug : Bool) (kLOG_THRESHOLD : α) (log : α → α)
    (has_ignore_label : Bool) (ignore_label : Int) (N C H W : Nat)
    (P L M dP dL dM : Int → α)
    (hlab : ∀ i, i < N → ∀ j, j < H * W →
      0 ≤ label_value L (H * W) i j ∧ label_value L (H * W) i j < (C : Int)) :
    (∀ loss : α,
        Forward_cpu debug kLOG_THRESHOLD log ⟨has_ignore_label, ignore_label, N, H * W⟩
          ⟨N, C, H, W, P, dP⟩ ⟨N, 1, H, W, L, dL⟩ ⟨N, 1, H, W, M, dM⟩ = Except.ok loss →
        loss = spec_loss kLOG_THRESHOLD log has_ignore_label ignore_label P L M N C (H * W))
    ∧ (0 < N →
        Forward_cpu debug kLOG_THRESHOLD log ⟨has_ignore_label, ignore_label, N, H * W⟩
            ⟨N, C, H, W, P, dP⟩ ⟨N, 1, H, W, L, dL⟩ ⟨N, 1, H, W, M, dM⟩
          = Except.ok
              (spec_loss kLOG_THRESHOLD log has_ignore_label ignore_label P L M N C
                (H * W))) := by
  have hchk : ∀ i, i < N → ∀ j, j < H * W → dchecks_pass debug C L (H * W) i j :=
    fun i hi j hj => Or.inr (hlab i hi j hj)
  refine ⟨fun loss h => ?_, fun hN => Forward_cpu_eq debug kLOG_THRESHOLD log
    has_ignore_label ignore_label N C H W P L M dP dL dM hN hchk⟩
  have hN : 0 < N := Forward_cpu_ok_pos debug kLOG_THRESHOLD log _ _ _ _ loss h
  rw [Forward_cpu_eq debug kLOG_THRESHOLD log has_ignore_label ignore_label N C H W
    P L M dP dL dM hN hchk] at h
  injection h with h
  exact h.symm

/-- Witness of C1: one sample, one pixel, two classes.  Label `1` with
`P = 0.5`, `M = 0.8` gives `-log 0.4`; label `0` with `P = 0.5`, `M = 0.3`
gives `-log 0.35`. -/
theorem C1_forward_mean_clamped_nll_witness :
    Forward_cpu true ((1 : ℝ) / 10 ^ 20) Real.log ⟨false, 0, 1, 1 * 1⟩
        ⟨1, 2, 1, 1, fun _ => 1 / 2, fun _ => 0⟩ ⟨1, 1, 1, 1, fun _ => 1, fun _ => 0⟩
        ⟨1, 1, 1, 1, fun _ => 4 / 5, fun _ => 0⟩ = Except.ok (- Real.log (2 / 5))
    ∧ Forward_cpu true ((1 : ℝ) / 10 ^ 20) Real.log ⟨false, 0, 1, 1 * 1⟩
        ⟨1, 2, 1, 1, fun _ => 1 / 2, fun _ => 0⟩ ⟨1, 1, 1, 1, fun _ => 0, fun _ => 0⟩
        ⟨1, 1, 1, 1, fun _ => 3 / 10, fun _ => 0⟩ = Except.ok (- Real.log (7 / 20)) := by
  constructor
  · rw [(C1_forward_mean_clamped_nll true ((1 : ℝ) / 10 ^ 20) Real.log false 0 1 2 1 1
      (fun _ => 1 / 2) (fun _ => 1) (fun _ => 4 / 5) (fun _ => 0) (fun _ => 0) (fun _ => 0)
      (by intro i _ j _; simp [label_value, static_cast_int, INT_MIN, INT_MAX])).2 (by norm_num)]
    simp [spec_loss, spec_nll_sum, spec_count, spec_ignored, spec_p_eff, spec_at, spec_offset,
      label_value, static_cast_int, INT_MIN, INT_MAX]
    rw [max_eq_left (by norm_num)]
    norm_num
  · rw [(C1_forward_mean_clamped_nll true ((1 : ℝ) / 10 ^ 20) Real.log false 0 1 2 1 1
      (fun _ => 1 / 2) (fun _ => 0) (fun _ => 3 / 10) (fun _ => 0) (fun _ => 0) (fun _ => 0)
      (by intro i _ j _; simp [label_value, static_cast_int, INT_MIN, INT_MAX])).2 (by norm_num)]
    simp [spec_loss, spec_nll_sum, spec_count, spec_ignored, spec_p_eff, spec_at, spec_offset,
      label_value, static_cast_int, INT_MIN, INT_MAX]
    rw [max_eq_left (by norm_num)]
    norm_num

/-- C2: with the probability gradient requested and no label gradient, and
every non-ignored label in `[0, C)`, for every upstream gradient `g` every
state in which `Backward_cpu` returns has
`dP[i,l,j] = -g / (max 1 count * max P[i,l,j] LOG_FLOOR)` at every non-ignored
position `(i, j)` with label `l` (raw probability, no mask factor), and `0` in
every other cell of `dP`; `count` is the number of non-ignored positions.  On
a non-empty batch (`0 < N`) `Backward_cpu` does return.  (On an empty batch
the call stops at the division of line 95.) -/
theorem C2_probability_gradient (kLOG_THRESHOLD : α)
    (has_ignore_label : Bool) (ignore_label : Int) (N C H W : Nat)
    (P L M dP dL dM : Int → α) (g : α) (propagate_down : Fin 3 → Bool)
    (h0 : propagate_down 0 = true) (h1 : propagate_down 1 = false)
    (hlab : ∀ i, i < N → ∀ j, j < H * W →
      spec_ignored has_ignore_label ignore_label L (H * W) i j = false →
      0 ≤ label_value L (H * W) i j ∧ label_value L (H * W) i j < (C : Int)) :
    (∀ st : Diffs α,
      Backward_cpu kLOG_THRESHOLD ⟨has_ignore_label, ignore_label, N, H * W⟩ g propagate_down
          ⟨N, C, H, W, P, dP⟩ ⟨N, 1, H, W, L, dL⟩ ⟨N, 1, H, W, M, dM⟩ = Outcome.done st →
      (∀ i, i < N → ∀ j, j < H * W →
          spec_ignored has_ignore_label ignore_label L (H * W) i j = false →
          st.bottom_diff (spec_offset C (H * W) i (label_value L (H * W) i j) j)
            = - g / (max (1 : α) (spec_count has_ignore_label ignore_label L N (H * W) : α)
                * max (spec_at P C (H * W) i (label_value L (H * W) i j) j) kLOG_THRESHOLD))
      ∧ (∀ c : Int, 0 ≤ c → c < ((N * C * H * W : Nat) : Int) →
          (∀ i, i < N → ∀ j, j < H * W →
            spec_ignored has_ignore_label ignore_label L (H * W) i j = false →
            c ≠ spec_offset C (H * W) i (label_value L (H * W) i j) j) →
          st.bottom_diff c = 0))
    ∧ (0 < N → ∃ st : Diffs α,
      Backward_cpu kLOG_THRESHOLD ⟨has_ignore_label, ignore_label, N, H * W⟩ g propagate_down
          ⟨N, C, H, W, P, dP⟩ ⟨N, 1, H, W, L, dL⟩ ⟨N, 1, H, W, M, dM⟩ = Outcome.done st) := by
  constructor
  · intro st hst
    have hN : 0 < N := (Backward_cpu_done_pos kLOG_THRESHOLD _ g propagate_down _ _ _ st hst).2
    obtain ⟨st', hst', hv, hz⟩ := backward_bottom_diff_spec kLOG_THRESHOLD has_ignore_label
      ignore_label N C H W P L M dP dL dM g propagate_down h0 h1 hN hlab
    rw [hst] at hst'
    injection hst' with hst'
    subst hst'
    exact ⟨hv, hz⟩
  · intro hN
    obtain ⟨st, hst, _⟩ := backward_bottom_diff_spec kLOG_THRESHOLD has_ignore_label
      ignore_label N C H W P L M dP dL dM g propagate_down h0 h1 hN hlab
    exact ⟨st, hst⟩

/-- Witness of C2: one sample, one pixel, two classes, label `1`, `P = 0.5`,
`g = 1`, one non-ignored position: `dP` is `-1 / max 0.5 LOG_FLOOR = -2` at the
selected channel and `0` at the other one. -/
theorem C2_probability_gradient_witness :
    ∃ st : Diffs ℚ,
      Backward_cpu ((1 : ℚ) / 10 ^ 20) ⟨false, 0, 1, 1 * 1⟩ 1 ![true, false, false]
          ⟨1, 2, 1, 1, fun _ => 1 / 2, fun _ => 7⟩ ⟨1, 1, 1, 1, fun _ => 1, fun _ => 7⟩
          ⟨1, 1, 1, 1, fun _ => 4 / 5, fun _ => 7⟩ = Outcome.done st
      ∧ st.bottom_diff 1 = -2 ∧ st.bottom_diff 0 = 0 := by
  obtain ⟨hall, hret⟩ := C2_probability_gradient ((1 : ℚ) / 10 ^ 20) false 0 1 2 1 1
    (fun _ => 1 / 2) (fun _ => 1) (fun _ => 4 / 5) (fun _ => 7) (fun _ => 7) (fun _ => 7) 1
    ![true, false, false] rfl rfl
    (by intro i _ j _ _; simp [label_value, static_cast_int, INT_MIN, INT_MAX])
  obtain ⟨st, hst⟩ := hret (by norm_num)
  obtain ⟨hv, hz⟩ := hall st hst
  refine ⟨st, hst, ?_, ?_⟩
  · have h := hv 0 (by norm_num) 0 (by norm_num) (by simp [spec_ignored])
    have hm : max ((1 : ℚ) / 2) (1 / 10 ^ 20) = 1 / 2 := max_eq_left (by norm_num)
    simp only [spec_offset, label_value, static_cast_int, INT_MIN, INT_MAX, spec_count, spec_ignored, spec_at,
      hm] at h
    norm_num at h
    exact h
  · refine hz 0 (le_refl 0) (by norm_num) ?_
    intro i _ j _ _
    simp [spec_offset, label_value, static_cast_int, INT_MIN, INT_MAX]
    omega

/-- C3: with the mask gradient requested and no label gradient, for every
input and every upstream gradient `g`, every state in which `Backward_cpu`
returns has, with `m = max M[i,j] LOG_FLOOR` and `count` the number of
non-ignored positions, `dM[i,j] = 0` at an ignored position,
`-g / (max 1 count * m)` at a non-ignored position with a non-zero label and
`-g / (max 1 count * (m - 1))` at a non-ignored position with label `0`; the
cell of a non-ignored position is marked as the quotient of a division by zero
exactly when its divisor (`m`, or `m - 1` for label `0`) is zero, in which
case the formula is that same quotient.  On a non-empty batch (`0 < N`)
`Backward_cpu` does return.  (On an empty batch the call stops at the division
of line 95.) -/
theorem C3_mask_gradient (kLOG_THRESHOLD : α)
    (has_ignore_label : Bool) (ignore_label : Int) (N C H W : Nat)
    (P L M dP dL dM : Int → α) (g : α) (propagate_down : Fin 3 → Bool)
    (h2 : propagate_down 2 = true) (h1 : propagate_down 1 = false) :
    (∀ st : Diffs α,
      Backward_cpu kLOG_THRESHOLD ⟨has_ignore_label, ignore_label, N, H * W⟩ g propagate_down
          ⟨N, C, H, W, P, dP⟩ ⟨N, 1, H, W, L, dL⟩ ⟨N, 1, H, W, M, dM⟩ = Outcome.done st →
      ∀ i, i < N → ∀ j, j < H * W →
          (spec_ignored has_ignore_label ignore_label L (H * W) i j = true →
            st.mask_diff (spec_offset 1 (H * W) i 0 j) = 0)
          ∧ (spec_ignored has_ignore_label ignore_label L (H * W) i j = false →
              label_value L (H * W) i j ≠ 0 →
              st.mask_diff (spec_offset 1 (H * W) i 0 j)
                = - g / (max (1 : α) (spec_count has_ignore_label ignore_label L N (H * W) : α)
                    * max (spec_at M 1 (H * W) i 0 j) kLOG_THRESHOLD))
          ∧ (spec_ignored has_ignore_label ignore_label L (H * W) i j = false →
              label_value L (H * W) i j = 0 →
              st.mask_diff (spec_offset 1 (H * W) i 0 j)
                = - g / (max (1 : α) (spec_count has_ignore_label ignore_label L N (H * W) : α)
                    * (max (spec_at M 1 (H * W) i 0 j) kLOG_THRESHOLD - 1)))
          ∧ (spec_ignored has_ignore_label ignore_label L (H * W) i j = false →
              st.mask_nonfinite (spec_offset 1 (H * W) i 0 j)
                = decide (backward_mask_denominator kLOG_THRESHOLD M (H * W) i j
                    (label_value L (H * W) i j) = 0)))
    ∧ (0 < N → ∃ st : Diffs α,
      Backward_cpu kLOG_THRESHOLD ⟨has_ignore_label, ignore_label, N, H * W⟩ g propagate_down
          ⟨N, C, H, W, P, dP⟩ ⟨N, 1, H, W, L, dL⟩ ⟨N, 1, H, W, M, dM⟩ = Outcome.done st) := by
  constructor
  · intro st hst
    have hN : 0 < N := (Backward_cpu_done_pos kLOG_THRESHOLD _ g propagate_down _ _ _ st hst).2
    obtain ⟨st', hst', hv⟩ := backward_mask_diff_spec kLOG_THRESHOLD has_ignore_label
      ignore_label N C H W P L M dP dL dM g propagate_down h2 h1 hN
    obtain ⟨st'', hst'', hf⟩ := backward_mask_nonfinite_spec kLOG_THRESHOLD has_ignore_label
      ignore_label N C H W P L M dP dL dM g propagate_down h2 h1 hN
    rw [hst] at hst' hst''
    injection hst' with hst'
    injection hst'' with hst''
    subst hst'
    subst hst''
    intro i hi j hj
    obtain ⟨ha, hb, hc⟩ := hv i hi j hj
    exact ⟨ha, hb, hc, (hf i hi j hj).2⟩
  · intro hN
    obtain ⟨st, hst, _⟩ := backward_mask_diff_spec kLOG_THRESHOLD has_ignore_label
      ignore_label N C H W P L M dP dL dM g propagate_down h2 h1 hN
    exact ⟨st, hst⟩

/-- Witness of C3: one sample, one pixel, `g = 1`.  Label `1` with `M = 0.8`
gives `dM = -1 / 0.8 = -5/4`; label `0` with `M = 0.3` gives
`dM = -1 / (0.3 - 1) = 10/7`. -/
theorem C3_mask_gradient_witness :
    (∃ st : Diffs ℚ,
      Backward_cpu ((1 : ℚ) / 10 ^ 20) ⟨false, 0, 1, 1 * 1⟩ 1 ![false, false, true]
          ⟨1, 2, 1, 1, fun _ => 1 / 2, fun _ => 7⟩ ⟨1, 1, 1, 1, fun _ => 1, fun _ => 7⟩
          ⟨1, 1, 1, 1, fun _ => 4 / 5, fun _ => 7⟩ = Outcome.done st
      ∧ st.mask_diff 0 = - (5 / 4))
    ∧ (∃ st : Diffs ℚ,
      Backward_cpu ((1 : ℚ) / 10 ^ 20) ⟨false, 0, 1, 1 * 1⟩ 1 ![false, false, true]
          ⟨1, 2, 1, 1, fun _ => 1 / 2, fun _ => 7⟩ ⟨1, 1, 1, 1, fun _ => 0, fun _ => 7⟩
          ⟨1, 1, 1, 1, fun _ => 3 / 10, fun _ => 7⟩ = Outcome.done st
      ∧ st.mask_diff 0 = 10 / 7) := by
  constructor
  · obtain ⟨hall, hret⟩ := C3_mask_gradient ((1 : ℚ) / 10 ^ 20) false 0 1 2 1 1
      (fun _ => 1 / 2) (fun _ => 1) (fun _ => 4 / 5) (fun _ => 7) (fun _ => 7) (fun _ => 7) 1
      ![false, false, true] rfl rfl
    obtain ⟨st, hst⟩ := hret (by norm_num)
    have hv := hall st hst
    refine ⟨st, hst, ?_⟩
    have h := (hv 0 (by norm_num) 0 (by norm_num)).2.1 (by simp [spec_ignored])
      (by simp [label_value, static_cast_int, INT_MIN, INT_MAX])
    have hm : max ((4 : ℚ) / 5) (1 / 10 ^ 20) = 4 / 5 := max_eq_left (by norm_num)
    simp only [spec_offset, label_value, static_cast_int, INT_MIN, INT_MAX, spec_count, spec_ignored, spec_at,
      hm] at h
    norm_num at h
    exact h
  · obtain ⟨hall, hret⟩ := C3_mask_gradient ((1 : ℚ) / 10 ^ 20) false 0 1 2 1 1
      (fun _ => 1 / 2) (fun _ => 0) (fun _ => 3 / 10) (fun _ => 7) (fun _ => 7) (fun _ => 7) 1
      ![false, false, true] rfl rfl
    obtain ⟨st, hst⟩ := hret (by norm_num)
    have hv := hall st hst
    refine ⟨st, hst, ?_⟩
    have h := (hv 0 (by norm_num) 0 (by norm_num)).2.2.1 (by simp [spec_ignored])
      (by simp [label_value, static_cast_int, INT_MIN, INT_MAX])
    have hm : max ((3 : ℚ) / 10) (1 / 10 ^ 20) = 3 / 10 := max_eq_left (by norm_num)
    simp only [spec_offset, label_value, static_cast_int, INT_MIN, INT_MAX, spec_count, spec_ignored, spec_at,
      hm] at h
    norm_num at h
    exact h

/-- C4, counterexample: a debug build, two classes, ignoring enabled with
`ignore_label = 255`, one position whose label is `255`.  Every label equals
`ignore_label`, yet `Forward_cpu` does not return a loss: the assertion of
line 55 runs before the skip of line 57 and fails.  And on the empty batch
(`N = 0`, in which every label there is equals `ignore_label`) neither call
returns: `Forward_cpu` stops at the division of line 47 and `Backward_cpu` at
the division of line 95. -/
theorem C4_counterexample :
    label_value (fun _ => (255 : ℝ)) (1 * 1) 0 0 = 255
    ∧ Forward_cpu true ((1 : ℝ) / 10 ^ 20) Real.log ⟨true, 255, 1, 1 * 1⟩
        ⟨1, 2, 1, 1, fun _ => 1 / 2, fun _ => 0⟩ ⟨1, 1, 1, 1, fun _ => 255, fun _ => 0⟩
        ⟨1, 1, 1, 1, fun _ => 4 / 5, fun _ => 0⟩
      = Except.error "Check failed: label_value < bottom[0].shape(1)"
    ∧ Forward_cpu false ((1 : ℝ) / 10 ^ 20) Real.log ⟨true, 255, 0, 1 * 1⟩
        ⟨0, 2, 1, 1, fun _ => 1 / 2, fun _ => 0⟩ ⟨0, 1, 1, 1, fun _ => 255, fun _ => 0⟩
        ⟨0, 1, 1, 1, fun _ => 4 / 5, fun _ => 0⟩
      = Except.error "Integer division by zero: bottom[0]->count() / outer_num_"
    ∧ (Backward_cpu ((1 : ℝ) / 10 ^ 20) ⟨true, 255, 0, 1 * 1⟩ 1 ![true, false, true]
        ⟨0, 2, 1, 1, fun _ => 1 / 2, fun _ => 0⟩ ⟨0, 1, 1, 1, fun _ => 255, fun _ => 0⟩
        ⟨0, 1, 1, 1, fun _ => 4 / 5, fun _ => 0⟩).isDone = false := by
  have hl : label_value (fun _ => (255 : ℝ)) 1 0 0 = 255 := by
    simp [label_value, static_cast_int, INT_MIN, INT_MAX]
  have hr : List.range 1 = [0] := rfl
  refine ⟨hl, ?_, Forward_cpu_empty _ _ _ _ _ _ _ rfl, ?_⟩
  · simp [Forward_cpu, forward_loop, forward_body, hl, hr, bind, Except.bind, pure,
      Except.pure]
  · rw [Backward_cpu_empty _ _ _ _ _ _ _ rfl rfl]
    rfl

/-- C4, amended: on a non-empty batch (`0 < N`), when ignoring is enabled and
every label equals `ignore_label`, and either the debug assertions are
compiled out or `ignore_label` is itself a class index in `[0, C)`, then
`Forward_cpu` returns loss exactly `0` and `Backward_cpu` (no label gradient
requested, any upstream gradient, whichever of the two gradients are
requested) returns with every cell of `dP` and every cell of `dM` equal to
`0`. -/
theorem C4_all_ignored (debug : Bool) (kLOG_THRESHOLD : α) (log : α → α)
    (ignore_label : Int) (N C H W : Nat) (P L M dP dL dM : Int → α) (g : α)
    (propagate_down : Fin 3 → Bool) (h1 : propagate_down 1 = false) (hN : 0 < N)
    (hall : ∀ i, i < N → ∀ j, j < H * W → label_value L (H * W) i j = ignore_label)
    (hchk : debug = true → 0 ≤ ignore_label ∧ ignore_label < (C : Int)) :
    Forward_cpu debug kLOG_THRESHOLD log ⟨true, ignore_label, N, H * W⟩
        ⟨N, C, H, W, P, dP⟩ ⟨N, 1, H, W, L, dL⟩ ⟨N, 1, H, W, M, dM⟩ = Except.ok 0
    ∧ ∃ st : Diffs α,
        Backward_cpu kLOG_THRESHOLD ⟨true, ignore_label, N, H * W⟩ g propagate_down
          ⟨N, C, H, W, P, dP⟩ ⟨N, 1, H, W, L, dL⟩ ⟨N, 1, H, W, M, dM⟩ = Outcome.done st
        ∧ (∀ c : Int, 0 ≤ c → c < ((N * C * H * W : Nat) : Int) → st.bottom_diff c = 0)
        ∧ (∀ c : Int, 0 ≤ c → c < ((N * 1 * H * W : Nat) : Int) →
            st.mask_diff c = 0 ∧ st.mask_nonfinite c = false) := by
  have hign : ∀ i, i < N → ∀ j, j < H * W →
      spec_ignored true ignore_label L (H * W) i j = true := by
    intro i hi j hj
    simp [spec_ignored, hall i hi j hj]
  constructor
  · rw [Forward_cpu_eq debug kLOG_THRESHOLD log true ignore_label N C H W P L M dP dL dM hN]
    · unfold spec_loss
      rw [spec_nll_sum_all_ignored kLOG_THRESHOLD log true ignore_label P L M N C (H * W) hign,
        zero_div]
    · intro i hi j hj
      unfold dchecks_pass
      cases debug with
      | false => exact Or.inl rfl
      | true => right; rw [hall i hi j hj]; exact hchk rfl
  · refine ⟨_, Backward_cpu_done kLOG_THRESHOLD _ g propagate_down _ _ _ h1 hN, ?_, ?_⟩
    · intro c hc0 hc1
      obtain ⟨_, hbuf⟩ := backward_data_loop_spec kLOG_THRESHOLD
        ⟨true, ignore_label, N, H * W⟩ ⟨N, C, H, W, P, dP⟩ ⟨N, 1, H, W, L, dL⟩
        (N * C * H * W / N) (caffe_set (N * C * H * W) (0 : α) dP)
      simp only [Blob.count]
      split
      · rw [caffe_scal_in _ _ _ _ hc0 hc1, (hbuf c).2, caffe_set_in _ _ _ _ hc0 hc1, mul_zero]
        rintro ⟨i, hi, j, hj, hf, _⟩
        rw [hign i hi j hj] at hf
        exact absurd hf (by simp)
      · exact caffe_set_in _ _ _ _ hc0 hc1
    · intro c hc0 hc1
      obtain ⟨_, hbuf⟩ := backward_mask_loop_spec kLOG_THRESHOLD
        ⟨true, ignore_label, N, H * W⟩ ⟨N, 1, H, W, L, dL⟩ ⟨N, 1, H, W, M, dM⟩
        (caffe_set (N * 1 * H * W) (0 : α) dM)
      have hnw := (hbuf c).2 (by
        rintro ⟨i, hi, j, hj, hf, _⟩
        rw [hign i hi j hj] at hf
        exact absurd hf (by simp))
      simp only [Blob.count]
      split
      · refine ⟨?_, hnw.2⟩
        rw [caffe_scal_in _ _ _ _ hc0 hc1, hnw.1, caffe_set_in _ _ _ _ hc0 hc1, mul_zero]
      · exact ⟨caffe_set_in _ _ _ _ hc0 hc1, rfl⟩

/-- Witness of C4 (amended): a debug build, two classes, `ignore_label = 1`,
one position with label `1`, both gradients requested, upstream gradient `3`,
stale values `7` in both gradient buffers. -/
theorem C4_all_ignored_witness :
    Forward_cpu true ((1 : ℝ) / 10 ^ 20) Real.log ⟨true, 1, 1, 1 * 1⟩
        ⟨1, 2, 1, 1, fun _ => 1 / 2, fun _ => 7⟩ ⟨1, 1, 1, 1, fun _ => 1, fun _ => 7⟩
        ⟨1, 1, 1, 1, fun _ => 4 / 5, fun _ => 7⟩ = Except.ok 0
    ∧ ∃ st : Diffs ℝ,
        Backward_cpu ((1 : ℝ) / 10 ^ 20) ⟨true, 1, 1, 1 * 1⟩ 3 ![true, false, true]
          ⟨1, 2, 1, 1, fun _ => 1 / 2, fun _ => 7⟩ ⟨1, 1, 1, 1, fun _ => 1, fun _ => 7⟩
          ⟨1, 1, 1, 1, fun _ => 4 / 5, fun _ => 7⟩ = Outcome.done st
        ∧ (∀ c : Int, 0 ≤ c → c < ((1 * 2 * 1 * 1 : Nat) : Int) → st.bottom_diff c = 0)
        ∧ (∀ c : Int, 0 ≤ c → c < ((1 * 1 * 1 * 1 : Nat) : Int) →
            st.mask_diff c = 0 ∧ st.mask_nonfinite c = false) :=
  C4_all_ignored true ((1 : ℝ) / 10 ^ 20) Real.log 1 1 2 1 1
    (fun _ => 1 / 2) (fun _ => 1) (fun _ => 4 / 5) (fun _ => 7) (fun _ => 7) (fun _ => 7) 3
    ![true, false, true] rfl (by norm_num)
    (by intro i _ j _; simp [label_value, static_cast_int, INT_MIN, INT_MAX])
    (by intro _; constructor <;> norm_num)

/-- C5: `Backward_cpu` ends in the fatal error (`LOG(FATAL)`) exactly when
`propagate_down[1]` is true; on a non-empty batch (`0 < outer_num_`) that is
the only way in which the call can fail to return; and whenever the call does
not return, the state it ends in is the pair of gradient buffers as they were
before the call: the abort precedes the zero-fill.  (On an empty batch with
`propagate_down[1]` false the call stops at the division of line 95, which
also precedes the zero-fill.) -/
theorem C5_fatal_iff_label_gradient (kLOG_THRESHOLD : α)
    (self : MultinomialLogisticLossMaskLayer) (top_diff : α) (propagate_down : Fin 3 → Bool)
    (bottom0 bottom1 bottom2 : Blob α) :
    ((Backward_cpu kLOG_THRESHOLD self top_diff propagate_down bottom0 bottom1 bottom2).isFatal
        = true ↔ propagate_down 1 = true)
    ∧ (0 < self.outer_num_ →
        ((Backward_cpu kLOG_THRESHOLD self top_diff propagate_down bottom0 bottom1
          bottom2).isDone = false ↔ propagate_down 1 = true))
    ∧ ((Backward_cpu kLOG_THRESHOLD self top_diff propagate_down bottom0 bottom1
          bottom2).isDone = false →
        (Backward_cpu kLOG_THRESHOLD self top_diff propagate_down bottom0 bottom1
          bottom2).state.bottom_diff = bottom0.cpu_diff
        ∧ (Backward_cpu kLOG_THRESHOLD self top_diff propagate_down bottom0 bottom1
          bottom2).state.mask_diff = bottom2.cpu_diff) := by
  by_cases h : propagate_down 1 = true
  · have hb : Backward_cpu kLOG_THRESHOLD self top_diff propagate_down bottom0 bottom1 bottom2
        = Outcome.fatal
            "MultinomialLogisticLossMask Layer cannot backpropagate to label inputs."
            ⟨bottom0.cpu_diff, bottom2.cpu_diff, fun _ => false⟩ := by
      unfold Backward_cpu
      rw [if_pos h]
    rw [hb]
    simp [Outcome.isFatal, Outcome.isDone, Outcome.state, h]
  · have h' : propagate_down 1 = false := by simpa using h
    by_cases hN : self.outer_num_ = 0
    · rw [Backward_cpu_empty kLOG_THRESHOLD self top_diff propagate_down bottom0 bottom1
        bottom2 h' hN]
      simp [Outcome.isFatal, Outcome.isDone, Outcome.state, h', hN]
    · rw [Backward_cpu_done kLOG_THRESHOLD self top_diff propagate_down bottom0 bottom1
        bottom2 h' (Nat.pos_of_ne_zero hN)]
      simp [Outcome.isFatal, Outcome.isDone, h']

/-- C6: for every batch in which ignoring is disabled or no label equals
`ignore_label`, the count accumulated by the forward loop is `N * (H * W)`
whenever the loop completes, and it completes, with the loss being the plain
mean over all `N * H * W` positions, whenever the batch is not empty
(`0 < N`) and the debug assertions on the labels hold or are compiled out.
(On an empty batch the call stops at the division of line 47.) -/
theorem C6_count_is_all_positions (debug : Bool) (kLOG_THRESHOLD : α) (log : α → α)
    (has_ignore_label : Bool) (ignore_label : Int) (N C H W : Nat)
    (P L M dP dL dM : Int → α)
    (hno : has_ignore_label = false ∨
      ∀ i, i < N → ∀ j, j < H * W → label_value L (H * W) i j ≠ ignore_label) :
    (∀ r : α × Nat,
        forward_loop debug kLOG_THRESHOLD log ⟨has_ignore_label, ignore_label, N, H * W⟩
          ⟨N, C, H, W, P, dP⟩ ⟨N, 1, H, W, L, dL⟩ ⟨N, 1, H, W, M, dM⟩ = Except.ok r →
        r.2 = N * (H * W))
    ∧ (0 < N → (∀ i, i < N → ∀ j, j < H * W → dchecks_pass debug C L (H * W) i j) →
        forward_loop debug kLOG_THRESHOLD log ⟨has_ignore_label, ignore_label, N, H * W⟩
            ⟨N, C, H, W, P, dP⟩ ⟨N, 1, H, W, L, dL⟩ ⟨N, 1, H, W, M, dM⟩
          = Except.ok
              (∑ i in Finset.range N, ∑ j in Finset.range (H * W),
                - log (max (spec_p_eff P M C (H * W) i j (label_value L (H * W) i j))
                    kLOG_THRESHOLD),
               N * (H * W))
        ∧ Forward_cpu debug kLOG_THRESHOLD log ⟨has_ignore_label, ignore_label, N, H * W⟩
            ⟨N, C, H, W, P, dP⟩ ⟨N, 1, H, W, L, dL⟩ ⟨N, 1, H, W, M, dM⟩
          = Except.ok
              ((∑ i in Finset.range N, ∑ j in Finset.range (H * W),
                - log (max (spec_p_eff P M C (H * W) i j (label_value L (H * W) i j))
                    kLOG_THRESHOLD))
                / max (1 : α) ((N * (H * W) : Nat) : α))) := by
  have hign : ∀ i, i < N → ∀ j, j < H * W →
      spec_ignored has_ignore_label ignore_label L (H * W) i j = false := by
    intro i hi j hj
    rcases hno with h | h
    · simp [spec_ignored, h]
    · simp [spec_ignored, h i hi j hj]
  have hcount := spec_count_none_ignored has_ignore_label ignore_label L N (H * W) hign
  have hsum := spec_nll_sum_none_ignored kLOG_THRESHOLD log has_ignore_label ignore_label
    P L M N C (H * W) hign
  have hloop : 0 < N →
      (∀ i, i < N → ∀ j, j < H * W → dchecks_pass debug C L (H * W) i j) →
      forward_loop debug kLOG_THRESHOLD log ⟨has_ignore_label, ignore_label, N, H * W⟩
          ⟨N, C, H, W, P, dP⟩ ⟨N, 1, H, W, L, dL⟩ ⟨N, 1, H, W, M, dM⟩
        = Except.ok
            (∑ i in Finset.range N, ∑ j in Finset.range (H * W),
              - log (max (spec_p_eff P M C (H * W) i j (label_value L (H * W) i j))
                  kLOG_THRESHOLD),
             N * (H * W)) := by
    intro hN hchk
    rw [forward_loop_eq debug kLOG_THRESHOLD log has_ignore_label ignore_label N C H W
      P L M dP dL dM hN hchk, hcount, hsum]
  refine ⟨?_, fun hN hchk => ⟨hloop hN hchk, ?_⟩⟩
  · intro r hr
    have hchk := forward_loop_ok_dchecks debug kLOG_THRESHOLD log has_ignore_label
      ignore_label N C H W P L M dP dL dM r hr
    have hN : 0 < N := forward_loop_ok_pos debug kLOG_THRESHOLD log _ _ _ _ r hr
    rw [hloop hN hchk] at hr
    injection hr with hr
    rw [← hr]
  · unfold Forward_cpu
    rw [hloop hN hchk]

/-- Witness of C6: a debug build, ignoring disabled, two samples of one pixel,
two classes, every label `1`: the forward loop completes with count `2`. -/
theorem C6_count_is_all_positions_witness :
    ∃ s : ℝ,
      forward_loop true ((1 : ℝ) / 10 ^ 20) Real.log ⟨false, 0, 2, 1 * 1⟩
        ⟨2, 2, 1, 1, fun _ => 1 / 2, fun _ => 0⟩ ⟨2, 1, 1, 1, fun _ => 1, fun _ => 0⟩
        ⟨2, 1, 1, 1, fun _ => 4 / 5, fun _ => 0⟩ = Except.ok (s, 2) :=
  ⟨_, ((C6_count_is_all_positions true ((1 : ℝ) / 10 ^ 20) Real.log false 0 2 2 1 1
    (fun _ => 1 / 2) (fun _ => 1) (fun _ => 4 / 5) (fun _ => 0) (fun _ => 0) (fun _ => 0)
    (Or.inl rfl)).2 (by norm_num)
    (by intro i _ j _; right; simp [label_value, static_cast_int, INT_MIN, INT_MAX])).1⟩

/-- C7: given `0 < LOG_FLOOR ≤ 1` and an effective probability in `(0, 1]` at
every non-ignored position, every loss that `Forward_cpu` returns is
non-negative, and `Forward_cpu` does return a loss whenever the batch is not
empty (`0 < N`) and the debug assertions on the labels hold or are compiled
out.  (On an empty batch the call stops at the division of line 47.) -/
theorem C7_loss_nonneg (debug : Bool) (kLOG_THRESHOLD : ℝ)
    (has_ignore_label : Bool) (ignore_label : Int) (N C H W : Nat)
    (P L M dP dL dM : Int → ℝ) (hk0 : 0 < kLOG_THRESHOLD) (hk1 : kLOG_THRESHOLD ≤ 1)
    (hp : ∀ i, i < N → ∀ j, j < H * W →
      spec_ignored has_ignore_label ignore_label L (H * W) i j = false →
      0 < spec_p_eff P M C (H * W) i j (label_value L (H * W) i j)
        ∧ spec_p_eff P M C (H * W) i j (label_value L (H * W) i j) ≤ 1) :
    (∀ loss : ℝ,
        Forward_cpu debug kLOG_THRESHOLD Real.log ⟨has_ignore_label, ignore_label, N, H * W⟩
          ⟨N, C, H, W, P, dP⟩ ⟨N, 1, H, W, L, dL⟩ ⟨N, 1, H, W, M, dM⟩ = Except.ok loss →
        0 ≤ loss)
    ∧ (0 < N → (∀ i, i < N → ∀ j, j < H * W → dchecks_pass debug C L (H * W) i j) →
        ∃ loss : ℝ,
          Forward_cpu debug kLOG_THRESHOLD Real.log
            ⟨has_ignore_label, ignore_label, N, H * W⟩
            ⟨N, C, H, W, P, dP⟩ ⟨N, 1, H, W, L, dL⟩ ⟨N, 1, H, W, M, dM⟩ = Except.ok loss
          ∧ 0 ≤ loss) := by
  have hnn := spec_loss_nonneg kLOG_THRESHOLD has_ignore_label ignore_label P L M N C (H * W)
    hk0 hk1 (fun i hi j hj hign => (hp i hi j hj hign).2)
  refine ⟨?_, fun hN hchk => ⟨_, Forward_cpu_eq debug kLOG_THRESHOLD Real.log
    has_ignore_label ignore_label N C H W P L M dP dL dM hN hchk, hnn⟩⟩
  intro loss hloss
  have hchk := Forward_cpu_ok_dchecks debug kLOG_THRESHOLD Real.log has_ignore_label
    ignore_label N C H W P L M dP dL dM loss hloss
  have hN : 0 < N := Forward_cpu_ok_pos debug kLOG_THRESHOLD Real.log _ _ _ _ loss hloss
  rw [Forward_cpu_eq debug kLOG_THRESHOLD Real.log has_ignore_label ignore_label N C H W
    P L M dP dL dM hN hchk] at hloss
  injection hloss with hloss
  rw [← hloss]
  exact hnn

/-- Witness of C7: a debug build, one sample, one pixel, two classes, label
`1`, `P = 0.5`, `M = 0.8`, effective probability `0.4`: a loss is returned and
it is non-negative. -/
theorem C7_loss_nonneg_witness :
    ∃ loss : ℝ,
      Forward_cpu true ((1 : ℝ) / 10 ^ 20) Real.log ⟨false, 0, 1, 1 * 1⟩
        ⟨1, 2, 1, 1, fun _ => 1 / 2, fun _ => 0⟩ ⟨1, 1, 1, 1, fun _ => 1, fun _ => 0⟩
        ⟨1, 1, 1, 1, fun _ => 4 / 5, fun _ => 0⟩ = Except.ok loss
      ∧ 0 ≤ loss :=
  (C7_loss_nonneg true ((1 : ℝ) / 10 ^ 20) false 0 1 2 1 1
    (fun _ => 1 / 2) (fun _ => 1) (fun _ => 4 / 5) (fun _ => 0) (fun _ => 0) (fun _ => 0)
    (by norm_num) (by norm_num)
    (by
      intro i _ j _ _
      simp only [spec_p_eff, spec_at, label_value, static_cast_int, INT_MIN, INT_MAX]
      norm_num)).2 (by norm_num)
    (by intro i _ j _; right; simp [label_value, static_cast_int, INT_MIN, INT_MAX])

/-- C8, counterexample: a stored label of `0.6` is used as class `0`, not as
the nearest integer `1`, and `1.6` as class `1`, not `2`.  With one pixel, two
classes, `P[.,0,.] = 0.25`, `P[.,1,.] = 0.5`, `M = 0.8` and stored label `0.6`
the loss is `-log (0.25 * (1 - 0.8))`, the background branch, and not
`-log (0.5 * 0.8)`.  A stored label of `3000000000` cannot be used as the
class `3000000000`, its nearest integer: the label is a 32-bit `int`. -/
theorem C8_counterexample :
    label_value (fun _ => (6 / 10 : ℝ)) (1 * 1) 0 0 = 0 ∧ round (6 / 10 : ℝ) = 1
    ∧ label_value (fun _ => (16 / 10 : ℝ)) (1 * 1) 0 0 = 1 ∧ round (16 / 10 : ℝ) = 2
    ∧ Forward_cpu true ((1 : ℝ) / 10 ^ 20) Real.log ⟨false, 0, 1, 1 * 1⟩
        ⟨1, 2, 1, 1, fun c => if c = 1 then 1 / 2 else 1 / 4, fun _ => 0⟩
        ⟨1, 1, 1, 1, fun _ => 6 / 10, fun _ => 0⟩
        ⟨1, 1, 1, 1, fun _ => 4 / 5, fun _ => 0⟩ = Except.ok (- Real.log (1 / 20))
    ∧ - Real.log (1 / 20) ≠ - Real.log ((1 : ℝ) / 2 * (4 / 5))
    ∧ label_value (fun _ => (3000000000 : ℝ)) (1 * 1) 0 0 ≠ 3000000000 := by
  have hf6 : Int.floor (6 / 10 : ℝ) = 0 := by
    rw [Int.floor_eq_iff]; constructor <;> norm_num
  have hf16 : Int.floor (16 / 10 : ℝ) = 1 := by
    rw [Int.floor_eq_iff]; constructor <;> norm_num
  have hl6 : ∀ n i j : Nat, label_value (fun _ => (6 / 10 : ℝ)) n i j = 0 := by
    intro n i j
    unfold label_value
    rw [static_cast_int_of_nonneg _ (by norm_num) (by norm_num)]
    exact hf6
  have hl16 : label_value (fun _ => (16 / 10 : ℝ)) (1 * 1) 0 0 = 1 := by
    unfold label_value
    rw [static_cast_int_of_nonneg _ (by norm_num) (by norm_num)]
    exact hf16
  have hr6 : round (6 / 10 : ℝ) = 1 := by
    rw [round_eq, Int.floor_eq_iff]; constructor <;> norm_num
  have hr16 : round (16 / 10 : ℝ) = 2 := by
    rw [round_eq, Int.floor_eq_iff]; constructor <;> norm_num
  refine ⟨hl6 _ 0 0, hr6, hl16, hr16, ?_, ?_, ?_⟩
  · rw [Forward_cpu_eq true ((1 : ℝ) / 10 ^ 20) Real.log false 0 1 2 1 1 _ _ _ _ _ _
      (by norm_num) (by intro i _ j _; right; rw [hl6]; norm_num)]
    simp [spec_loss, spec_nll_sum, spec_count, spec_ignored, spec_p_eff, spec_at, spec_offset,
      hl6]
    rw [max_eq_left (by norm_num)]
    rw [show (4 : ℝ)⁻¹ * (1 - 4 / 5) = 20⁻¹ by norm_num, Real.log_inv, neg_neg]
  · intro h
    have h1 : Real.log (1 / 20) < Real.log ((1 : ℝ) / 2 * (4 / 5)) :=
      Real.log_lt_log (by norm_num) (by norm_num)
    linarith
  · intro h
    have hb := (static_cast_int_bounds ((fun _ : Int => (3000000000 : ℝ))
      (((0 : Nat) : Int) * ((1 * 1 : Nat) : Int) + ((0 : Nat) : Int)))).2
    unfold label_value at h
    rw [h] at hb
    simp [INT_MAX] at hb

/-- C8, amended: the class label used at position `(i, j)` is a 32-bit `int`,
and for every stored real value `x = L[i,j]` whose integer part is
representable in `int` (`-2^31 - 1 < x < 2^31`) it is `x` truncated toward
zero: for `x ≥ 0` the integer `l ≥ 0` with `l ≤ x < l + 1`, for `x < 0` the
integer `l ≤ 0` with `l - 1 < x ≤ l`.  For an integer-encoded label `x = n`
with `n` in the range of `int` it is `n`, which is also `x` rounded to the
nearest integer.  (Outside that range the conversion is undefined in C++.) -/
theorem C8_label_is_truncation (L : Int → α) (HW i j : Nat) :
    (INT_MIN ≤ label_value L HW i j ∧ label_value L HW i j ≤ INT_MAX)
    ∧ (0 ≤ L ((i : Int) * (HW : Int) + (j : Int)) →
        L ((i : Int) * (HW : Int) + (j : Int)) < 2147483648 →
        ((label_value L HW i j : Int) : α) ≤ L ((i : Int) * (HW : Int) + (j : Int))
        ∧ L ((i : Int) * (HW : Int) + (j : Int)) < ((label_value L HW i j : Int) : α) + 1
        ∧ 0 ≤ label_value L HW i j)
    ∧ (L ((i : Int) * (HW : Int) + (j : Int)) < 0 →
        -2147483649 < L ((i : Int) * (HW : Int) + (j : Int)) →
        L ((i : Int) * (HW : Int) + (j : Int)) ≤ ((label_value L HW i j : Int) : α)
        ∧ ((label_value L HW i j : Int) : α) - 1 < L ((i : Int) * (HW : Int) + (j : Int))
        ∧ label_value L HW i j ≤ 0)
    ∧ (∀ n : Int, INT_MIN ≤ n → n ≤ INT_MAX →
        L ((i : Int) * (HW : Int) + (j : Int)) = (n : α) →
        label_value L HW i j = n
        ∧ round (L ((i : Int) * (HW : Int) + (j : Int))) = n) := by
  refine ⟨static_cast_int_bounds _, ?_, ?_, ?_⟩
  · intro h hlt
    unfold label_value
    rw [static_cast_int_of_nonneg _ h hlt]
    exact ⟨Int.floor_le _, Int.lt_floor_add_one _, Int.floor_nonneg.mpr h⟩
  · intro h hgt
    unfold label_value
    rw [static_cast_int_of_neg _ h hgt]
    refine ⟨Int.le_ceil _, ?_, ?_⟩
    · have := Int.ceil_lt_add_one (L ((i : Int) * (HW : Int) + (j : Int)))
      linarith
    · exact Int.ceil_le.mpr (by simpa using le_of_lt h)
  · intro n hn0 hn1 hn
    unfold label_value
    rw [hn]
    exact ⟨static_cast_int_intCast n hn0 hn1, round_intCast n⟩

/-- Witness of C8 (amended): a stored label of `2.7` is used as class `2` and
a stored label of `-1.5` as `-1`. -/
theorem C8_label_is_truncation_witness :
    label_value (fun _ => (27 / 10 : ℚ)) 1 0 0 = 2
    ∧ label_value (fun _ => (-15 / 10 : ℚ)) 1 0 0 = -1 := by
  have h1 := (C8_label_is_truncation (fun _ => (27 / 10 : ℚ)) 1 0 0).2.1
    (by norm_num) (by norm_num)
  have h2 := (C8_label_is_truncation (fun _ => (-15 / 10 : ℚ)) 1 0 0).2.2.1
    (by norm_num) (by norm_num)
  obtain ⟨a1, a2, _⟩ := h1
  obtain ⟨b1, b2, _⟩ := h2
  constructor
  · have c1 : ((label_value (fun _ => (27 / 10 : ℚ)) 1 0 0 : Int) : ℚ) < 3 := by linarith
    have c2 : (1 : ℚ) < ((label_value (fun _ => (27 / 10 : ℚ)) 1 0 0 : Int) : ℚ) := by
      linarith
    have c1' : label_value (fun _ => (27 / 10 : ℚ)) 1 0 0 < 3 := by exact_mod_cast c1
    have c2' : 1 < label_value (fun _ => (27 / 10 : ℚ)) 1 0 0 := by exact_mod_cast c2
    omega
  · have c1 : (-2 : ℚ) < ((label_value (fun _ => (-15 / 10 : ℚ)) 1 0 0 : Int) : ℚ) := by
      linarith
    have c2 : ((label_value (fun _ => (-15 / 10 : ℚ)) 1 0 0 : Int) : ℚ) < 0 := by
      linarith
    have c1' : -2 < label_value (fun _ => (-15 / 10 : ℚ)) 1 0 0 := by exact_mod_cast c1
    have c2' : label_value (fun _ => (-15 / 10 : ℚ)) 1 0 0 < 0 := by exact_mod_cast c2
    omega

/-- C9, at the failing input: the clamps keep the argument of `log` in forward,
the denominator `p` of `dP` and the denominator `m` of `dM` for a non-zero
label at or above `LOG_FLOOR`; but for label `0` the denominator `m - 1` of
`dM` is exactly `0` when the mask value is `1` (here `LOG_FLOOR = 1e-20`, one
pixel, stored label `0`, `M = 1`). -/
theorem C9_mask_denominator_zero :
    (∀ (k : ℝ) (P M : Int → ℝ) (dim inner i j : Nat) (l : Int),
        k ≤ forward_prob k P M dim inner i j l)
    ∧ (∀ (k : ℝ) (P : Int → ℝ) (dim inner i j : Nat) (l : Int),
        k ≤ backward_p k P dim inner i j l)
    ∧ (∀ (k : ℝ) (M : Int → ℝ) (inner i j : Nat) (l : Int), l ≠ 0 →
        k ≤ backward_mask_denominator k M inner i j l)
    ∧ backward_mask_denominator ((1 : ℝ) / 10 ^ 20) (fun _ => 1) (1 * 1) 0 0
        (label_value (fun _ => (0 : ℝ)) (1 * 1) 0 0) = 0 := by
  refine ⟨fun k P M dim inner i j l => forward_prob_ge k P M dim inner i j l,
    fun k P dim inner i j l => backward_p_ge k P dim inner i j l, ?_, ?_⟩
  · intro k M inner i j l hl
    unfold backward_mask_denominator
    rw [if_pos hl]
    exact backward_m_ge k M inner i j
  · have hl : label_value (fun _ => (0 : ℝ)) (1 * 1) 0 0 = 0 := by
      simp [label_value, static_cast_int, INT_MIN, INT_MAX]
    rw [hl]
    unfold backward_mask_denominator backward_m
    rw [if_neg (by simp), max_eq_left (by norm_num)]
    norm_num

/-- C10: with `0 < LOG_FLOOR < 1`, the mask gradient requested, no label
gradient, and upstream gradient `g > 0`, at every non-ignored position with
`M[i,j] < 1` `Backward_cpu` leaves `dM[i,j] < 0` when the label is non-zero
and `dM[i,j] > 0` when the label is `0`. -/
theorem C10_mask_gradient_sign (kLOG_THRESHOLD : α)
    (has_ignore_label : Bool) (ignore_label : Int) (N C H W : Nat)
    (P L M dP dL dM : Int → α) (g : α) (propagate_down : Fin 3 → Bool)
    (h2 : propagate_down 2 = true) (h1 : propagate_down 1 = false)
    (hk0 : 0 < kLOG_THRESHOLD) (hk1 : kLOG_THRESHOLD < 1) (hg : 0 < g)
    (i j : Nat) (hi : i < N) (hj : j < H * W)
    (hign : spec_ignored has_ignore_label ignore_label L (H * W) i j = false)
    (hM : spec_at M 1 (H * W) i 0 j < 1) :
    ∃ st : Diffs α,
      Backward_cpu kLOG_THRESHOLD ⟨has_ignore_label, ignore_label, N, H * W⟩ g propagate_down
          ⟨N, C, H, W, P, dP⟩ ⟨N, 1, H, W, L, dL⟩ ⟨N, 1, H, W, M, dM⟩ = Outcome.done st
      ∧ (label_value L (H * W) i j ≠ 0 → st.mask_diff (spec_offset 1 (H * W) i 0 j) < 0)
      ∧ (label_value L (H * W) i j = 0 → 0 < st.mask_diff (spec_offset 1 (H * W) i 0 j)) := by
  obtain ⟨st, hst, hv⟩ := backward_mask_diff_spec kLOG_THRESHOLD has_ignore_label
    ignore_label N C H W P L M dP dL dM g propagate_down h2 h1
    (Nat.lt_of_le_of_lt (Nat.zero_le i) hi)
  obtain ⟨_, hnz, hz⟩ := hv i hi j hj
  have hcnt : (0 : α) < max (1 : α) (spec_count has_ignore_label ignore_label L N (H * W) : α) :=
    lt_of_lt_of_le zero_lt_one (le_max_left _ _)
  have hm0 : 0 < max (spec_at M 1 (H * W) i 0 j) kLOG_THRESHOLD :=
    lt_of_lt_of_le hk0 (le_max_right _ _)
  have hm1 : max (spec_at M 1 (H * W) i 0 j) kLOG_THRESHOLD - 1 < 0 :=
    sub_neg.mpr (max_lt hM hk1)
  refine ⟨st, hst, ?_, ?_⟩
  · intro hl
    rw [hnz hign hl]
    exact div_neg_of_neg_of_pos (neg_neg_of_pos hg) (mul_pos hcnt hm0)
  · intro hl
    rw [hz hign hl]
    exact div_pos_of_neg_of_neg (neg_neg_of_pos hg) (mul_neg_of_pos_of_neg hcnt hm1)

/-- Witness of C10: `LOG_FLOOR = 1e-20`, `g = 1`, one pixel with `M = 0.8`:
label `1` gives `dM < 0`, label `0` gives `dM > 0`. -/
theorem C10_mask_gradient_sign_witness :
    (∃ st : Diffs ℚ,
      Backward_cpu ((1 : ℚ) / 10 ^ 20) ⟨false, 0, 1, 1 * 1⟩ 1 ![false, false, true]
          ⟨1, 2, 1, 1, fun _ => 1 / 2, fun _ => 7⟩ ⟨1, 1, 1, 1, fun _ => 1, fun _ => 7⟩
          ⟨1, 1, 1, 1, fun _ => 4 / 5, fun _ => 7⟩ = Outcome.done st
      ∧ st.mask_diff 0 < 0)
    ∧ (∃ st : Diffs ℚ,
      Backward_cpu ((1 : ℚ) / 10 ^ 20) ⟨false, 0, 1, 1 * 1⟩ 1 ![false, false, true]
          ⟨1, 2, 1, 1, fun _ => 1 / 2, fun _ => 7⟩ ⟨1, 1, 1, 1, fun _ => 0, fun _ => 7⟩
          ⟨1, 1, 1, 1, fun _ => 4 / 5, fun _ => 7⟩ = Outcome.done st
      ∧ 0 < st.mask_diff 0) := by
  constructor
  · obtain ⟨st, hst, hneg, _⟩ := C10_mask_gradient_sign ((1 : ℚ) / 10 ^ 20) false 0 1 2 1 1
      (fun _ => 1 / 2) (fun _ => 1) (fun _ => 4 / 5) (fun _ => 7) (fun _ => 7) (fun _ => 7) 1
      ![false, false, true] rfl rfl (by norm_num) (by norm_num) (by norm_num)
      0 0 (by norm_num) (by norm_num) (by simp [spec_ignored])
      (by simp only [spec_at]; norm_num)
    refine ⟨st, hst, ?_⟩
    have h := hneg (by simp [label_value, static_cast_int, INT_MIN, INT_MAX])
    simpa [spec_offset] using h
  · obtain ⟨st, hst, _, hpos⟩ := C10_mask_gradient_sign ((1 : ℚ) / 10 ^ 20) false 0 1 2 1 1
      (fun _ => 1 / 2) (fun _ => 0) (fun _ => 4 / 5) (fun _ => 7) (fun _ => 7) (fun _ => 7) 1
      ![false, false, true] rfl rfl (by norm_num) (by norm_num) (by norm_num)
      0 0 (by norm_num) (by norm_num) (by simp [spec_ignored])
      (by simp only [spec_at]; norm_num)
    refine ⟨st, hst, ?_⟩
    have h := hpos (by simp [label_value, static_cast_int, INT_MIN, INT_MAX])
    simpa [spec_offset] using h

end Claims

/-! ## Claims on the zero-fill, counts, indices and bounds -/

section Claims2

variable {α : Type} [LinearOrderedField α] [FloorRing α]

/-- C11, counterexample: two samples of one pixel, one class (`C = 1`),
`ignore_label = 5`, stored labels `1` and `5`, `P = 0.5`, upstream gradient
`1`, the probability gradient requested.  The second position is ignored, yet
the cell of `dP` of its only channel holds `-2` after the call: the first
position, whose label `1` is not a class index, writes the cell
`0 * dim + 1 * inner_num_ + 0 = 1`, which is the cell of the second sample. -/
theorem C11_counterexample :
    spec_ignored true 5 (fun k : Int => if k = 0 then (1 : ℚ) else 5) (1 * 1) 1 0 = true
    ∧ ∃ st : Diffs ℚ,
        Backward_cpu ((1 : ℚ) / 10 ^ 20) ⟨true, 5, 2, 1 * 1⟩ 1 ![true, false, false]
            ⟨2, 1, 1, 1, fun _ => 1 / 2, fun _ => 7⟩
            ⟨2, 1, 1, 1, fun k => if k = 0 then 1 else 5, fun _ => 7⟩
            ⟨2, 1, 1, 1, fun _ => 4 / 5, fun _ => 7⟩ = Outcome.done st
        ∧ st.bottom_diff (spec_offset 1 (1 * 1) 1 0 0) = -2 := by
  have hl0 : label_value (fun k : Int => if k = 0 then (1 : ℚ) else 5) (1 * 1) 0 0 = 1 := by
    simp [label_value, static_cast_int, INT_MIN, INT_MAX]
  have hl1 : label_value (fun k : Int => if k = 0 then (1 : ℚ) else 5) (1 * 1) 1 0 = 5 := by
    simp [label_value, static_cast_int, INT_MIN, INT_MAX]
  have hi0 : spec_ignored true 5 (fun k : Int => if k = 0 then (1 : ℚ) else 5) (1 * 1) 0 0
      = false := by
    simp [spec_ignored, hl0]
  have hi1 : spec_ignored true 5 (fun k : Int => if k = 0 then (1 : ℚ) else 5) (1 * 1) 1 0
      = true := by
    simp [spec_ignored, hl1]
  refine ⟨hi1, _, Backward_cpu_done ((1 : ℚ) / 10 ^ 20) _ 1 ![true, false, false] _ _ _ rfl
    (by norm_num), ?_⟩
  obtain ⟨hcnt, hbuf⟩ := backward_data_loop_spec ((1 : ℚ) / 10 ^ 20)
    ⟨true, 5, 2, 1 * 1⟩ ⟨2, 1, 1, 1, fun _ => 1 / 2, fun _ => 7⟩
    ⟨2, 1, 1, 1, fun k => if k = 0 then 1 else 5, fun _ => 7⟩
    (2 * 1 * 1 * 1 / 2) (caffe_set (2 * 1 * 1 * 1) (0 : ℚ) (fun _ => 7))
  have hoff : spec_offset 1 (1 * 1) 1 0 0 = 1 := by simp [spec_offset]
  have hw := (hbuf 1).1 ⟨0, by norm_num, 0, by norm_num, hi0, by rw [hl0]; norm_num⟩
  have hc : spec_count true 5 (fun k : Int => if k = 0 then (1 : ℚ) else 5) 2 (1 * 1) = 1 := by
    simp [spec_count, Finset.sum_range_succ, hi0, hi1]
  simp only [Blob.count] at hcnt hw ⊢
  rw [hoff]
  simp only [Matrix.cons_val_zero, if_true]
  rw [caffe_scal_in _ _ _ _ (by norm_num) (by norm_num), hw, hcnt, hc]
  rw [max_eq_left (by norm_num : (1 : ℚ) / 10 ^ 20 ≤ 1 / 2)]
  norm_num

/-- C11, amended: for every input and every prior content of `dP` and `dM`,
in every state in which `Backward_cpu` returns: if `propagate_down[0]` is
false every cell of `dP` is `0`, if `propagate_down[2]` is false every cell of
`dM` is `0`, and whatever the flags the cell of `dM` of an ignored position is
`0` and, provided the non-ignored labels are class indices in `[0, C)`, so is
the cell of `dP` of every channel of an ignored position.  No stale value
survives: every cell of `dP` and of `dM` after the call is the same whatever
the two buffers held before it.  On a non-empty batch (`0 < N`) the call does
return. -/
theorem C11_zero_fill (kLOG_THRESHOLD : α)
    (has_ignore_label : Bool) (ignore_label : Int) (N C H W : Nat)
    (P L M dP dL dM : Int → α) (g : α) (propagate_down : Fin 3 → Bool)
    (h1 : propagate_down 1 = false) :
    (∀ st : Diffs α,
      Backward_cpu kLOG_THRESHOLD ⟨has_ignore_label, ignore_label, N, H * W⟩ g propagate_down
          ⟨N, C, H, W, P, dP⟩ ⟨N, 1, H, W, L, dL⟩ ⟨N, 1, H, W, M, dM⟩ = Outcome.done st →
      (propagate_down 0 = false →
          ∀ c : Int, 0 ≤ c → c < ((N * C * H * W : Nat) : Int) → st.bottom_diff c = 0)
      ∧ (propagate_down 2 = false →
          ∀ c : Int, 0 ≤ c → c < ((N * 1 * H * W : Nat) : Int) →
            st.mask_diff c = 0 ∧ st.mask_nonfinite c = false)
      ∧ (∀ i, i < N → ∀ j, j < H * W →
          spec_ignored has_ignore_label ignore_label L (H * W) i j = true →
          (st.mask_diff (spec_offset 1 (H * W) i 0 j) = 0
            ∧ st.mask_nonfinite (spec_offset 1 (H * W) i 0 j) = false)
          ∧ ((∀ i', i' < N → ∀ j', j' < H * W →
                spec_ignored has_ignore_label ignore_label L (H * W) i' j' = false →
                0 ≤ label_value L (H * W) i' j' ∧ label_value L (H * W) i' j' < (C : Int)) →
              ∀ c : Nat, c < C → st.bottom_diff (spec_offset C (H * W) i (c : Int) j) = 0))
      ∧ (∀ dP' dM' : Int → α, ∃ st' : Diffs α,
          Backward_cpu kLOG_THRESHOLD ⟨has_ignore_label, ignore_label, N, H * W⟩ g
            propagate_down
            ⟨N, C, H, W, P, dP'⟩ ⟨N, 1, H, W, L, dL⟩ ⟨N, 1, H, W, M, dM'⟩ = Outcome.done st'
          ∧ (∀ c : Int, 0 ≤ c → c < ((N * C * H * W : Nat) : Int) →
              st'.bottom_diff c = st.bottom_diff c)
          ∧ (∀ c : Int, 0 ≤ c → c < ((N * 1 * H * W : Nat) : Int) →
              st'.mask_diff c = st.mask_diff c)))
    ∧ (0 < N → ∃ st : Diffs α,
      Backward_cpu kLOG_THRESHOLD ⟨has_ignore_label, ignore_label, N, H * W⟩ g propagate_down
          ⟨N, C, H, W, P, dP⟩ ⟨N, 1, H, W, L, dL⟩ ⟨N, 1, H, W, M, dM⟩ = Outcome.done st) := by
  refine ⟨?_, fun hN => ⟨_, Backward_cpu_done kLOG_THRESHOLD _ g propagate_down _ _ _ h1 hN⟩⟩
  intro st hst
  have hN : 0 < N := (Backward_cpu_done_pos kLOG_THRESHOLD _ g propagate_down _ _ _ st hst).2
  rw [Backward_cpu_done kLOG_THRESHOLD _ g propagate_down _ _ _ h1 hN] at hst
  injection hst with hst
  subst hst
  refine ⟨?_, ?_, ?_, ?_⟩
  · intro h0 c hc0 hc1
    simp only [h0, Bool.false_eq_true, if_false, Blob.count]
    exact caffe_set_in _ _ _ _ hc0 hc1
  · intro h2 c hc0 hc1
    simp only [h2, Bool.false_eq_true, if_false, Blob.count]
    exact ⟨caffe_set_in _ _ _ _ hc0 hc1, trivial⟩
  · intro i hi j hj hign
    constructor
    · have hoff : spec_offset 1 (H * W) i 0 j
          = (i : Int) * ((H * W : Nat) : Int) + (j : Int) := by
        unfold spec_offset; push_cast; ring
      obtain ⟨hb0, hb1⟩ := cell_bounds N (H * W) i j hi hj
      have hb1' : (i : Int) * ((H * W : Nat) : Int) + (j : Int)
          < ((N * 1 * H * W : Nat) : Int) := by
        rw [Nat.mul_one, Nat.mul_assoc N H W]; exact hb1
      rw [hoff]
      obtain ⟨_, hbuf⟩ := backward_mask_loop_spec kLOG_THRESHOLD
        ⟨has_ignore_label, ignore_label, N, H * W⟩ ⟨N, 1, H, W, L, dL⟩
        ⟨N, 1, H, W, M, dM⟩ (caffe_set (N * 1 * H * W) (0 : α) dM)
      have hnw := (hbuf ((i : Int) * ((H * W : Nat) : Int) + (j : Int))).2 (by
        rintro ⟨i', _, j', hj', hign', hidx⟩
        obtain ⟨rfl, rfl⟩ := cell_injective (H * W) i' j' i j hj' hj hidx
        rw [hign] at hign'
        exact absurd hign' (by simp))
      simp only [Blob.count] at hnw ⊢
      split
      · refine ⟨?_, hnw.2⟩
        rw [caffe_scal_in _ _ _ _ hb0 hb1', hnw.1, caffe_set_in _ _ _ _ hb0 hb1', mul_zero]
      · exact ⟨caffe_set_in _ _ _ _ hb0 hb1', rfl⟩
    · intro hlab c hc
      obtain ⟨hb0, hb1⟩ := spec_offset_bounds N C (H * W) i j (c : Int) hi hj
        (Int.natCast_nonneg c) (by exact_mod_cast hc)
      have hb1' : spec_offset C (H * W) i (c : Int) j < ((N * C * H * W : Nat) : Int) := by
        rw [Nat.mul_assoc (N * C) H W]; exact hb1
      simp only [Blob.count]
      split
      · obtain ⟨_, hbuf⟩ := backward_data_loop_spec kLOG_THRESHOLD
          ⟨has_ignore_label, ignore_label, N, H * W⟩ ⟨N, C, H, W, P, dP⟩
          ⟨N, 1, H, W, L, dL⟩ (N * C * H * W / N) (caffe_set (N * C * H * W) (0 : α) dP)
        rw [caffe_scal_in _ _ _ _ hb0 hb1', (hbuf _).2, caffe_set_in _ _ _ _ hb0 hb1',
          mul_zero]
        rintro ⟨i', hi', j', hj', hign', hidx⟩
        obtain ⟨hl0, hl1⟩ := hlab i' hi' j' hj' hign'
        have hidx' : spec_offset C (H * W) i' (label_value L (H * W) i' j') j'
            = spec_offset C (H * W) i (c : Int) j := by
          rw [← hidx]; exact (loop_index_eq N C H W i' j' _ hi').symm
        obtain ⟨rfl, _, rfl⟩ := spec_offset_injective C (H * W) i' j' i j _ _ hj' hj hl0 hl1
          (Int.natCast_nonneg c) (by exact_mod_cast hc) hidx'
        rw [hign] at hign'
        exact absurd hign' (by simp)
      · exact caffe_set_in _ _ _ _ hb0 hb1'
  · intro dP' dM'
    refine ⟨_, Backward_cpu_done kLOG_THRESHOLD _ g propagate_down _ _ _ h1 hN, ?_, ?_⟩
    · intro c hc0 hc1
      simp only [Blob.count]
      split
      · obtain ⟨hcnt, hbuf⟩ := backward_data_loop_spec kLOG_THRESHOLD
          ⟨has_ignore_label, ignore_label, N, H * W⟩ ⟨N, C, H, W, P, dP⟩
          ⟨N, 1, H, W, L, dL⟩ (N * C * H * W / N) (caffe_set (N * C * H * W) (0 : α) dP)
        obtain ⟨hcnt', hbuf'⟩ := backward_data_loop_spec kLOG_THRESHOLD
          ⟨has_ignore_label, ignore_label, N, H * W⟩ ⟨N, C, H, W, P, dP'⟩
          ⟨N, 1, H, W, L, dL⟩ (N * C * H * W / N) (caffe_set (N * C * H * W) (0 : α) dP')
        rw [caffe_scal_in _ _ _ _ hc0 hc1, caffe_scal_in _ _ _ _ hc0 hc1, hcnt, hcnt']
        congr 1
        by_cases hw : ∃ i, i < N ∧ ∃ j, j < H * W ∧
            spec_ignored has_ignore_label ignore_label L (H * W) i j = false ∧
            (i : Int) * ((N * C * H * W / N : Nat) : Int)
              + label_value L (H * W) i j * ((H * W : Nat) : Int) + (j : Int) = c
        · rw [(hbuf c).1 hw, (hbuf' c).1 hw]
        · rw [(hbuf c).2 hw, (hbuf' c).2 hw, caffe_set_in _ _ _ _ hc0 hc1,
            caffe_set_in _ _ _ _ hc0 hc1]
      · rw [caffe_set_in _ _ _ _ hc0 hc1, caffe_set_in _ _ _ _ hc0 hc1]
    · intro c hc0 hc1
      simp only [Blob.count]
      split
      · obtain ⟨hcnt, hbuf⟩ := backward_mask_loop_spec kLOG_THRESHOLD
          ⟨has_ignore_label, ignore_label, N, H * W⟩ ⟨N, 1, H, W, L, dL⟩
          ⟨N, 1, H, W, M, dM⟩ (caffe_set (N * 1 * H * W) (0 : α) dM)
        obtain ⟨hcnt', hbuf'⟩ := backward_mask_loop_spec kLOG_THRESHOLD
          ⟨has_ignore_label, ignore_label, N, H * W⟩ ⟨N, 1, H, W, L, dL⟩
          ⟨N, 1, H, W, M, dM'⟩ (caffe_set (N * 1 * H * W) (0 : α) dM')
        simp only [Blob.count] at hcnt hcnt' hbuf hbuf'
        rw [caffe_scal_in _ _ _ _ hc0 hc1, caffe_scal_in _ _ _ _ hc0 hc1, hcnt, hcnt']
        congr 1
        by_cases hw : ∃ i, i < N ∧ ∃ j, j < H * W ∧
            spec_ignored has_ignore_label ignore_label L (H * W) i j = false ∧
            (i : Int) * ((H * W : Nat) : Int) + (j : Int) = c
        · rw [((hbuf c).1 hw).1, ((hbuf' c).1 hw).1]
        · rw [((hbuf c).2 hw).1, ((hbuf' c).2 hw).1, caffe_set_in _ _ _ _ hc0 hc1,
            caffe_set_in _ _ _ _ hc0 hc1]
      · rw [caffe_set_in _ _ _ _ hc0 hc1, caffe_set_in _ _ _ _ hc0 hc1]

/-- Witness of C11 (amended): two samples of one pixel, two classes,
`ignore_label = 5`, labels `1` and `5`, stale value `7` in every cell of both
gradient buffers.  With both gradients requested the cells of the ignored
second sample are `0`; with none requested every cell is `0`. -/
theorem C11_zero_fill_witness :
    (∃ st : Diffs ℚ,
      Backward_cpu ((1 : ℚ) / 10 ^ 20) ⟨true, 5, 2, 1 * 1⟩ 3 ![true, false, true]
          ⟨2, 2, 1, 1, fun _ => 1 / 2, fun _ => 7⟩
          ⟨2, 1, 1, 1, fun k => if k = 0 then 1 else 5, fun _ => 7⟩
          ⟨2, 1, 1, 1, fun _ => 4 / 5, fun _ => 7⟩ = Outcome.done st
      ∧ st.mask_diff 1 = 0 ∧ st.bottom_diff 2 = 0 ∧ st.bottom_diff 3 = 0)
    ∧ (∃ st : Diffs ℚ,
      Backward_cpu ((1 : ℚ) / 10 ^ 20) ⟨true, 5, 2, 1 * 1⟩ 3 ![false, false, false]
          ⟨2, 2, 1, 1, fun _ => 1 / 2, fun _ => 7⟩
          ⟨2, 1, 1, 1, fun k => if k = 0 then 1 else 5, fun _ => 7⟩
          ⟨2, 1, 1, 1, fun _ => 4 / 5, fun _ => 7⟩ = Outcome.done st
      ∧ st.bottom_diff 0 = 0 ∧ st.mask_diff 0 = 0) := by
  have hl0 : label_value (fun k : Int => if k = 0 then (1 : ℚ) else 5) (1 * 1) 0 0 = 1 := by
    simp [label_value, static_cast_int, INT_MIN, INT_MAX]
  have hl1 : label_value (fun k : Int => if k = 0 then (1 : ℚ) else 5) (1 * 1) 1 0 = 5 := by
    simp [label_value, static_cast_int, INT_MIN, INT_MAX]
  constructor
  · obtain ⟨hall, hret⟩ := C11_zero_fill ((1 : ℚ) / 10 ^ 20) true 5 2 2 1 1
      (fun _ => 1 / 2) (fun k => if k = 0 then 1 else 5) (fun _ => 4 / 5)
      (fun _ => 7) (fun _ => 7) (fun _ => 7) 3 ![true, false, true] rfl
    obtain ⟨st, hst⟩ := hret (by norm_num)
    obtain ⟨_, _, hign, _⟩ := hall st hst
    obtain ⟨hm, hp⟩ := hign 1 (by norm_num) 0 (by norm_num) (by simp [spec_ignored, hl1])
    have hlab : ∀ i', i' < 2 → ∀ j', j' < 1 * 1 →
        spec_ignored true 5 (fun k : Int => if k = 0 then (1 : ℚ) else 5) (1 * 1) i' j' = false →
        0 ≤ label_value (fun k : Int => if k = 0 then (1 : ℚ) else 5) (1 * 1) i' j'
          ∧ label_value (fun k : Int => if k = 0 then (1 : ℚ) else 5) (1 * 1) i' j'
              < ((2 : Nat) : Int) := by
      intro i' hi' j' hj' hni
      have hj0 : j' = 0 := by omega
      subst hj0
      rcases Nat.lt_succ_iff_lt_or_eq.mp hi' with h | h
      · have hi0 : i' = 0 := by omega
        subst hi0
        rw [hl0]; constructor <;> norm_num
      · subst h
        simp [spec_ignored, hl1] at hni
    refine ⟨st, hst, ?_, ?_, ?_⟩
    · simpa [spec_offset] using hm.1
    · simpa [spec_offset] using hp hlab 0 (by norm_num)
    · simpa [spec_offset] using hp hlab 1 (by norm_num)
  · obtain ⟨hall, hret⟩ := C11_zero_fill ((1 : ℚ) / 10 ^ 20) true 5 2 2 1 1
      (fun _ => 1 / 2) (fun k => if k = 0 then 1 else 5) (fun _ => 4 / 5)
      (fun _ => 7) (fun _ => 7) (fun _ => 7) 3 ![false, false, false] rfl
    obtain ⟨st, hst⟩ := hret (by norm_num)
    obtain ⟨hp, hm, _, _⟩ := hall st hst
    exact ⟨st, hst, hp rfl 0 (le_refl 0) (by norm_num),
      (hm rfl 0 (le_refl 0) (by norm_num)).1⟩

/-- C13: for every input and configuration the count accumulated by the
probability-gradient loop and the count accumulated by the mask-gradient loop
of `Backward_cpu` are the number of non-ignored positions, and so is the count
accumulated by every forward loop that completes; the forward loop completes
whenever the batch is not empty (`0 < N`) and no debug assertion on the labels
fails.  (On an empty batch the call stops at the division of line 47.) -/
theorem C13_counts_agree (debug : Bool) (kLOG_THRESHOLD : α) (log : α → α)
    (has_ignore_label : Bool) (ignore_label : Int) (N C H W : Nat)
    (P L M dP dL dM : Int → α) :
    (backward_data_loop kLOG_THRESHOLD ⟨has_ignore_label, ignore_label, N, H * W⟩
        ⟨N, C, H, W, P, dP⟩ ⟨N, 1, H, W, L, dL⟩ (N * C * H * W / N)
        (caffe_set (N * C * H * W) (0 : α) dP)).2
      = (spec_nonignored has_ignore_label ignore_label L N (H * W)).card
    ∧ (backward_mask_loop kLOG_THRESHOLD ⟨has_ignore_label, ignore_label, N, H * W⟩
        ⟨N, 1, H, W, L, dL⟩ ⟨N, 1, H, W, M, dM⟩
        (caffe_set (N * 1 * H * W) (0 : α) dM)).count
      = (spec_nonignored has_ignore_label ignore_label L N (H * W)).card
    ∧ (∀ r : α × Nat,
        forward_loop debug kLOG_THRESHOLD log ⟨has_ignore_label, ignore_label, N, H * W⟩
          ⟨N, C, H, W, P, dP⟩ ⟨N, 1, H, W, L, dL⟩ ⟨N, 1, H, W, M, dM⟩ = Except.ok r →
        r.2 = (spec_nonignored has_ignore_label ignore_label L N (H * W)).card)
    ∧ (0 < N → (∀ i, i < N → ∀ j, j < H * W → dchecks_pass debug C L (H * W) i j) →
        ∃ r : α × Nat,
          forward_loop debug kLOG_THRESHOLD log ⟨has_ignore_label, ignore_label, N, H * W⟩
            ⟨N, C, H, W, P, dP⟩ ⟨N, 1, H, W, L, dL⟩ ⟨N, 1, H, W, M, dM⟩ = Except.ok r
          ∧ r.2 = (spec_nonignored has_ignore_label ignore_label L N (H * W)).card) := by
  have hcard := spec_count_eq_card has_ignore_label ignore_label L N (H * W)
  refine ⟨?_, ?_, ?_, ?_⟩
  · rw [← hcard]
    exact (backward_data_loop_spec kLOG_THRESHOLD ⟨has_ignore_label, ignore_label, N, H * W⟩
      ⟨N, C, H, W, P, dP⟩ ⟨N, 1, H, W, L, dL⟩ _ _).1
  · rw [← hcard]
    exact (backward_mask_loop_spec kLOG_THRESHOLD ⟨has_ignore_label, ignore_label, N, H * W⟩
      ⟨N, 1, H, W, L, dL⟩ ⟨N, 1, H, W, M, dM⟩ _).1
  · intro r hr
    rw [forward_loop_count debug kLOG_THRESHOLD log has_ignore_label ignore_label N C H W
      P L M dP dL dM r hr, ← hcard]
  · intro hN hchk
    exact ⟨_, forward_loop_eq debug kLOG_THRESHOLD log has_ignore_label ignore_label N C H W
      P L M dP dL dM hN hchk, hcard⟩

/-- C17: index safety.  The loops run with `dim = C * inner_num_`.  For
`i < N`, `j < inner_num_` and `0 ≤ l < C` the flat index
`i * dim + l * inner_num_ + j` lies in `[0, N * C * inner_num_)` and
`i * inner_num_ + j` in `[0, N * inner_num_)`, and `(i, l, j) ↦ i * dim + l *
inner_num_ + j` is injective.  When every non-ignored label is in `[0, C)`,
every index at which a completed `Forward_cpu` reads `bottom_data`, and every
index at which a completed probability-gradient pass reads `bottom_data` and
writes `bottom_diff`, lies inside the blob, whatever the ignored labels are:
the index is formed after the skip.  Both passes complete on a non-empty batch
(`0 < N`), the forward one when no debug assertion on the labels fails.  (On
an empty batch they stop at the division of lines 47 and 95, before any
access.) -/
theorem C17_index_safety (debug : Bool) (has_ignore_label : Bool) (ignore_label : Int)
    (N C H W : Nat) (P L dP dL : Int → α)
    (hlab : ∀ i, i < N → ∀ j, j < H * W →
      spec_ignored has_ignore_label ignore_label L (H * W) i j = false →
      0 ≤ label_value L (H * W) i j ∧ label_value L (H * W) i j < (C : Int)) :
    (0 < N → (⟨N, C, H, W, P, dP⟩ : Blob α).count / N = C * (H * W))
    ∧ (∀ i, i < N → ∀ j, j < H * W → ∀ l : Int, 0 ≤ l → l < (C : Int) →
        0 ≤ (i : Int) * ((C * (H * W) : Nat) : Int) + l * ((H * W : Nat) : Int) + (j : Int)
        ∧ (i : Int) * ((C * (H * W) : Nat) : Int) + l * ((H * W : Nat) : Int) + (j : Int)
            < ((N * C * (H * W) : Nat) : Int)
        ∧ 0 ≤ (i : Int) * ((H * W : Nat) : Int) + (j : Int)
        ∧ (i : Int) * ((H * W : Nat) : Int) + (j : Int) < ((N * (H * W) : Nat) : Int))
    ∧ (∀ i j i' j' : Nat, ∀ l l' : Int, j < H * W → j' < H * W →
        0 ≤ l → l < (C : Int) → 0 ≤ l' → l' < (C : Int) →
        (i : Int) * ((C * (H * W) : Nat) : Int) + l * ((H * W : Nat) : Int) + (j : Int)
          = (i' : Int) * ((C * (H * W) : Nat) : Int) + l' * ((H * W : Nat) : Int) + (j' : Int) →
        i = i' ∧ l = l' ∧ j = j')
    ∧ (∀ tr : List Int,
        forward_reads debug ⟨has_ignore_label, ignore_label, N, H * W⟩
          ⟨N, C, H, W, P, dP⟩ ⟨N, 1, H, W, L, dL⟩ = Except.ok tr →
        ∀ c, c ∈ tr → 0 ≤ c ∧ c < ((N * C * H * W : Nat) : Int))
    ∧ (∀ tr : List Int,
        backward_accesses ⟨has_ignore_label, ignore_label, N, H * W⟩
          ⟨N, C, H, W, P, dP⟩ ⟨N, 1, H, W, L, dL⟩ = Except.ok tr →
        ∀ c, c ∈ tr → 0 ≤ c ∧ c < ((N * C * H * W : Nat) : Int))
    ∧ (0 < N → (∀ i, i < N → ∀ j, j < H * W → dchecks_pass debug C L (H * W) i j) →
        ∃ tr : List Int,
          forward_reads debug ⟨has_ignore_label, ignore_label, N, H * W⟩
            ⟨N, C, H, W, P, dP⟩ ⟨N, 1, H, W, L, dL⟩ = Except.ok tr)
    ∧ (0 < N → ∃ tr : List Int,
        backward_accesses ⟨has_ignore_label, ignore_label, N, H * W⟩
          ⟨N, C, H, W, P, dP⟩ ⟨N, 1, H, W, L, dL⟩ = Except.ok tr) := by
  have hoff : ∀ (i j : Nat) (l : Int),
      (i : Int) * ((C * (H * W) : Nat) : Int) + l * ((H * W : Nat) : Int) + (j : Int)
        = spec_offset C (H * W) i l j := by
    intro i j l
    unfold spec_offset
    push_cast
    ring
  have hin : ∀ i, i < N → ∀ j, j < H * W →
      spec_ignored has_ignore_label ignore_label L (H * W) i j = false →
      0 ≤ spec_offset C (H * W) i (label_value L (H * W) i j) j
        ∧ spec_offset C (H * W) i (label_value L (H * W) i j) j
            < ((N * C * H * W : Nat) : Int) := by
    intro i hi j hj hign
    obtain ⟨hl0, hl1⟩ := hlab i hi j hj hign
    obtain ⟨hb0, hb1⟩ := spec_offset_bounds N C (H * W) i j _ hi hj hl0 hl1
    exact ⟨hb0, by rw [Nat.mul_assoc (N * C) H W]; exact hb1⟩
  refine ⟨fun hN => dim_eq N C H W hN, ?_, ?_, ?_, ?_, ?_, ?_⟩
  · intro i hi j hj l hl0 hl1
    rw [hoff]
    obtain ⟨hb0, hb1⟩ := spec_offset_bounds N C (H * W) i j l hi hj hl0 hl1
    exact ⟨hb0, hb1, cell_bounds N (H * W) i j hi hj⟩
  · intro i j i' j' l l' hj hj' hl0 hl1 hl0' hl1' h
    rw [hoff, hoff] at h
    exact spec_offset_injective C (H * W) i j i' j' l l' hj hj' hl0 hl1 hl0' hl1' h
  · intro tr htr c hc
    obtain ⟨i, hi, j, hj, hign, rfl⟩ := forward_reads_mem debug has_ignore_label ignore_label
      N C H W P L dP dL tr htr c hc
    exact hin i hi j hj hign
  · intro tr htr c hc
    obtain ⟨i, hi, j, hj, hign, rfl⟩ := backward_accesses_mem has_ignore_label ignore_label
      N C H W P L dP dL tr htr c hc
    exact hin i hi j hj hign
  · intro hN hchk
    exact forward_reads_returns debug has_ignore_label ignore_label N C H W P L dP dL hN hchk
  · intro hN
    exact backward_accesses_returns has_ignore_label ignore_label N C H W P L dP dL hN

/-- Witness of C17: a release build, two samples of one pixel, two classes,
`ignore_label = 255`, labels `1` and `255`: the forward pass completes and
every index at which it read `bottom_data` lies in `[0, 4)`. -/
theorem C17_index_safety_witness :
    ∃ tr : List Int,
      forward_reads false ⟨true, 255, 2, 1 * 1⟩
        ⟨2, 2, 1, 1, fun _ => (1 / 2 : ℚ), fun _ => 0⟩
        ⟨2, 1, 1, 1, fun k => if k = 0 then 1 else 255, fun _ => 0⟩ = Except.ok tr
      ∧ ∀ c, c ∈ tr → 0 ≤ c ∧ c < ((2 * 2 * 1 * 1 : Nat) : Int) := by
  have hl0 : label_value (fun k : Int => if k = 0 then (1 : ℚ) else 255) (1 * 1) 0 0 = 1 := by
    simp [label_value, static_cast_int, INT_MIN, INT_MAX]
  have hl1 : label_value (fun k : Int => if k = 0 then (1 : ℚ) else 255) (1 * 1) 1 0 = 255 := by
    simp [label_value, static_cast_int, INT_MIN, INT_MAX]
  have h := C17_index_safety false true 255 2 2 1 1
    (fun _ => (1 / 2 : ℚ)) (fun k => if k = 0 then 1 else 255) (fun _ => 0) (fun _ => 0)
    (by
      intro i' hi' j' hj' hni
      have hj0 : j' = 0 := by omega
      subst hj0
      rcases Nat.lt_succ_iff_lt_or_eq.mp hi' with h | h
      · have hi0 : i' = 0 := by omega
        subst hi0
        rw [hl0]; constructor <;> norm_num
      · subst h
        simp [spec_ignored, hl1] at hni)
  obtain ⟨tr, htr⟩ := h.2.2.2.2.2.1 (by norm_num) (fun _ _ _ _ => Or.inl rfl)
  exact ⟨tr, htr, h.2.2.2.1 tr htr⟩

/-- C18: given `0 < LOG_FLOOR < 1`, for every input with in-range labels,
whatever the real values of `P` and `M`, every loss that `Forward_cpu` returns
is at most `-log LOG_FLOOR`, and on a non-empty batch (`0 < N`) `Forward_cpu`
does return a loss.  (On an empty batch the call stops at the division of
line 47.) -/
theorem C18_loss_upper_bound (debug : Bool) (kLOG_THRESHOLD : ℝ)
    (has_ignore_label : Bool) (ignore_label : Int) (N C H W : Nat)
    (P L M dP dL dM : Int → ℝ) (hk0 : 0 < kLOG_THRESHOLD) (hk1 : kLOG_THRESHOLD < 1)
    (hlab : ∀ i, i < N → ∀ j, j < H * W →
      0 ≤ label_value L (H * W) i j ∧ label_value L (H * W) i j < (C : Int)) :
    (∀ loss : ℝ,
      Forward_cpu debug kLOG_THRESHOLD Real.log ⟨has_ignore_label, ignore_label, N, H * W⟩
        ⟨N, C, H, W, P, dP⟩ ⟨N, 1, H, W, L, dL⟩ ⟨N, 1, H, W, M, dM⟩ = Except.ok loss →
      loss ≤ - Real.log kLOG_THRESHOLD)
    ∧ (0 < N → ∃ loss : ℝ,
      Forward_cpu debug kLOG_THRESHOLD Real.log ⟨has_ignore_label, ignore_label, N, H * W⟩
        ⟨N, C, H, W, P, dP⟩ ⟨N, 1, H, W, L, dL⟩ ⟨N, 1, H, W, M, dM⟩ = Except.ok loss
      ∧ loss ≤ - Real.log kLOG_THRESHOLD) := by
  have hchk : ∀ i, i < N → ∀ j, j < H * W → dchecks_pass debug C L (H * W) i j :=
    fun i hi j hj => Or.inr (hlab i hi j hj)
  have hle := spec_loss_le kLOG_THRESHOLD has_ignore_label ignore_label P L M N C (H * W)
    hk0 hk1
  refine ⟨fun loss h => ?_, fun hN => ⟨_, Forward_cpu_eq debug kLOG_THRESHOLD Real.log
    has_ignore_label ignore_label N C H W P L M dP dL dM hN hchk, hle⟩⟩
  have hN : 0 < N := Forward_cpu_ok_pos debug kLOG_THRESHOLD Real.log _ _ _ _ loss h
  rw [Forward_cpu_eq debug kLOG_THRESHOLD Real.log has_ignore_label ignore_label N C H W
    P L M dP dL dM hN hchk] at h
  injection h with h
  rw [← h]
  exact hle

/-- Witness of C18: a debug build, one pixel, label `1`, `P = -3`, `M = 2`
(effective probability `-6`, clamped): the loss is at most `-log 1e-20`. -/
theorem C18_loss_upper_bound_witness :
    ∃ loss : ℝ,
      Forward_cpu true ((1 : ℝ) / 10 ^ 20) Real.log ⟨false, 0, 1, 1 * 1⟩
        ⟨1, 2, 1, 1, fun _ => -3, fun _ => 0⟩ ⟨1, 1, 1, 1, fun _ => 1, fun _ => 0⟩
        ⟨1, 1, 1, 1, fun _ => 2, fun _ => 0⟩ = Except.ok loss
      ∧ loss ≤ - Real.log ((1 : ℝ) / 10 ^ 20) :=
  (C18_loss_upper_bound true ((1 : ℝ) / 10 ^ 20) false 0 1 2 1 1
    (fun _ => -3) (fun _ => 1) (fun _ => 2) (fun _ => 0) (fun _ => 0) (fun _ => 0)
    (by norm_num) (by norm_num)
    (by intro i _ j _; simp [label_value, static_cast_int, INT_MIN, INT_MAX])).2 (by norm_num)

/-- Where the mask pass does not divide by zero both gradients are linear in
the upstream gradient: on a non-empty batch, with a positive `LOG_FLOOR`, each
cell of `dP`, and each cell of `dM` that is not the quotient of a division by
zero, produced with upstream gradient `g` is `g` times the cell produced with
upstream gradient `1`, and is `0` for upstream gradient `0`; the cells that
are such a quotient are the same for every upstream gradient. -/
theorem backward_linear_where_finite (kLOG_THRESHOLD : α)
    (has_ignore_label : Bool) (ignore_label : Int) (N C H W : Nat)
    (P L M dP dL dM : Int → α) (g : α) (propagate_down : Fin 3 → Bool)
    (h1 : propagate_down 1 = false) (hN : 0 < N) :
    ∃ st_g st_1 st_0 : Diffs α,
      Backward_cpu kLOG_THRESHOLD ⟨has_ignore_label, ignore_label, N, H * W⟩ g propagate_down
          ⟨N, C, H, W, P, dP⟩ ⟨N, 1, H, W, L, dL⟩ ⟨N, 1, H, W, M, dM⟩ = Outcome.done st_g
      ∧ Backward_cpu kLOG_THRESHOLD ⟨has_ignore_label, ignore_label, N, H * W⟩ 1 propagate_down
          ⟨N, C, H, W, P, dP⟩ ⟨N, 1, H, W, L, dL⟩ ⟨N, 1, H, W, M, dM⟩ = Outcome.done st_1
      ∧ Backward_cpu kLOG_THRESHOLD ⟨has_ignore_label, ignore_label, N, H * W⟩ 0 propagate_down
          ⟨N, C, H, W, P, dP⟩ ⟨N, 1, H, W, L, dL⟩ ⟨N, 1, H, W, M, dM⟩ = Outcome.done st_0
      ∧ (0 < kLOG_THRESHOLD →
          ∀ c : Int, 0 ≤ c → c < ((N * C * H * W : Nat) : Int) →
            st_g.bottom_diff c = g * st_1.bottom_diff c ∧ st_0.bottom_diff c = 0)
      ∧ (∀ c : Int, 0 ≤ c → c < ((N * 1 * H * W : Nat) : Int) →
          st_g.mask_nonfinite c = st_1.mask_nonfinite c
          ∧ st_0.mask_nonfinite c = st_1.mask_nonfinite c
          ∧ (st_1.mask_nonfinite c = false →
              st_g.mask_diff c = g * st_1.mask_diff c ∧ st_0.mask_diff c = 0)) := by
  refine ⟨_, _, _, Backward_cpu_done kLOG_THRESHOLD _ g propagate_down _ _ _ h1 hN,
    Backward_cpu_done kLOG_THRESHOLD _ 1 propagate_down _ _ _ h1 hN,
    Backward_cpu_done kLOG_THRESHOLD _ 0 propagate_down _ _ _ h1 hN, ?_, ?_⟩
  · intro _ c hc0 hc1
    simp only [Blob.count]
    split
    · rw [caffe_scal_in _ _ _ _ hc0 hc1, caffe_scal_in _ _ _ _ hc0 hc1,
        caffe_scal_in _ _ _ _ hc0 hc1]
      constructor
      · ring
      · rw [neg_zero, zero_div, zero_mul]
    · rw [caffe_set_in _ _ _ _ hc0 hc1]
      exact ⟨(mul_zero g).symm, rfl⟩
  · intro c hc0 hc1
    refine ⟨rfl, rfl, fun _ => ?_⟩
    simp only [Blob.count]
    split
    · rw [caffe_scal_in _ _ _ _ hc0 hc1, caffe_scal_in _ _ _ _ hc0 hc1,
        caffe_scal_in _ _ _ _ hc0 hc1]
      constructor
      · ring
      · rw [neg_zero, zero_div, zero_mul]
    · rw [caffe_set_in _ _ _ _ hc0 hc1]
      exact ⟨(mul_zero g).symm, rfl⟩

/-- C19, at the failing input: one pixel, stored label `0`, mask value `1`,
`LOG_FLOOR = 1e-20`, both gradients requested, upstream gradient `0`.  The
divisor `m - 1` of line 139 is `0`, so that the value stored in the cell of
`dM` is an infinity, which the scaling by `-0 / 1` of lines 144-145 turns into
a NaN: `Backward_cpu` returns with that cell marked as not holding a number,
and not with the `0` that linearity in the upstream gradient requires. -/
theorem C19_zero_gradient_not_zero :
    backward_mask_denominator ((1 : ℚ) / 10 ^ 20) (fun _ => 1) (1 * 1) 0 0
        (label_value (fun _ => (0 : ℚ)) (1 * 1) 0 0) = 0
    ∧ ∃ st : Diffs ℚ,
        Backward_cpu ((1 : ℚ) / 10 ^ 20) ⟨false, 0, 1, 1 * 1⟩ 0 ![true, false, true]
            ⟨1, 2, 1, 1, fun _ => 1 / 2, fun _ => 7⟩ ⟨1, 1, 1, 1, fun _ => 0, fun _ => 7⟩
            ⟨1, 1, 1, 1, fun _ => 1, fun _ => 7⟩ = Outcome.done st
        ∧ st.mask_nonfinite (spec_offset 1 (1 * 1) 0 0 0) = true := by
  have hl : label_value (fun _ => (0 : ℚ)) (1 * 1) 0 0 = 0 := by
    simp [label_value, static_cast_int, INT_MIN, INT_MAX]
  have hd : backward_mask_denominator ((1 : ℚ) / 10 ^ 20) (fun _ => 1) (1 * 1) 0 0
      (label_value (fun _ => (0 : ℚ)) (1 * 1) 0 0) = 0 := by
    rw [hl]
    unfold backward_mask_denominator backward_m
    rw [if_neg (by simp), max_eq_left (by norm_num)]
    norm_num
  refine ⟨hd, ?_⟩
  obtain ⟨st, hst, hv⟩ := backward_mask_nonfinite_spec ((1 : ℚ) / 10 ^ 20) false 0 1 2 1 1
    (fun _ => 1 / 2) (fun _ => 0) (fun _ => 1) (fun _ => 7) (fun _ => 7) (fun _ => 7) 0
    ![true, false, true] rfl rfl (by norm_num)
  refine ⟨st, hst, ?_⟩
  rw [(hv 0 (by norm_num) 0 (by norm_num)).2 (by simp [spec_ignored]), hd]
  rfl

end Claims2

/-! ## Claims on the gradients as derivatives -/

section Claims3

/-- C14, negation of the claim: there is no input with in-range labels on
which `Forward_cpu` returns, with a non-ignored position at which no clamp is
active (`P[i,l,j] > LOG_FLOOR > 0` and `p_eff > LOG_FLOOR`), for which the
upstream gradient times the partial derivative of the forward loss with
respect to `P[i,l,j]` differs from the value that `Backward_cpu` writes to
`dP[i,l,j]`. -/
theorem C14_counterexample :
    ¬ ∃ (debug : Bool) (kLOG_THRESHOLD g : ℝ) (has_ignore_label : Bool) (ignore_label : Int)
        (N C H W : Nat) (P L M dP dL dM : Int → ℝ) (propagate_down : Fin 3 → Bool)
        (i j : Nat) (d : ℝ) (st : Diffs ℝ),
      propagate_down 0 = true ∧ propagate_down 1 = false ∧ 0 < kLOG_THRESHOLD
      ∧ (∀ i', i' < N → ∀ j', j' < H * W → dchecks_pass debug C L (H * W) i' j')
      ∧ (∀ i', i' < N → ∀ j', j' < H * W →
          spec_ignored has_ignore_label ignore_label L (H * W) i' j' = false →
          0 ≤ label_value L (H * W) i' j' ∧ label_value L (H * W) i' j' < (C : Int))
      ∧ i < N ∧ j < H * W
      ∧ spec_ignored has_ignore_label ignore_label L (H * W) i j = false
      ∧ kLOG_THRESHOLD < spec_at P C (H * W) i (label_value L (H * W) i j) j
      ∧ kLOG_THRESHOLD < spec_p_eff P M C (H * W) i j (label_value L (H * W) i j)
      ∧ HasDerivAt
          (fun x => Forward_loss debug kLOG_THRESHOLD Real.log
            ⟨has_ignore_label, ignore_label, N, H * W⟩
            ⟨N, C, H, W,
              Function.update P (spec_offset C (H * W) i (label_value L (H * W) i j) j) x, dP⟩
            ⟨N, 1, H, W, L, dL⟩ ⟨N, 1, H, W, M, dM⟩)
          d (spec_at P C (H * W) i (label_value L (H * W) i j) j)
      ∧ Backward_cpu kLOG_THRESHOLD ⟨has_ignore_label, ignore_label, N, H * W⟩ g
          propagate_down
          ⟨N, C, H, W, P, dP⟩ ⟨N, 1, H, W, L, dL⟩ ⟨N, 1, H, W, M, dM⟩ = Outcome.done st
      ∧ g * d ≠ st.bottom_diff (spec_offset C (H * W) i (label_value L (H * W) i j) j) := by
  rintro ⟨debug, k, g, hil, il, N, C, H, W, P, L, M, dP, dL, dM, pd, i, j, d, st,
    h0, h1, hk, hchk, hlab, hi, hj, hign, hP, hpe, hd, hst, hne⟩
  obtain ⟨d', st', hd', hst', hv, _⟩ := probability_gradient_analytic debug k hil il
    N C H W P L M dP dL dM g pd h0 h1 hk hchk hlab i j hi hj hign hP hpe
  have hdd : d = d' := hd.unique hd'
  have hss : st = st' := by
    rw [hst] at hst'
    injection hst'
  apply hne
  rw [hdd, hss]
  exact hv.symm

/-- C14, amended: the probability gradient written by `Backward_cpu` is the
analytic gradient of the masked forward loss wherever no clamp is active.  For
every input with in-range labels on which `Forward_cpu` returns, with the
probability gradient requested, `0 < LOG_FLOOR`, and every non-ignored position
with `P[i,l,j] > LOG_FLOOR` and `p_eff > LOG_FLOOR`: the forward loss has a
partial derivative with respect to `P[i,l,j]`, and the value written to
`dP[i,l,j]` is the upstream gradient times it, namely `-g / (count *
P[i,l,j])`: the mask weight cancels. -/
theorem C14_probability_gradient_is_analytic (debug : Bool) (kLOG_THRESHOLD : ℝ)
    (has_ignore_label : Bool) (ignore_label : Int) (N C H W : Nat)
    (P L M dP dL dM : Int → ℝ) (g : ℝ) (propagate_down : Fin 3 → Bool)
    (h0 : propagate_down 0 = true) (h1 : propagate_down 1 = false)
    (hk : 0 < kLOG_THRESHOLD)
    (hchk : ∀ i, i < N → ∀ j, j < H * W → dchecks_pass debug C L (H * W) i j)
    (hlab : ∀ i, i < N → ∀ j, j < H * W →
      spec_ignored has_ignore_label ignore_label L (H * W) i j = false →
      0 ≤ label_value L (H * W) i j ∧ label_value L (H * W) i j < (C : Int))
    (i j : Nat) (hi : i < N) (hj : j < H * W)
    (hign : spec_ignored has_ignore_label ignore_label L (H * W) i j = false)
    (hP : kLOG_THRESHOLD < spec_at P C (H * W) i (label_value L (H * W) i j) j)
    (hpe : kLOG_THRESHOLD < spec_p_eff P M C (H * W) i j (label_value L (H * W) i j)) :
    ∃ (d : ℝ) (st : Diffs ℝ),
      HasDerivAt
        (fun x => Forward_loss debug kLOG_THRESHOLD Real.log
          ⟨has_ignore_label, ignore_label, N, H * W⟩
          ⟨N, C, H, W,
            Function.update P (spec_offset C (H * W) i (label_value L (H * W) i j) j) x, dP⟩
          ⟨N, 1, H, W, L, dL⟩ ⟨N, 1, H, W, M, dM⟩)
        d (spec_at P C (H * W) i (label_value L (H * W) i j) j)
      ∧ Backward_cpu kLOG_THRESHOLD ⟨has_ignore_label, ignore_label, N, H * W⟩ g propagate_down
          ⟨N, C, H, W, P, dP⟩ ⟨N, 1, H, W, L, dL⟩ ⟨N, 1, H, W, M, dM⟩ = Outcome.done st
      ∧ st.bottom_diff (spec_offset C (H * W) i (label_value L (H * W) i j) j) = g * d
      ∧ st.bottom_diff (spec_offset C (H * W) i (label_value L (H * W) i j) j)
          = - g / ((spec_count has_ignore_label ignore_label L N (H * W) : ℝ)
              * spec_at P C (H * W) i (label_value L (H * W) i j) j) :=
  probability_gradient_analytic debug kLOG_THRESHOLD has_ignore_label ignore_label
    N C H W P L M dP dL dM g propagate_down h0 h1 hk hchk hlab i j hi hj hign hP hpe

/-- Witness of C14 (amended): a debug build, one pixel, two classes, label
`1`, `P = 0.5`, `M = 0.8`, `g = 3`, `LOG_FLOOR = 1e-20`. -/
theorem C14_probability_gradient_is_analytic_witness :
    ∃ (d : ℝ) (st : Diffs ℝ),
      HasDerivAt
        (fun x => Forward_loss true ((1 : ℝ) / 10 ^ 20) Real.log ⟨false, 0, 1, 1 * 1⟩
          ⟨1, 2, 1, 1,
            Function.update (fun _ => (1 / 2 : ℝ))
              (spec_offset 2 (1 * 1) 0 (label_value (fun _ => (1 : ℝ)) (1 * 1) 0 0) 0) x,
            fun _ => 0⟩
          ⟨1, 1, 1, 1, fun _ => 1, fun _ => 0⟩ ⟨1, 1, 1, 1, fun _ => 4 / 5, fun _ => 0⟩)
        d (spec_at (fun _ => (1 / 2 : ℝ)) 2 (1 * 1) 0
            (label_value (fun _ => (1 : ℝ)) (1 * 1) 0 0) 0)
      ∧ Backward_cpu ((1 : ℝ) / 10 ^ 20) ⟨false, 0, 1, 1 * 1⟩ 3 ![true, false, false]
          ⟨1, 2, 1, 1, fun _ => 1 / 2, fun _ => 0⟩ ⟨1, 1, 1, 1, fun _ => 1, fun _ => 0⟩
          ⟨1, 1, 1, 1, fun _ => 4 / 5, fun _ => 0⟩ = Outcome.done st
      ∧ st.bottom_diff
          (spec_offset 2 (1 * 1) 0 (label_value (fun _ => (1 : ℝ)) (1 * 1) 0 0) 0) = 3 * d
      ∧ st.bottom_diff
          (spec_offset 2 (1 * 1) 0 (label_value (fun _ => (1 : ℝ)) (1 * 1) 0 0) 0)
          = - 3 / ((spec_count false 0 (fun _ => (1 : ℝ)) 1 (1 * 1) : ℝ)
              * spec_at (fun _ => (1 / 2 : ℝ)) 2 (1 * 1) 0
                  (label_value (fun _ => (1 : ℝ)) (1 * 1) 0 0) 0) :=
  C14_probability_gradient_is_analytic true ((1 : ℝ) / 10 ^ 20) false 0 1 2 1 1
    (fun _ => 1 / 2) (fun _ => 1) (fun _ => 4 / 5) (fun _ => 0) (fun _ => 0) (fun _ => 0) 3
    ![true, false, false] rfl rfl (by norm_num)
    (by intro i _ j _; right; simp [label_value, static_cast_int, INT_MIN, INT_MAX])
    (by intro i _ j _ _; simp [label_value, static_cast_int, INT_MIN, INT_MAX])
    0 0 (by norm_num) (by norm_num) (by simp [spec_ignored])
    (by simp only [spec_at]; norm_num)
    (by simp only [spec_p_eff, spec_at, label_value, static_cast_int, INT_MIN, INT_MAX]; norm_num)

/-- C15, counterexample: a debug build, `LOG_FLOOR = 1e-20`, one pixel, two
classes, stored label `0` (not ignored), `P = 0.5`, `g = 1`, and a mask value
below the floor.  The effective probability `0.5 * (1 - M)` is above
`LOG_FLOOR`, so the forward clamp is not active, and the forward loss has the
derivative `d = 1/(1 - M)` with respect to `M[0,0]`; but `Backward_cpu` clamps
the mask value to `LOG_FLOOR` and writes `1/(1 - 1e-20)`.  For `M = 0` this is
not `g * d = 1`; for `M = -1` it is not `g * d = 1/2`. -/
theorem C15_counterexample :
    (∃ (d : ℝ) (st : Diffs ℝ),
      spec_ignored false 0 (fun _ => (0 : ℝ)) (1 * 1) 0 0 = false
      ∧ (1 : ℝ) / 10 ^ 20
          < spec_p_eff (fun _ => (1 / 2 : ℝ)) (fun _ => (0 : ℝ)) 2 (1 * 1) 0 0
              (label_value (fun _ => (0 : ℝ)) (1 * 1) 0 0)
      ∧ HasDerivAt
          (fun x => Forward_loss true ((1 : ℝ) / 10 ^ 20) Real.log ⟨false, 0, 1, 1 * 1⟩
            ⟨1, 2, 1, 1, fun _ => 1 / 2, fun _ => 0⟩ ⟨1, 1, 1, 1, fun _ => 0, fun _ => 0⟩
            ⟨1, 1, 1, 1,
              Function.update (fun _ => (0 : ℝ)) (spec_offset 1 (1 * 1) 0 0 0) x, fun _ => 0⟩)
          d (spec_at (fun _ => (0 : ℝ)) 1 (1 * 1) 0 0 0)
      ∧ Backward_cpu ((1 : ℝ) / 10 ^ 20) ⟨false, 0, 1, 1 * 1⟩ 1 ![false, false, true]
          ⟨1, 2, 1, 1, fun _ => 1 / 2, fun _ => 0⟩ ⟨1, 1, 1, 1, fun _ => 0, fun _ => 0⟩
          ⟨1, 1, 1, 1, fun _ => 0, fun _ => 0⟩ = Outcome.done st
      ∧ d = 1
      ∧ st.mask_diff (spec_offset 1 (1 * 1) 0 0 0) ≠ 1 * d)
    ∧ (∃ (d : ℝ) (st : Diffs ℝ),
      spec_ignored false 0 (fun _ => (0 : ℝ)) (1 * 1) 0 0 = false
      ∧ (1 : ℝ) / 10 ^ 20
          < spec_p_eff (fun _ => (1 / 2 : ℝ)) (fun _ => (-1 : ℝ)) 2 (1 * 1) 0 0
              (label_value (fun _ => (0 : ℝ)) (1 * 1) 0 0)
      ∧ HasDerivAt
          (fun x => Forward_loss true ((1 : ℝ) / 10 ^ 20) Real.log ⟨false, 0, 1, 1 * 1⟩
            ⟨1, 2, 1, 1, fun _ => 1 / 2, fun _ => 0⟩ ⟨1, 1, 1, 1, fun _ => 0, fun _ => 0⟩
            ⟨1, 1, 1, 1,
              Function.update (fun _ => (-1 : ℝ)) (spec_offset 1 (1 * 1) 0 0 0) x, fun _ => 0⟩)
          d (spec_at (fun _ => (-1 : ℝ)) 1 (1 * 1) 0 0 0)
      ∧ Backward_cpu ((1 : ℝ) / 10 ^ 20) ⟨false, 0, 1, 1 * 1⟩ 1 ![false, false, true]
          ⟨1, 2, 1, 1, fun _ => 1 / 2, fun _ => 0⟩ ⟨1, 1, 1, 1, fun _ => 0, fun _ => 0⟩
          ⟨1, 1, 1, 1, fun _ => -1, fun _ => 0⟩ = Outcome.done st
      ∧ d = 1 / 2
      ∧ st.mask_diff (spec_offset 1 (1 * 1) 0 0 0) ≠ 1 * d) := by
  have key : ∀ m0 : ℝ, m0 ≤ 0 →
      ∃ (d : ℝ) (st : Diffs ℝ),
        spec_ignored false 0 (fun _ => (0 : ℝ)) (1 * 1) 0 0 = false
        ∧ (1 : ℝ) / 10 ^ 20
            < spec_p_eff (fun _ => (1 / 2 : ℝ)) (fun _ => m0) 2 (1 * 1) 0 0
                (label_value (fun _ => (0 : ℝ)) (1 * 1) 0 0)
        ∧ HasDerivAt
            (fun x => Forward_loss true ((1 : ℝ) / 10 ^ 20) Real.log ⟨false, 0, 1, 1 * 1⟩
              ⟨1, 2, 1, 1, fun _ => 1 / 2, fun _ => 0⟩ ⟨1, 1, 1, 1, fun _ => 0, fun _ => 0⟩
              ⟨1, 1, 1, 1,
                Function.update (fun _ => m0) (spec_offset 1 (1 * 1) 0 0 0) x, fun _ => 0⟩)
            d (spec_at (fun _ => m0) 1 (1 * 1) 0 0 0)
        ∧ Backward_cpu ((1 : ℝ) / 10 ^ 20) ⟨false, 0, 1, 1 * 1⟩ 1 ![false, false, true]
            ⟨1, 2, 1, 1, fun _ => 1 / 2, fun _ => 0⟩ ⟨1, 1, 1, 1, fun _ => 0, fun _ => 0⟩
            ⟨1, 1, 1, 1, fun _ => m0, fun _ => 0⟩ = Outcome.done st
        ∧ d = 1 / (1 - m0)
        ∧ st.mask_diff (spec_offset 1 (1 * 1) 0 0 0) = 1 / (1 - 1 / 10 ^ 20) := by
    intro m0 hm0
    have hl : label_value (fun _ => (0 : ℝ)) (1 * 1) 0 0 = 0 := by
      simp [label_value, static_cast_int, INT_MIN, INT_MAX]
    have hign : spec_ignored false 0 (fun _ => (0 : ℝ)) (1 * 1) 0 0 = false := by
      simp [spec_ignored]
    have hpe : (1 : ℝ) / 10 ^ 20
        < spec_p_eff (fun _ => (1 / 2 : ℝ)) (fun _ => m0) 2 (1 * 1) 0 0
            (label_value (fun _ => (0 : ℝ)) (1 * 1) 0 0) := by
      rw [hl]
      simp only [spec_p_eff, spec_at]
      norm_num
      nlinarith
    have hcnt : spec_count false 0 (fun _ => (0 : ℝ)) 1 (1 * 1) = 1 := by
      simp [spec_count, spec_ignored]
    have hD := forward_loss_hasDerivAt_mask true ((1 : ℝ) / 10 ^ 20) false 0 1 2 1 1
      (fun _ => 1 / 2) (fun _ => 0) (fun _ => m0) (fun _ => 0) (fun _ => 0) (fun _ => 0)
      (by norm_num)
      (by intro i _ j _; right; simp [label_value, static_cast_int, INT_MIN, INT_MAX])
      0 0 (by norm_num) (by norm_num) hign hpe
    obtain ⟨st, hst, hv⟩ := backward_mask_diff_spec ((1 : ℝ) / 10 ^ 20) false 0 1 2 1 1
      (fun _ => 1 / 2) (fun _ => 0) (fun _ => m0) (fun _ => 0) (fun _ => 0) (fun _ => 0) 1
      ![false, false, true] rfl rfl (by norm_num)
    have hval := (hv 0 (by norm_num) 0 (by norm_num)).2.2 hign hl
    have hdv : (if label_value (fun _ => (0 : ℝ)) (1 * 1) 0 0 ≠ 0
          then -(1 / spec_at (fun _ => m0) 1 (1 * 1) 0 0 0)
          else 1 / (1 - spec_at (fun _ => m0) 1 (1 * 1) 0 0 0))
        / max (1 : ℝ) (spec_count false 0 (fun _ => (0 : ℝ)) 1 (1 * 1) : ℝ)
        = 1 / (1 - m0) := by
      rw [hl, hcnt]
      simp [spec_at]
    refine ⟨_, st, hign, hpe, hD, hst, hdv, ?_⟩
    rw [hval, hcnt]
    simp only [spec_at]
    rw [max_eq_right (le_trans hm0 (by norm_num : (0 : ℝ) ≤ 1 / 10 ^ 20))]
    norm_num
  constructor
  · obtain ⟨d, st, h1, h2, h3, h4, h5, h6⟩ := key 0 (le_refl 0)
    refine ⟨d, st, h1, h2, h3, h4, by rw [h5]; norm_num, ?_⟩
    rw [h6, h5]
    norm_num
  · obtain ⟨d, st, h1, h2, h3, h4, h5, h6⟩ := key (-1) (by norm_num)
    refine ⟨d, st, h1, h2, h3, h4, by rw [h5]; norm_num, ?_⟩
    rw [h6, h5]
    norm_num

/-- C15, amended: the mask gradient is the derivative of the forward loss
wherever neither clamp is active.  For every input on which `Forward_cpu`
returns, with the mask gradient requested, `0 < LOG_FLOOR`, every upstream
gradient `g` and every non-ignored position with `p_eff > LOG_FLOOR` and
`M[i,j] ≥ LOG_FLOOR`: the forward loss has a partial derivative with respect
to `M[i,j]`, and the value written to `dM[i,j]` is `g` times it, namely
`-g / (count * M[i,j])` for a non-zero label and `g / (count * (1 - M[i,j]))`
for label `0`. -/
theorem C15_mask_gradient_is_analytic (debug : Bool) (kLOG_THRESHOLD : ℝ)
    (has_ignore_label : Bool) (ignore_label : Int) (N C H W : Nat)
    (P L M dP dL dM : Int → ℝ) (g : ℝ) (propagate_down : Fin 3 → Bool)
    (h2 : propagate_down 2 = true) (h1 : propagate_down 1 = false)
    (hk : 0 < kLOG_THRESHOLD)
    (hchk : ∀ i, i < N → ∀ j, j < H * W → dchecks_pass debug C L (H * W) i j)
    (i j : Nat) (hi : i < N) (hj : j < H * W)
    (hign : spec_ignored has_ignore_label ignore_label L (H * W) i j = false)
    (hpe : kLOG_THRESHOLD < spec_p_eff P M C (H * W) i j (label_value L (H * W) i j))
    (hM : kLOG_THRESHOLD ≤ spec_at M 1 (H * W) i 0 j) :
    ∃ (d : ℝ) (st : Diffs ℝ),
      HasDerivAt
        (fun x => Forward_loss debug kLOG_THRESHOLD Real.log
          ⟨has_ignore_label, ignore_label, N, H * W⟩
          ⟨N, C, H, W, P, dP⟩ ⟨N, 1, H, W, L, dL⟩
          ⟨N, 1, H, W, Function.update M (spec_offset 1 (H * W) i 0 j) x, dM⟩)
        d (spec_at M 1 (H * W) i 0 j)
      ∧ Backward_cpu kLOG_THRESHOLD ⟨has_ignore_label, ignore_label, N, H * W⟩ g propagate_down
          ⟨N, C, H, W, P, dP⟩ ⟨N, 1, H, W, L, dL⟩ ⟨N, 1, H, W, M, dM⟩ = Outcome.done st
      ∧ st.mask_diff (spec_offset 1 (H * W) i 0 j) = g * d
      ∧ (label_value L (H * W) i j ≠ 0 →
          st.mask_diff (spec_offset 1 (H * W) i 0 j)
            = - g / ((spec_count has_ignore_label ignore_label L N (H * W) : ℝ)
                * spec_at M 1 (H * W) i 0 j))
      ∧ (label_value L (H * W) i j = 0 →
          st.mask_diff (spec_offset 1 (H * W) i 0 j)
            = g / ((spec_count has_ignore_label ignore_label L N (H * W) : ℝ)
                * (1 - spec_at M 1 (H * W) i 0 j))) :=
  mask_gradient_analytic debug kLOG_THRESHOLD has_ignore_label ignore_label
    N C H W P L M dP dL dM g propagate_down h2 h1 hk hchk i j hi hj hign hpe hM

/-- Witness of C15 (amended): a debug build, one pixel, two classes, label
`0`, `P = 0.5`, `M = 0.3`, `g = 3`, `LOG_FLOOR = 1e-20`. -/
theorem C15_mask_gradient_is_analytic_witness :
    ∃ (d : ℝ) (st : Diffs ℝ),
      HasDerivAt
        (fun x => Forward_loss true ((1 : ℝ) / 10 ^ 20) Real.log ⟨false, 0, 1, 1 * 1⟩
          ⟨1, 2, 1, 1, fun _ => 1 / 2, fun _ => 0⟩ ⟨1, 1, 1, 1, fun _ => 0, fun _ => 0⟩
          ⟨1, 1, 1, 1,
            Function.update (fun _ => (3 / 10 : ℝ)) (spec_offset 1 (1 * 1) 0 0 0) x,
            fun _ => 0⟩)
        d (spec_at (fun _ => (3 / 10 : ℝ)) 1 (1 * 1) 0 0 0)
      ∧ Backward_cpu ((1 : ℝ) / 10 ^ 20) ⟨false, 0, 1, 1 * 1⟩ 3 ![false, false, true]
          ⟨1, 2, 1, 1, fun _ => 1 / 2, fun _ => 0⟩ ⟨1, 1, 1, 1, fun _ => 0, fun _ => 0⟩
          ⟨1, 1, 1, 1, fun _ => 3 / 10, fun _ => 0⟩ = Outcome.done st
      ∧ st.mask_diff (spec_offset 1 (1 * 1) 0 0 0) = 3 * d
      ∧ (label_value (fun _ => (0 : ℝ)) (1 * 1) 0 0 ≠ 0 →
          st.mask_diff (spec_offset 1 (1 * 1) 0 0 0)
            = - 3 / ((spec_count false 0 (fun _ => (0 : ℝ)) 1 (1 * 1) : ℝ)
                * spec_at (fun _ => (3 / 10 : ℝ)) 1 (1 * 1) 0 0 0))
      ∧ (label_value (fun _ => (0 : ℝ)) (1 * 1) 0 0 = 0 →
          st.mask_diff (spec_offset 1 (1 * 1) 0 0 0)
            = 3 / ((spec_count false 0 (fun _ => (0 : ℝ)) 1 (1 * 1) : ℝ)
                * (1 - spec_at (fun _ => (3 / 10 : ℝ)) 1 (1 * 1) 0 0 0))) :=
  C15_mask_gradient_is_analytic true ((1 : ℝ) / 10 ^ 20) false 0 1 2 1 1
    (fun _ => 1 / 2) (fun _ => 0) (fun _ => 3 / 10) (fun _ => 0) (fun _ => 0) (fun _ => 0) 3
    ![false, false, true] rfl rfl (by norm_num)
    (by intro i _ j _; right; simp [label_value, static_cast_int, INT_MIN, INT_MAX])
    0 0 (by norm_num) (by norm_num) (by simp [spec_ignored])
    (by simp only [spec_p_eff, spec_at, label_value, static_cast_int, INT_MIN, INT_MAX]; norm_num)
    (by simp only [spec_at]; norm_num)

end Claims3

end caffe
